import Mathlib

/-! # Equalizer: frame update visitor, view deltas, child-list deserialization

A shallow embedding of

* `eq::server::ChannelUpdateVisitor` (`libs/eq/server/channelUpdateVisitor.cpp`),
* `eq::View` (`lib/client/view.cpp`),
* `co::DataIStream::deserializeChildren` and the vector readers
  (`libs/co/dataIStream.h`),
* `eq::util::Texture` (`lib/util/texture.cpp`) and
  `eq::server::DFRLoadBalancer::update` (`server/dfrLoadBalancer.cpp`),

together with the properties the specification states about them.

Conventions.

* Objects that the sources compare by pointer carry an `addr` field; a null
  pointer is `none`.
* `float` values that take part in arithmetic are rationals; `float` values
  that are only copied into a byte stream are their four bytes. The frustum
  corner computation is embedded a second time over an arithmetic given as a
  parameter, with IEEE 754 binary32 (round to nearest, ties to even, one
  rounding per operation) as an instance: the properties that depend on
  rounding or on a division by zero are stated there.
* `EQASSERT` / `EQASSERTINFO` are debug diagnostics and expand to nothing in a
  release build; the embedding follows the release build.
* Sending a packet appends it to the ordered packet log of the state.
* Accessors, constants and library operations that the sources use but do not
  define are fields of the objects, parameters (`Fabric`) or are modelled from
  the specification; their doc comments say so. The traversal of the compound
  tree and the per-eye frame driver are modelled from the specification.
-/

namespace Equalizer

/-! ## Fabric data types -/

/-- The eye passes of `fabric::Eye`. -/
inductive Eye where
  | CYCLOP
  | LEFT
  | RIGHT
  deriving DecidableEq, Repr

/-- Storage with one slot per eye, as the per-eye arrays of the sources. -/
structure PerEye (α : Type) where
  cyclop : α
  left : α
  right : α
  deriving DecidableEq, Repr

/-- The slot of one eye. -/
def PerEye.get {α : Type} (p : PerEye α) : Eye → α
  | .CYCLOP => p.cyclop
  | .LEFT => p.left
  | .RIGHT => p.right

/-- Identifier and version of a distributed object, `co::ObjectVersion`. -/
structure ObjectVersion where
  identifier : Nat
  version : Nat
  deriving DecidableEq, Repr

/-- Integer pixel rectangle, `fabric::PixelViewport`. -/
structure PixelViewport where
  x : Int
  y : Int
  w : Int
  h : Int
  deriving DecidableEq, Repr

/-- Fractional rectangle, `fabric::Viewport`. -/
structure Viewport where
  x : ℚ
  y : ℚ
  w : ℚ
  h : ℚ
  deriving DecidableEq

/-- Pixel decomposition, `fabric::Pixel`. -/
structure Pixel where
  x : Int
  y : Int
  w : Int
  h : Int
  deriving DecidableEq, Repr

/-- Subpixel decomposition, `fabric::SubPixel`. -/
structure SubPixel where
  index : Nat
  size : Nat
  deriving DecidableEq, Repr

/-- Database range, `fabric::Range`. -/
structure Range where
  start : ℚ
  stop : ℚ
  deriving DecidableEq

/-- Zoom factor, `fabric::Zoom`. -/
structure Zoom where
  x : ℚ
  y : ℚ
  deriving DecidableEq

/-- Four integers, `Vector4i` (overdraw). -/
structure Vector4i where
  x : Int
  y : Int
  z : Int
  w : Int
  deriving DecidableEq, Repr

/-- Two integers, `Vector2i` (offset). -/
structure Vector2i where
  x : Int
  y : Int
  deriving DecidableEq, Repr

/-- Three floats, `Vector3f`. -/
structure Vector3f where
  x : ℚ
  y : ℚ
  z : ℚ
  deriving DecidableEq

/-- The zero vector, `Vector3f::ZERO`. -/
def Vector3f.ZERO : Vector3f := ⟨0, 0, 0⟩

/-- Component access `eye[i]`. -/
def Vector3f.at (v : Vector3f) (i : Nat) : ℚ :=
  if i = 0 then v.x else if i = 1 then v.y else v.z

/-- A 4x4 matrix through its sixteen-element `array`, `Matrix4f`. -/
structure Matrix4f where
  array : Nat → ℚ

/-- The frustum `left, right, bottom, top, near, far`, `Frustumf`. -/
structure Frustumf where
  left : ℚ
  right : ℚ
  bottom : ℚ
  top : ℚ
  near_plane : ℚ
  far_plane : ℚ
  deriving DecidableEq

/-- The colour mask of a draw buffer: `ColorMask::ALL` or the mask constructed
from an integer attribute. -/
inductive ColorMask where
  | ALL
  | ofAttribute (attr : Int)
  deriving DecidableEq, Repr

/-- Values of the compound attribute `IATTR_STEREO_MODE`. -/
inductive StereoMode where
  | AUTO
  | QUAD
  | ANAGLYPH
  | PASSIVE
  deriving DecidableEq, Repr

/-- The kind of a wall, `Wall::Type`: fixed or head-mounted. -/
inductive WallType where
  | TYPE_FIXED
  | TYPE_HMD
  deriving DecidableEq, Repr

/-- Modelled from the spec: the task bits of `fabric::Task` are declared in a
header outside the sources; the task mask is a subset of
CLEAR, DRAW, ASSEMBLE, READBACK, VIEW and `TASK_NONE` is the empty mask. -/
def TASK_NONE : Nat := 0

/-- Task bit VIEW. -/
def TASK_VIEW : Nat := 0x2

/-- Task bit CLEAR. -/
def TASK_CLEAR : Nat := 0x10

/-- Task bit DRAW. -/
def TASK_DRAW : Nat := 0x1000

/-- Task bit ASSEMBLE. -/
def TASK_ASSEMBLE : Nat := 0x10000

/-- Task bit READBACK. -/
def TASK_READBACK : Nat := 0x100000

/-! ## Server objects read by the visitor -/

/-- Head tracking state of a view, `server::Observer`. -/
structure Observer where
  eyePosition : PerEye Vector3f
  eyeBase : ℚ
  inverseHeadMatrix : Matrix4f

/-- The view of a destination channel, `server::View`. -/
structure ServerView where
  viewport : Viewport
  observer : Option Observer

/-- A segment of a canvas, `server::Segment`. -/
structure Segment where
  viewport : Viewport

/-- The frustum description inherited by a compound, `FrustumData`. -/
structure FrustumData where
  type : WallType
  transform : Matrix4f
  width : ℚ
  height : ℚ

/-- Window capabilities, `DrawableConfig`. -/
structure DrawableConfig where
  stereo : Bool
  doublebuffered : Bool
  deriving DecidableEq, Repr

/-- The render node of a channel or frame, `server::Node`. `netNodeID` is the
identifier of its network node (`getNode()->getNodeID()`). -/
structure Node where
  addr : Nat
  id : Nat
  netNodeID : Nat
  lastDrawPipe : Option Nat
  deriving DecidableEq, Repr

/-- A pipe, `server::Pipe`. -/
structure Pipe where
  addr : Nat
  id : Nat
  lastDrawWindow : Option Nat
  deriving DecidableEq, Repr

/-- A window, `server::Window`, without its mutable maximum frame rate. -/
structure Window where
  addr : Nat
  id : Nat
  lastDrawChannel : Option Nat
  drawableConfig : DrawableConfig
  deriving DecidableEq, Repr

/-- A channel, `server::Channel`, without its mutable last draw compound.
`segment` is read only for a channel with a view, where the sources assert
that it is present. -/
structure Channel where
  addr : Nat
  id : Nat
  hasListeners : Bool
  pixelViewport : PixelViewport
  overdraw : Vector4i
  frustum : Frustumf
  viewVersion : ObjectVersion
  view : Option ServerView
  segment : Segment
  window : Window
  pipe : Pipe
  node : Node

/-- An input frame consuming an output frame; planning reads only the node
hosting it. -/
structure InputFrame where
  node : Node
  deriving DecidableEq, Repr

/-- A frame of a compound, `server::Frame`. -/
structure Frame where
  objectVersion : ObjectVersion
  hasData : PerEye Bool
  dataVersion : PerEye ObjectVersion
  inputFrames : PerEye (List InputFrame)
  deriving DecidableEq, Repr

/-- The inherited state of a compound as the visitor reads it. `channel` is
the result of `getChannel()`, `inheritChannel` the destination channel. -/
structure Compound where
  addr : Nat
  channel : Option Nat
  inheritChannel : Channel
  inheritActive : PerEye Bool
  lastInheritEye : PerEye Bool
  inheritTasks : Nat
  inheritPixelViewport : PixelViewport
  inheritOverdraw : Vector4i
  inheritViewport : Viewport
  inheritRange : Range
  inheritPixel : Pixel
  inheritSubPixel : SubPixel
  inheritZoom : Zoom
  inheritPeriod : Nat
  inheritPhase : Nat
  taskID : Nat
  inheritStereoMode : StereoMode
  inheritAnaglyphLeftMask : Int
  inheritAnaglyphRightMask : Int
  inheritMaxFPS : ℚ
  inheritFrustumData : FrustumData
  configEyeBase : ℚ
  inputFrames : List Frame
  outputFrames : List Frame

/-- The accessor `Compound::isInheritActive( eye )`. -/
def Compound.isInheritActive (c : Compound) (eye : Eye) : Bool :=
  c.inheritActive.get eye

/-- The accessor `Compound::isLastInheritEye( eye )`. -/
def Compound.isLastInheritEye (c : Compound) (eye : Eye) : Bool :=
  c.lastInheritEye.get eye

/-- Modelled from the spec: `Compound::testInheritTask` is declared outside
the sources; the inherited task mask includes the task. -/
def Compound.testInheritTask (c : Compound) (task : Nat) : Bool :=
  c.inheritTasks &&& task != 0

/-! ## Library operations outside the sources -/

/-- Operations and constants of the fabric and vector libraries that the
visitor calls and whose definitions are outside the sources. They are kept as
parameters of the visitor. -/
structure Fabric where
  pixelALL : Pixel
  pixelIsValid : Pixel → Bool
  viewportFULL : Viewport
  viewportIsValid : Viewport → Bool
  pvpHasArea : PixelViewport → Bool
  applyView : Viewport → Viewport → Viewport → PixelViewport → Vector4i → Viewport
  mulPoint : Matrix4f → Vector3f → Vector3f
  mulMatrix : Matrix4f → Matrix4f → Matrix4f
  identity : Matrix4f

/-! ## Packets and the render context -/

/-- The per-task payload, `RenderContext`. -/
structure RenderContext where
  frameID : Nat
  pvp : PixelViewport
  overdraw : Vector4i
  vp : Viewport
  range : Range
  pixel : Pixel
  subpixel : SubPixel
  zoom : Zoom
  period : Nat
  phase : Nat
  offset : Vector2i
  eye : Eye
  buffer : Nat
  bufferMask : ColorMask
  view : ObjectVersion
  taskID : Nat
  frustum : Frustumf
  headTransform : Matrix4f
  ortho : Frustumf
  orthoTransform : Matrix4f

/-- The task packets emitted by the visitor. -/
inductive Packet where
  | ChannelFrameViewStart (context : RenderContext)
  | ChannelFrameClear (context : RenderContext)
  | ChannelFrameDraw (context : RenderContext) (finish : Bool)
  | ChannelFrameDrawFinish (objectID frameNumber frameID : Nat)
  | WindowFrameDrawFinish (objectID frameNumber frameID : Nat)
  | PipeFrameDrawFinish (objectID frameNumber frameID : Nat)
  | NodeFrameDrawFinish (objectID frameNumber frameID : Nat)
  | ChannelFrameAssemble (context : RenderContext) (nFrames : Nat)
      (frames : List ObjectVersion)
  | ChannelFrameReadback (context : RenderContext) (nFrames : Nat)
      (frames : List ObjectVersion)
  | ChannelFrameTransmit (context : RenderContext) (frameData : ObjectVersion)
      (netNodeID clientNodeID : Nat)
  | ChannelFrameViewFinish (context : RenderContext)

/-- Result of a visit, `VisitorResult`. -/
inductive VisitorResult where
  | TRAVERSE_CONTINUE
  | TRAVERSE_PRUNE
  | TRAVERSE_TERMINATE
  deriving DecidableEq, Repr

/-- What a visit can change: the channel's last draw compound, the maximum
frame rate of the channel's window, the packets sent so far (oldest first)
and the visitor's `_updated` flag. -/
structure State where
  lastDrawCompound : Option Nat
  maxFPS : ℚ
  sent : List Packet
  updated : Bool

/-- Sending a packet appends it to the log. -/
def State.send (s : State) (p : Packet) : State :=
  { s with sent := s.sent ++ [p] }

/-- The visitor: the channel it updates, the eye pass, frame id and number. -/
structure ChannelUpdateVisitor where
  lib : Fabric
  channel : Channel
  eye : Eye
  frameID : Nat
  frameNumber : Nat

namespace ChannelUpdateVisitor

/-- GL draw buffer constants of the source file. -/
def GL_FRONT_LEFT : Nat := 0x0400

/-- GL constant. -/
def GL_FRONT_RIGHT : Nat := 0x0401

/-- GL constant. -/
def GL_BACK_LEFT : Nat := 0x0402

/-- GL constant. -/
def GL_BACK_RIGHT : Nat := 0x0403

/-- GL constant. -/
def GL_FRONT : Nat := 0x0404

/-- GL constant. -/
def GL_BACK : Nat := 0x0405

/-- The table `_drawBuffer[stereo][doublebuffered][eye]` filled by
`_setDrawBuffers`. -/
def _drawBuffer (stereo doublebuffered : Bool) (eye : Eye) : Nat :=
  match stereo, doublebuffered, eye with
  | false, false, _ => GL_FRONT
  | false, true, _ => GL_BACK
  | true, false, .CYCLOP => GL_FRONT
  | true, false, .LEFT => GL_FRONT_LEFT
  | true, false, .RIGHT => GL_FRONT_RIGHT
  | true, true, .CYCLOP => GL_BACK
  | true, true, .LEFT => GL_BACK_LEFT
  | true, true, .RIGHT => GL_BACK_RIGHT

/-- The skip predicate `_skipCompound`. -/
def _skipCompound (v : ChannelUpdateVisitor) (compound : Compound) : Bool :=
  compound.channel != some v.channel.addr ||
  !compound.isInheritActive v.eye ||
  compound.inheritTasks == TASK_NONE

/-- Draw buffer selection `_getDrawBuffer`. -/
def _getDrawBuffer (v : ChannelUpdateVisitor) (compound : Compound) : Nat :=
  let dc := v.channel.window.drawableConfig
  if compound.inheritStereoMode = StereoMode.QUAD then
    _drawBuffer dc.stereo dc.doublebuffered v.eye
  else
    _drawBuffer false dc.doublebuffered v.eye

/-- Colour mask selection `_getDrawBufferMask`. -/
def _getDrawBufferMask (v : ChannelUpdateVisitor) (compound : Compound) : ColorMask :=
  if compound.inheritStereoMode ≠ StereoMode.ANAGLYPH then ColorMask.ALL
  else
    match v.eye with
    | .LEFT => ColorMask.ofAttribute compound.inheritAnaglyphLeftMask
    | .RIGHT => ColorMask.ofAttribute compound.inheritAnaglyphRightMask
    | .CYCLOP => ColorMask.ALL

/-- Eye position in world space, `_getEyePosition`. -/
def _getEyePosition (compound : Compound) (eye : Eye) : Vector3f :=
  let frustumData := compound.inheritFrustumData
  let observer : Option Observer :=
    match compound.inheritChannel.view with
    | some view => view.observer
    | none => none
  match observer, frustumData.type with
  | some o, .TYPE_FIXED => o.eyePosition.get eye
  | _, _ =>
    let eyeBase_2 : ℚ := (1 / 2) *
      (match observer with
       | some o => o.eyeBase
       | none => compound.configEyeBase)
    match eye with
    | .LEFT => ⟨-eyeBase_2, 0, 0⟩
    | .RIGHT => ⟨eyeBase_2, 0, 0⟩
    | .CYCLOP => Vector3f.ZERO

/-- The inverse head matrix of the destination view's observer,
`_getInverseHeadMatrix`. -/
def _getInverseHeadMatrix (v : ChannelUpdateVisitor) (compound : Compound) : Matrix4f :=
  let observer : Option Observer :=
    match compound.inheritChannel.view with
    | some view => view.observer
    | none => none
  match observer with
  | some o => o.inverseHeadMatrix
  | none => v.lib.identity

/-- One round of the loop of `_computeHeadTransform`, for the group starting
at array index `i`. -/
def _computeHeadTransformGroup (xfm : Matrix4f) (eye : Vector3f) (i : Nat)
    (result : Nat → ℚ) : Nat → ℚ :=
  let r0 := Function.update result i (xfm.array i - eye.at 0 * xfm.array (i + 3))
  let r1 := Function.update r0 (i + 1) (xfm.array (i + 1) - eye.at 1 * xfm.array (i + 3))
  let r2 := Function.update r1 (i + 2) (xfm.array (i + 2) - eye.at 2 * xfm.array (i + 3))
  Function.update r2 (i + 3) (xfm.array (i + 3))

/-- The head transform `_computeHeadTransform( result, xfm, eye )`; the loop
runs for `i = 0, 4, 8, 12`. -/
def _computeHeadTransform (result xfm : Matrix4f) (eye : Vector3f) : Matrix4f :=
  ⟨[0, 4, 8, 12].foldl (fun r i => _computeHeadTransformGroup xfm eye i r) result.array⟩

/-- Frustum corners, `_computeFrustumCorners`. The quotient by `eye.z` is the
rational one. -/
def _computeFrustumCorners (v : ChannelUpdateVisitor) (compound : Compound)
    (frustumData : FrustumData) (eye : Vector3f) (ortho : Bool) : Frustumf :=
  let destination := compound.inheritChannel
  let frustum := destination.frustum
  let ratio : ℚ := if ortho then 1 else frustum.near_plane / eye.z
  let width_2 : ℚ := frustumData.width * (1 / 2)
  let height_2 : ℚ := frustumData.height * (1 / 2)
  let frustum : Frustumf :=
    if eye.z > 0 ∨ ortho = true then
      { frustum with
        left := (-width_2 - eye.x) * ratio
        right := (width_2 - eye.x) * ratio
        bottom := (-height_2 - eye.y) * ratio
        top := (height_2 - eye.y) * ratio }
    else
      { frustum with
        left := (width_2 - eye.x) * ratio
        right := (-width_2 - eye.x) * ratio
        bottom := (height_2 + eye.y) * ratio
        top := (-height_2 + eye.y) * ratio }
  -- move frustum according to pixel decomposition
  let pixel := compound.inheritPixel
  let frustum : Frustumf :=
    if pixel ≠ v.lib.pixelALL ∧ v.lib.pixelIsValid pixel = true then
      let destPVP := compound.inheritChannel.pixelViewport
      let frustum : Frustumf :=
        if pixel.w > 1 then
          let frustumWidth := frustum.right - frustum.left
          let pixelWidth := frustumWidth / (destPVP.w : ℚ)
          let jitter := pixelWidth * (pixel.x : ℚ) - pixelWidth * (1 / 2)
          { frustum with left := frustum.left + jitter, right := frustum.right + jitter }
        else frustum
      if pixel.h > 1 then
        let frustumHeight := frustum.bottom - frustum.top
        let pixelHeight := frustumHeight / (destPVP.h : ℚ)
        let jitter := pixelHeight * (pixel.y : ℚ) + pixelHeight * (1 / 2)
        { frustum with top := frustum.top - jitter, bottom := frustum.bottom - jitter }
      else frustum
    else frustum
  -- adjust to viewport (screen-space decomposition)
  let vp := compound.inheritViewport
  if vp ≠ v.lib.viewportFULL ∧ v.lib.viewportIsValid vp = true then
    let frustumWidth := frustum.right - frustum.left
    let left := frustum.left + frustumWidth * vp.x
    let right := left + frustumWidth * vp.w
    let frustumHeight := frustum.top - frustum.bottom
    let bottom := frustum.bottom + frustumHeight * vp.y
    let top := bottom + frustumHeight * vp.h
    { frustum with left := left, right := right, bottom := bottom, top := top }
  else frustum

/-- Perspective part of the context, `_computePerspective`. -/
def _computePerspective (v : ChannelUpdateVisitor) (compound : Compound)
    (context : RenderContext) (eye : Vector3f) : RenderContext :=
  let frustumData := compound.inheritFrustumData
  let frustum := _computeFrustumCorners v compound frustumData eye false
  let headTransform := _computeHeadTransform context.headTransform frustumData.transform eye
  let isHMD := frustumData.type ≠ WallType.TYPE_FIXED
  let headTransform :=
    if isHMD then v.lib.mulMatrix headTransform (_getInverseHeadMatrix v compound)
    else headTransform
  { context with frustum := frustum, headTransform := headTransform }

/-- Orthographic part of the context, `_computeOrtho`. -/
def _computeOrtho (v : ChannelUpdateVisitor) (compound : Compound)
    (context : RenderContext) (eye : Vector3f) : RenderContext :=
  let cyclopWorld := _getEyePosition compound Eye.CYCLOP
  let frustumData := compound.inheritFrustumData
  let xfm := frustumData.transform
  let cyclopWall := v.lib.mulPoint xfm cyclopWorld
  let ortho := _computeFrustumCorners v compound frustumData cyclopWall true
  let orthoTransform := _computeHeadTransform context.orthoTransform xfm eye
  -- Apply stereo shearing
  let a8 := Function.update orthoTransform.array 8
    (orthoTransform.array 8 + (cyclopWall.at 0 - eye.at 0) / eye.at 2)
  let a9 := Function.update a8 9 (a8 9 + (cyclopWall.at 1 - eye.at 1) / eye.at 2)
  let orthoTransform : Matrix4f := ⟨a9⟩
  let isHMD := frustumData.type ≠ WallType.TYPE_FIXED
  let orthoTransform :=
    if isHMD then v.lib.mulMatrix orthoTransform (_getInverseHeadMatrix v compound)
    else orthoTransform
  { context with ortho := ortho, orthoTransform := orthoTransform }

/-- Frusta and head transforms of the context, `_computeFrustum`. -/
def _computeFrustum (v : ChannelUpdateVisitor) (compound : Compound)
    (context : RenderContext) : RenderContext :=
  let eyeWorld := _getEyePosition compound v.eye
  let frustumData := compound.inheritFrustumData
  let xfm := frustumData.transform
  let eyeWall := v.lib.mulPoint xfm eyeWorld
  _computeOrtho v compound (_computePerspective v compound context eyeWall) eyeWall

/-- The value of a default-constructed `RenderContext` in the fields that
`_setupRenderContext` reads before writing them: the two transforms. -/
def defaultTransform (v : ChannelUpdateVisitor) : Matrix4f := v.lib.identity

/-- Construction of the render context, `_setupRenderContext`. -/
def _setupRenderContext (v : ChannelUpdateVisitor) (compound : Compound) : RenderContext :=
  let destChannel := compound.inheritChannel
  let pvp := compound.inheritPixelViewport
  let offset : Vector2i := ⟨pvp.x, pvp.y⟩
  let vp := compound.inheritViewport
  let vp :=
    match destChannel.view with
    | some view =>
      let segment := destChannel.segment
      if v.lib.pvpHasArea destChannel.pixelViewport then
        v.lib.applyView vp segment.viewport view.viewport destChannel.pixelViewport
          destChannel.overdraw
      else vp
    | none => vp
  let pvp :=
    if v.channel.addr ≠ destChannel.addr then
      let nativePVP := v.channel.pixelViewport
      { pvp with x := nativePVP.x, y := nativePVP.y }
    else pvp
  let context : RenderContext :=
    { frameID := v.frameID
      pvp := pvp
      overdraw := compound.inheritOverdraw
      vp := vp
      range := compound.inheritRange
      pixel := compound.inheritPixel
      subpixel := compound.inheritSubPixel
      zoom := compound.inheritZoom
      period := compound.inheritPeriod
      phase := compound.inheritPhase
      offset := offset
      eye := v.eye
      buffer := _getDrawBuffer v compound
      bufferMask := _getDrawBufferMask v compound
      view := destChannel.viewVersion
      taskID := compound.taskID
      frustum := destChannel.frustum
      headTransform := defaultTransform v
      ortho := destChannel.frustum
      orthoTransform := defaultTransform v }
  _computeFrustum v compound context

/-- Draw-finish bookkeeping and cascade, `_updateDrawFinish`. -/
def _updateDrawFinish (v : ChannelUpdateVisitor) (compound : Compound) (s : State) : State :=
  let lastDrawCompound := s.lastDrawCompound
  if lastDrawCompound ≠ none ∧ lastDrawCompound ≠ some compound.addr then s
  -- Test if this is not the last eye pass of this compound
  else if compound.isLastInheritEye v.eye = false then s
  else
    let s : State :=
      if lastDrawCompound = none then { s with lastDrawCompound := some compound.addr }
      else s
    -- Channel::frameDrawFinish
    let node := v.channel.node
    let s := s.send (Packet.ChannelFrameDrawFinish v.channel.id v.frameNumber v.frameID)
    -- Window::frameDrawFinish
    let window := v.channel.window
    let lastDrawChannel := window.lastDrawChannel
    if lastDrawChannel ≠ some v.channel.addr then s
    else
      let s := s.send (Packet.WindowFrameDrawFinish window.id v.frameNumber v.frameID)
      -- Pipe::frameDrawFinish
      let pipe := v.channel.pipe
      let lastDrawWindow := pipe.lastDrawWindow
      if lastDrawWindow ≠ some window.addr then s
      else
        let s := s.send (Packet.PipeFrameDrawFinish pipe.id v.frameNumber v.frameID)
        -- Node::frameDrawFinish
        let lastDrawPipe := node.lastDrawPipe
        if lastDrawPipe ≠ some pipe.addr then s
        else s.send (Packet.NodeFrameDrawFinish node.id v.frameNumber v.frameID)

/-- The clear task, `_sendClear`. -/
def _sendClear (context : RenderContext) (s : State) : State :=
  { s.send (Packet.ChannelFrameClear context) with updated := true }

/-- Frame-rate coalescing, `_updateFrameRate`. -/
def _updateFrameRate (compound : Compound) (s : State) : State :=
  let maxFPS := compound.inheritMaxFPS
  if maxFPS < s.maxFPS then { s with maxFPS := maxFPS } else s

/-- The view start task, `_updateViewStart`. -/
def _updateViewStart (compound : Compound) (context : RenderContext) (s : State) : State :=
  if compound.testInheritTask TASK_VIEW = false then s
  else s.send (Packet.ChannelFrameViewStart context)

/-- The view finish task, `_updateViewFinish`. -/
def _updateViewFinish (compound : Compound) (context : RenderContext) (s : State) : State :=
  if compound.testInheritTask TASK_VIEW = false then s
  else s.send (Packet.ChannelFrameViewFinish context)

/-- Assemble planning, `_updateAssemble`. -/
def _updateAssemble (v : ChannelUpdateVisitor) (compound : Compound)
    (context : RenderContext) (s : State) : State :=
  if compound.testInheritTask TASK_ASSEMBLE = false then s
  else
    let inputFrames := compound.inputFrames
    let frameIDs : List ObjectVersion :=
      inputFrames.foldl
        (fun frameIDs frame =>
          if frame.hasData.get v.eye = false then frameIDs
          else frameIDs ++ [frame.objectVersion])
        []
    if frameIDs.isEmpty then s
    else
      { s.send (Packet.ChannelFrameAssemble context (frameIDs.length % 4294967296) frameIDs)
        with updated := true }

/-- The inner loop of the transmit planning of `_updateReadback`: the input
frames of one output frame, with the set `nodeIDs` of destinations already
served for this output frame. -/
def _transmitInputFrames (v : ChannelUpdateVisitor) (context : RenderContext)
    (outputNodeID : Nat) (outputFrame : Frame) :
    List InputFrame → List Nat → State → State
  | [], _, s => s
  | inputFrame :: rest, nodeIDs, s =>
    let inputNode := inputFrame.node
    let netNodeID := inputNode.netNodeID
    if netNodeID = outputNodeID ∨ netNodeID ∈ nodeIDs then
      _transmitInputFrames v context outputNodeID outputFrame rest nodeIDs s
    else
      let s := s.send
        (Packet.ChannelFrameTransmit context (outputFrame.dataVersion.get v.eye)
          netNodeID inputNode.id)
      _transmitInputFrames v context outputNodeID outputFrame rest (netNodeID :: nodeIDs) s

/-- The outer loop of the transmit planning of `_updateReadback`: every
output frame starts with an empty set of served destinations. -/
def _transmitFrames (v : ChannelUpdateVisitor) (context : RenderContext)
    (outputNodeID : Nat) : List Frame → State → State
  | [], s => s
  | outputFrame :: rest, s =>
    let inputFrames := outputFrame.inputFrames.get context.eye
    _transmitFrames v context outputNodeID rest
      (_transmitInputFrames v context outputNodeID outputFrame inputFrames [] s)

/-- Readback and transmit planning, `_updateReadback`. -/
def _updateReadback (v : ChannelUpdateVisitor) (compound : Compound)
    (context : RenderContext) (s : State) : State :=
  if compound.testInheritTask TASK_READBACK = false then s
  else
    let outputFrames := compound.outputFrames
    let collected : List Frame × List ObjectVersion :=
      outputFrames.foldl
        (fun acc frame =>
          if frame.hasData.get v.eye = false then acc
          else (acc.1 ++ [frame], acc.2 ++ [frame.objectVersion]))
        ([], [])
    let frames := collected.1
    let frameIDs := collected.2
    if frames.isEmpty then s
    else
      -- readback task
      let s : State :=
        { s.send (Packet.ChannelFrameReadback context (frames.length % 4294967296) frameIDs)
          with updated := true }
      -- transmit tasks
      let node := v.channel.node
      let outputNodeID := node.netNodeID
      _transmitFrames v context outputNodeID frames s

/-- The post-draw suite, `_updatePostDraw`. -/
def _updatePostDraw (v : ChannelUpdateVisitor) (compound : Compound)
    (context : RenderContext) (s : State) : State :=
  _updateViewFinish compound context
    (_updateReadback v compound context (_updateAssemble v compound context s))

/-- Visit of an inner compound before its children, `visitPre`. -/
def visitPre (v : ChannelUpdateVisitor) (compound : Compound) (s : State) :
    VisitorResult × State :=
  if compound.isInheritActive v.eye = false then (VisitorResult.TRAVERSE_PRUNE, s)
  else
    let s := _updateDrawFinish v compound s
    if _skipCompound v compound then (VisitorResult.TRAVERSE_CONTINUE, s)
    else
      let context := _setupRenderContext v compound
      let s := _updateFrameRate compound s
      let s := _updateViewStart compound context s
      let s := if compound.testInheritTask TASK_CLEAR then _sendClear context s else s
      (VisitorResult.TRAVERSE_CONTINUE, s)

/-- Visit of a leaf compound, `visitLeaf`. -/
def visitLeaf (v : ChannelUpdateVisitor) (compound : Compound) (s : State) :
    VisitorResult × State :=
  if compound.isInheritActive v.eye = false then (VisitorResult.TRAVERSE_CONTINUE, s)
  else if _skipCompound v compound then
    (VisitorResult.TRAVERSE_CONTINUE, _updateDrawFinish v compound s)
  else
    let context := _setupRenderContext v compound
    let s := _updateFrameRate compound s
    let s := _updateViewStart compound context s
    let s := if compound.testInheritTask TASK_CLEAR then _sendClear context s else s
    let s : State :=
      if compound.testInheritTask TASK_DRAW then
        { s.send (Packet.ChannelFrameDraw context v.channel.hasListeners)
          with updated := true }
      else s
    let s := _updateDrawFinish v compound s
    let s := _updatePostDraw v compound context s
    (VisitorResult.TRAVERSE_CONTINUE, s)

/-- Visit of an inner compound after its children, `visitPost`. -/
def visitPost (v : ChannelUpdateVisitor) (compound : Compound) (s : State) :
    VisitorResult × State :=
  if _skipCompound v compound then (VisitorResult.TRAVERSE_CONTINUE, s)
  else
    let context := _setupRenderContext v compound
    let s := _updatePostDraw v compound context s
    (VisitorResult.TRAVERSE_CONTINUE, s)

/-- The visitor with its eye set, `setEye`. -/
def setEye (v : ChannelUpdateVisitor) (eye : Eye) : ChannelUpdateVisitor :=
  { v with eye := eye }

end ChannelUpdateVisitor

/-! ## Compound trees and the frame driver -/

/-- Sibling compounds with their subtrees, in first-child / next-sibling
form. A compound without children is a leaf. -/
inductive Compounds where
  | nil
  | cons (compound : Compound) (children : Compounds) (next : Compounds)

/-- All compounds of the trees, parents before children. -/
def Compounds.toList : Compounds → List Compound
  | .nil => []
  | .cons c children next => c :: (children.toList ++ next.toList)

/-- The top-level compounds. -/
def Compounds.roots : Compounds → List Compound
  | .nil => []
  | .cons c _ next => c :: next.roots

/-- Modelled from the spec: `Compound::accept` is outside the sources. The
visitor traverses the compound tree in pre/leaf/post order: a leaf gets
`visitLeaf`; an inner compound gets `visitPre`, then its children, then
`visitPost`; after `TRAVERSE_PRUNE` the children and the post visit are left
out; `TRAVERSE_TERMINATE` ends the traversal. -/
def accept (v : ChannelUpdateVisitor) : Compounds → State → VisitorResult × State
  | .nil, s => (VisitorResult.TRAVERSE_CONTINUE, s)
  | .cons c .nil next, s =>
    match v.visitLeaf c s with
    | (VisitorResult.TRAVERSE_TERMINATE, s) => (VisitorResult.TRAVERSE_TERMINATE, s)
    | (_, s) => accept v next s
  | .cons c (.cons c1 ch1 nx1) next, s =>
    match v.visitPre c s with
    | (VisitorResult.TRAVERSE_TERMINATE, s) => (VisitorResult.TRAVERSE_TERMINATE, s)
    | (VisitorResult.TRAVERSE_PRUNE, s) => accept v next s
    | (VisitorResult.TRAVERSE_CONTINUE, s) =>
      match accept v (.cons c1 ch1 nx1) s with
      | (VisitorResult.TRAVERSE_TERMINATE, s) => (VisitorResult.TRAVERSE_TERMINATE, s)
      | (_, s) =>
        match v.visitPost c s with
        | (VisitorResult.TRAVERSE_TERMINATE, s) => (VisitorResult.TRAVERSE_TERMINATE, s)
        | (_, s) => accept v next s

/-- Modelled from the spec: the code that prepares a channel for a frame is
outside the sources. Every draw-finish stage emits once per frame and the
first compound on its last eye pass sets the channel's last draw compound, so
a frame starts with no last draw compound recorded; nothing is sent yet and
the window's maximum frame rate is as given. -/
def State.frameStart (maxFPS : ℚ) : State :=
  { lastDrawCompound := none, maxFPS := maxFPS, sent := [], updated := false }

/-- Modelled from the spec: the frame driver is outside the sources. For one
frame the visitor of a channel traverses the compound trees once per eye. -/
def updateFrame (v : ChannelUpdateVisitor) (trees : Compounds) (s : State) : State :=
  [Eye.CYCLOP, Eye.LEFT, Eye.RIGHT].foldl (fun s eye => (accept (v.setEye eye) trees s).2) s

/-! ### The visits of a traversal -/

/-- One visit of the traversal. -/
inductive Visit where
  | pre (compound : Compound)
  | leaf (compound : Compound)
  | post (compound : Compound)

/-- The visits of one traversal in their order: the pre visit of a compound
that is not active for the eye prunes its subtree. -/
def visits (eye : Eye) : Compounds → List Visit
  | .nil => []
  | .cons c .nil next => Visit.leaf c :: visits eye next
  | .cons c (.cons c1 ch1 nx1) next =>
    if c.isInheritActive eye then
      Visit.pre c :: (visits eye (.cons c1 ch1 nx1) ++ Visit.post c :: visits eye next)
    else
      Visit.pre c :: visits eye next

/-- The state after one visit. -/
def runVisit (v : ChannelUpdateVisitor) : Visit → State → State
  | .pre c, s => (v.visitPre c s).2
  | .leaf c, s => (v.visitLeaf c s).2
  | .post c, s => (v.visitPost c s).2

/-- The compound of a pre or leaf visit, the visits that call
`_updateDrawFinish`. -/
def Visit.target : Visit → Option Compound
  | .pre c => some c
  | .leaf c => some c
  | .post _ => none

/-- Whether the visit is a leaf visit of a compound active for the eye, the
only visits that can send a draw packet. -/
def Visit.drawsOn : Visit → Eye → Bool
  | .leaf c, eye => c.isInheritActive eye
  | _, _ => false

/-- The compounds that get a pre or leaf visit in the pass of an eye. -/
def visited (eye : Eye) (trees : Compounds) : List Compound :=
  (visits eye trees).filterMap Visit.target

/-- The visits of a frame with the eye of their pass. -/
def frameVisits (trees : Compounds) : List (Eye × Visit) :=
  [Eye.CYCLOP, Eye.LEFT, Eye.RIGHT].flatMap (fun eye => (visits eye trees).map (fun x => (eye, x)))

/-- The draw-finish packets of one cascade of `_updateDrawFinish`: the
channel packet, then the window, pipe and node packets as far as the channel,
window and pipe are the last to draw. -/
def drawFinishCascade (v : ChannelUpdateVisitor) : List Packet :=
  Packet.ChannelFrameDrawFinish v.channel.id v.frameNumber v.frameID ::
    (if v.channel.window.lastDrawChannel ≠ some v.channel.addr then []
     else
       Packet.WindowFrameDrawFinish v.channel.window.id v.frameNumber v.frameID ::
         (if v.channel.pipe.lastDrawWindow ≠ some v.channel.window.addr then []
          else
            Packet.PipeFrameDrawFinish v.channel.pipe.id v.frameNumber v.frameID ::
              (if v.channel.node.lastDrawPipe ≠ some v.channel.pipe.addr then []
               else [Packet.NodeFrameDrawFinish v.channel.node.id v.frameNumber v.frameID])))

/-- Whether a pre or leaf visit of the compound in the pass of the eye
reaches the cascade once the channel's last draw compound allows it: the
compound is active for the eye and the eye is its last. -/
def Compound.finishesOn (c : Compound) (eye : Eye) : Bool :=
  c.isInheritActive eye && c.isLastInheritEye eye

/-- The draw-finish bookkeeping seen alone: the channel's last draw compound
and the draw-finish packets sent, after one visit. -/
def finishStep (v : ChannelUpdateVisitor) (x : Visit) (p : Option Nat × List Packet) :
    Option Nat × List Packet :=
  match x.target with
  | none => p
  | some c =>
    if c.finishesOn v.eye = true ∧ (p.1 = none ∨ p.1 = some c.addr) then
      (some c.addr, p.2 ++ drawFinishCascade v)
    else p

/-- The addresses of the compounds with a pre or leaf visit on their last
active eye, in the order of the frame's visits. -/
def finishAddrs (evs : List (Eye × Visit)) : List Nat :=
  evs.filterMap (fun ev =>
    match ev.2.target with
    | none => none
    | some c => if c.finishesOn ev.1 then some c.addr else none)

/-! ### Packet classification -/

/-- Recognizes `ChannelFrameDraw`. -/
def Packet.isDraw : Packet → Bool
  | .ChannelFrameDraw _ _ => true
  | _ => false

/-- Recognizes `ChannelFrameDrawFinish`. -/
def Packet.isChannelDrawFinish : Packet → Bool
  | .ChannelFrameDrawFinish _ _ _ => true
  | _ => false

/-- Recognizes `WindowFrameDrawFinish`. -/
def Packet.isWindowDrawFinish : Packet → Bool
  | .WindowFrameDrawFinish _ _ _ => true
  | _ => false

/-- Recognizes `PipeFrameDrawFinish`. -/
def Packet.isPipeDrawFinish : Packet → Bool
  | .PipeFrameDrawFinish _ _ _ => true
  | _ => false

/-- Recognizes `NodeFrameDrawFinish`. -/
def Packet.isNodeDrawFinish : Packet → Bool
  | .NodeFrameDrawFinish _ _ _ => true
  | _ => false

/-- Recognizes the four draw-finish packets. -/
def Packet.isDrawFinish : Packet → Bool
  | .ChannelFrameDrawFinish _ _ _ => true
  | .WindowFrameDrawFinish _ _ _ => true
  | .PipeFrameDrawFinish _ _ _ => true
  | .NodeFrameDrawFinish _ _ _ => true
  | _ => false

/-- The bookkeeping part of a state: the last draw compound and the
draw-finish packets sent. -/
def State.finishView (s : State) : Option Nat × List Packet :=
  (s.lastDrawCompound, s.sent.filter Packet.isDrawFinish)

/-- A step between two states that keeps the last draw compound and sends
neither draw nor draw-finish packets. -/
def State.QuietStep (s s' : State) : Prop :=
  s'.lastDrawCompound = s.lastDrawCompound ∧
  ∃ extra, s'.sent = s.sent ++ extra ∧
    ∀ p ∈ extra, p.isDrawFinish = false ∧ p.isDraw = false

/-- Recognizes `ChannelFrameTransmit`. -/
def Packet.isTransmit : Packet → Bool
  | .ChannelFrameTransmit _ _ _ _ => true
  | _ => false

/-- Recognizes `ChannelFrameReadback`. -/
def Packet.isReadback : Packet → Bool
  | .ChannelFrameReadback _ _ _ => true
  | _ => false

/-- The network node identifiers hosting the input frames of an output frame
for one eye, in input-frame order. -/
def Frame.consumerNodeIDs (f : Frame) (eye : Eye) : List Nat :=
  (f.inputFrames.get eye).map (fun i => i.node.netNodeID)

/-- The output frames of a compound that have data for an eye. -/
def Compound.readbackFrames (c : Compound) (eye : Eye) : List Frame :=
  c.outputFrames.filter (fun f => f.hasData.get eye)

/-! ### The packets of a visit, task by task -/

/-- The input frames of a compound that have data for an eye. -/
def Compound.assembleFrames (c : Compound) (eye : Eye) : List Frame :=
  c.inputFrames.filter (fun f => f.hasData.get eye)

/-- The view-start packet: sent if the inherited tasks include VIEW. -/
def viewStartPackets (c : Compound) (context : RenderContext) : List Packet :=
  if c.testInheritTask TASK_VIEW = true then [Packet.ChannelFrameViewStart context] else []

/-- The clear packet: sent if the inherited tasks include CLEAR. -/
def clearPackets (c : Compound) (context : RenderContext) : List Packet :=
  if c.testInheritTask TASK_CLEAR = true then [Packet.ChannelFrameClear context] else []

/-- The draw packet: sent if the inherited tasks include DRAW; its finish flag
says whether the channel has listeners. -/
def drawPackets (v : ChannelUpdateVisitor) (c : Compound) (context : RenderContext) :
    List Packet :=
  if c.testInheritTask TASK_DRAW = true then
    [Packet.ChannelFrameDraw context v.channel.hasListeners]
  else []

/-- The draw-finish packets of a call of `_updateDrawFinish` when the channel
has the given last draw compound: the cascade on the compound's last eye pass
if no compound or this compound is recorded, nothing otherwise. -/
def drawFinishPackets (v : ChannelUpdateVisitor) (c : Compound)
    (lastDrawCompound : Option Nat) : List Packet :=
  if c.isLastInheritEye v.eye = true ∧
      (lastDrawCompound = none ∨ lastDrawCompound = some c.addr) then
    drawFinishCascade v
  else []

/-- The assemble packet: sent if the inherited tasks include ASSEMBLE and an
input frame has data for the eye; it lists the object versions of those input
frames. -/
def assemblePackets (v : ChannelUpdateVisitor) (c : Compound) (context : RenderContext) :
    List Packet :=
  if c.testInheritTask TASK_ASSEMBLE = true ∧ c.assembleFrames v.eye ≠ [] then
    [Packet.ChannelFrameAssemble context ((c.assembleFrames v.eye).length % 4294967296)
      ((c.assembleFrames v.eye).map (fun f => f.objectVersion))]
  else []

/-- The transmit packets for the input frames of one output frame, given the
destinations already served. -/
def transmitInputPackets (v : ChannelUpdateVisitor) (context : RenderContext)
    (outputNodeID : Nat) (outputFrame : Frame) : List InputFrame → List Nat → List Packet
  | [], _ => []
  | inputFrame :: rest, nodeIDs =>
    if inputFrame.node.netNodeID = outputNodeID ∨ inputFrame.node.netNodeID ∈ nodeIDs then
      transmitInputPackets v context outputNodeID outputFrame rest nodeIDs
    else
      Packet.ChannelFrameTransmit context (outputFrame.dataVersion.get v.eye)
          inputFrame.node.netNodeID inputFrame.node.id ::
        transmitInputPackets v context outputNodeID outputFrame rest
          (inputFrame.node.netNodeID :: nodeIDs)

/-- The transmit packets of a readback, output frame by output frame. -/
def transmitPackets (v : ChannelUpdateVisitor) (context : RenderContext)
    (outputNodeID : Nat) (frames : List Frame) : List Packet :=
  frames.flatMap (fun outputFrame =>
    transmitInputPackets v context outputNodeID outputFrame
      (outputFrame.inputFrames.get context.eye) [])

/-- The readback packet with its transmit packets: sent if the inherited
tasks include READBACK and an output frame has data for the eye. -/
def readbackPackets (v : ChannelUpdateVisitor) (c : Compound) (context : RenderContext) :
    List Packet :=
  if c.testInheritTask TASK_READBACK = true ∧ c.readbackFrames v.eye ≠ [] then
    Packet.ChannelFrameReadback context ((c.readbackFrames v.eye).length % 4294967296)
        ((c.readbackFrames v.eye).map (fun f => f.objectVersion)) ::
      transmitPackets v context v.channel.node.netNodeID (c.readbackFrames v.eye)
  else []

/-- The view-finish packet: sent if the inherited tasks include VIEW. -/
def viewFinishPackets (c : Compound) (context : RenderContext) : List Packet :=
  if c.testInheritTask TASK_VIEW = true then [Packet.ChannelFrameViewFinish context] else []

/-- Recognizes the packets of the post-draw suite: assemble, readback,
transmit and view finish. -/
def Packet.isPostDraw : Packet → Bool
  | .ChannelFrameAssemble _ _ _ => true
  | .ChannelFrameReadback _ _ _ => true
  | .ChannelFrameTransmit _ _ _ _ => true
  | .ChannelFrameViewFinish _ => true
  | _ => false

/-! ### The three parts of the frustum corner computation -/

/-- The first part of `_computeFrustumCorners`: the destination's frustum
with the four corners assigned by the sign of `eye.z`. -/
def cornerStage (c : Compound) (frustumData : FrustumData) (eye : Vector3f)
    (ortho : Bool) : Frustumf :=
  let frustum := c.inheritChannel.frustum
  let ratio : ℚ := if ortho then 1 else frustum.near_plane / eye.z
  let width_2 : ℚ := frustumData.width * (1 / 2)
  let height_2 : ℚ := frustumData.height * (1 / 2)
  if eye.z > 0 ∨ ortho = true then
    { frustum with
      left := (-width_2 - eye.x) * ratio
      right := (width_2 - eye.x) * ratio
      bottom := (-height_2 - eye.y) * ratio
      top := (height_2 - eye.y) * ratio }
  else
    { frustum with
      left := (width_2 - eye.x) * ratio
      right := (-width_2 - eye.x) * ratio
      bottom := (height_2 + eye.y) * ratio
      top := (-height_2 + eye.y) * ratio }

/-- The second part of `_computeFrustumCorners`: the move of the frustum by
the pixel decomposition. -/
def pixelStage (v : ChannelUpdateVisitor) (c : Compound) (frustum : Frustumf) : Frustumf :=
  let pixel := c.inheritPixel
  if pixel ≠ v.lib.pixelALL ∧ v.lib.pixelIsValid pixel = true then
    let destPVP := c.inheritChannel.pixelViewport
    let frustum : Frustumf :=
      if pixel.w > 1 then
        let frustumWidth := frustum.right - frustum.left
        let pixelWidth := frustumWidth / (destPVP.w : ℚ)
        let jitter := pixelWidth * (pixel.x : ℚ) - pixelWidth * (1 / 2)
        { frustum with left := frustum.left + jitter, right := frustum.right + jitter }
      else frustum
    if pixel.h > 1 then
      let frustumHeight := frustum.bottom - frustum.top
      let pixelHeight := frustumHeight / (destPVP.h : ℚ)
      let jitter := pixelHeight * (pixel.y : ℚ) + pixelHeight * (1 / 2)
      { frustum with top := frustum.top - jitter, bottom := frustum.bottom - jitter }
    else frustum
  else frustum

/-- The third part of `_computeFrustumCorners`: the adjustment to the
inherited viewport. -/
def viewportStage (v : ChannelUpdateVisitor) (c : Compound) (frustum : Frustumf) : Frustumf :=
  let vp := c.inheritViewport
  if vp ≠ v.lib.viewportFULL ∧ v.lib.viewportIsValid vp = true then
    let frustumWidth := frustum.right - frustum.left
    let left := frustum.left + frustumWidth * vp.x
    let right := left + frustumWidth * vp.w
    let frustumHeight := frustum.top - frustum.bottom
    let bottom := frustum.bottom + frustumHeight * vp.y
    let top := bottom + frustumHeight * vp.h
    { frustum with left := left, right := right, bottom := bottom, top := top }
  else frustum

/-- The compound of a visit. -/
def Visit.compound : Visit → Compound
  | .pre c => c
  | .leaf c => c
  | .post c => c

/-! ### Sample objects for concrete evaluations -/

namespace Sample

/-- The identity matrix. -/
def identity : Matrix4f := ⟨fun i => if i % 5 = 0 then 1 else 0⟩

/-- A sample instance of the library operations. -/
def lib : Fabric :=
  { pixelALL := ⟨0, 0, 1, 1⟩
    pixelIsValid := fun p => decide (0 < p.w ∧ 0 < p.h)
    viewportFULL := ⟨0, 0, 1, 1⟩
    viewportIsValid := fun vp => decide (0 ≤ vp.x ∧ 0 ≤ vp.y ∧ 0 < vp.w ∧ 0 < vp.h)
    pvpHasArea := fun p => decide (0 < p.w ∧ 0 < p.h)
    applyView := fun vp _ _ _ _ => vp
    mulPoint := fun _ p => p
    mulMatrix := fun a _ => a
    identity := identity }

/-- The render node of the sample channel; its network node has identifier 1. -/
def node : Node := { addr := 40, id := 4, netNodeID := 1, lastDrawPipe := some 30 }

/-- A remote render node; its network node has identifier 7. -/
def remoteNode : Node := { addr := 41, id := 5, netNodeID := 7, lastDrawPipe := none }

/-- The pipe of the sample channel. -/
def pipe : Pipe := { addr := 30, id := 3, lastDrawWindow := some 20 }

/-- The window of the sample channel. -/
def window : Window :=
  { addr := 20, id := 2, lastDrawChannel := some 10
    drawableConfig := { stereo := true, doublebuffered := true } }

/-- The sample channel: the last draw channel of its window, which is the
last draw window of its pipe, which is the last draw pipe of its node. -/
def channel : Channel :=
  { addr := 10, id := 1, hasListeners := false
    pixelViewport := ⟨0, 0, 800, 600⟩
    overdraw := ⟨0, 0, 0, 0⟩
    frustum := ⟨-1, 1, -1, 1, 1, 100⟩
    viewVersion := ⟨0, 0⟩
    view := none
    segment := ⟨⟨0, 0, 1, 1⟩⟩
    window := window, pipe := pipe, node := node }

/-- The sample visitor, in the cyclop pass of frame 1. -/
def visitor : ChannelUpdateVisitor :=
  { lib := lib, channel := channel, eye := Eye.CYCLOP, frameID := 1, frameNumber := 1 }

/-- A compound on the sample channel with the tasks CLEAR and DRAW, active
for the cyclop eye only, which is its last eye. -/
def compound : Compound :=
  { addr := 100
    channel := some 10
    inheritChannel := channel
    inheritActive := ⟨true, false, false⟩
    lastInheritEye := ⟨true, true, true⟩
    inheritTasks := TASK_CLEAR ||| TASK_DRAW
    inheritPixelViewport := ⟨0, 0, 800, 600⟩
    inheritOverdraw := ⟨0, 0, 0, 0⟩
    inheritViewport := ⟨0, 0, 1, 1⟩
    inheritRange := ⟨0, 1⟩
    inheritPixel := ⟨0, 0, 1, 1⟩
    inheritSubPixel := ⟨0, 1⟩
    inheritZoom := ⟨1, 1⟩
    inheritPeriod := 1
    inheritPhase := 0
    taskID := 1
    inheritStereoMode := StereoMode.QUAD
    inheritAnaglyphLeftMask := 1
    inheritAnaglyphRightMask := 6
    inheritMaxFPS := 60
    inheritFrustumData :=
      { type := WallType.TYPE_FIXED, transform := identity, width := 2, height := 2 }
    configEyeBase := 0
    inputFrames := []
    outputFrames := [] }

/-- A compound that is not active for any eye. -/
def inactiveCompound : Compound :=
  { compound with addr := 101, inheritActive := ⟨false, false, false⟩ }

/-- An output frame with data for the cyclop eye and one consumer on the
remote node. -/
def outputFrame (identifier : Nat) : Frame :=
  { objectVersion := ⟨identifier, 1⟩
    hasData := ⟨true, false, false⟩
    dataVersion := ⟨⟨identifier + 1000, 1⟩, ⟨0, 0⟩, ⟨0, 0⟩⟩
    inputFrames := ⟨[⟨remoteNode⟩], [], []⟩ }

/-- A compound reading back two output frames that are both consumed on the
remote node. -/
def readbackCompound : Compound :=
  { compound with
    addr := 102, inheritTasks := TASK_READBACK
    outputFrames := [outputFrame 50, outputFrame 51] }

/-- An inner compound without a channel of its own above two leaf
compounds that draw on the sample channel. -/
def trees : Compounds :=
  Compounds.cons { compound with addr := 200, channel := none }
    (Compounds.cons compound Compounds.nil
      (Compounds.cons { compound with addr := 104 } Compounds.nil Compounds.nil))
    Compounds.nil

/-- A frame state in which the channel has recorded another compound, at
address 999, as its last draw compound. -/
def recordedState : State :=
  { lastDrawCompound := some 999, maxFPS := 60, sent := [], updated := false }

/-- A compound on the sample channel that is active for the left and the
right eye; the right eye is its last. -/
def stereoCompound : Compound :=
  { compound with
    addr := 105, inheritActive := ⟨false, true, true⟩, lastInheritEye := ⟨false, false, true⟩ }

/-- A compound in anaglyph stereo mode. -/
def anaglyphCompound : Compound :=
  { stereoCompound with addr := 106, inheritStereoMode := StereoMode.ANAGLYPH }

/-- A sample product of a matrix and a point: the point is extended by 1,
multiplied, and divided by the fourth component; the array is column-major. -/
def mulPoint (m : Matrix4f) (p : Vector3f) : Vector3f :=
  let w := m.array 3 * p.x + m.array 7 * p.y + m.array 11 * p.z + m.array 15
  ⟨(m.array 0 * p.x + m.array 4 * p.y + m.array 8 * p.z + m.array 12) / w,
   (m.array 1 * p.x + m.array 5 * p.y + m.array 9 * p.z + m.array 13) / w,
   (m.array 2 * p.x + m.array 6 * p.y + m.array 10 * p.z + m.array 14) / w⟩

/-- The translation by one along z: it maps the origin to `(0, 0, 1)`. -/
def wallTransform : Matrix4f := ⟨fun i => if i % 5 = 0 then 1 else if i = 14 then 1 else 0⟩

/-- The sample visitor with the sample product of a matrix and a point. -/
def wallVisitor : ChannelUpdateVisitor :=
  { visitor with lib := { lib with mulPoint := mulPoint } }

/-- A compound whose wall is 4 wide and 2 high and lies at distance 1, the
near plane of the sample channel, in front of the world origin. -/
def wallCompound : Compound :=
  { compound with
    addr := 107
    inheritFrustumData :=
      { type := WallType.TYPE_FIXED, transform := wallTransform, width := 4, height := 2 } }

/-- The sample wall as a head-mounted frustum. -/
def hmdCompound : Compound :=
  { wallCompound with
    addr := 108
    inheritFrustumData :=
      { type := WallType.TYPE_HMD, transform := wallTransform, width := 4, height := 2 } }

/-- A tracked observer with eye base 4 whose eyes are at -1, 0 and 1 on the
x axis, one unit above the floor. -/
def observer : Observer :=
  { eyePosition := ⟨⟨0, 1, 0⟩, ⟨-1, 1, 0⟩, ⟨1, 1, 0⟩⟩
    eyeBase := 4
    inverseHeadMatrix := identity }

/-- A second channel, the destination of the source compound; it has no
view. -/
def destChannel : Channel := { channel with addr := 11, id := 6 }

/-- A third channel whose view has the sample observer. -/
def observedChannel : Channel :=
  { channel with
    addr := 12, id := 7
    view := some { viewport := ⟨0, 0, 1, 1⟩, observer := some observer } }

/-- A compound whose destination channel has an observer; its wall is
fixed and its config eye base is 2. -/
def observedCompound : Compound :=
  { wallCompound with addr := 112, inheritChannel := observedChannel, configEyeBase := 2 }

/-- The observed compound with a head-mounted frustum. -/
def observedHmdCompound : Compound :=
  { hmdCompound with addr := 113, inheritChannel := observedChannel, configEyeBase := 2 }

/-- A source compound: it is rendered on the sample channel for the
destination channel, at the position (100, 50) of the destination. -/
def sourceCompound : Compound :=
  { compound with
    addr := 114, inheritChannel := destChannel
    inheritPixelViewport := ⟨100, 50, 400, 300⟩ }

/-- The sample compound limited to 30 frames per second. -/
def slowCompound : Compound := { compound with addr := 115, inheritMaxFPS := 30 }

/-- A compound assembling three input frames, the second of which has no
data for the cyclop eye. -/
def assembleCompound : Compound :=
  { compound with
    addr := 116, inheritTasks := TASK_ASSEMBLE
    inputFrames :=
      [outputFrame 60, { outputFrame 61 with hasData := ⟨false, true, true⟩ }, outputFrame 62] }

end Sample

/-! ## Binary streams -/

namespace Stream

/-- Modelled from the spec: the output operators of `DataOStream` are outside
the sources; primitive values are written in their natural width,
little-endian. The bytes of a 32-bit value, as `os << value` writes a
`uint32_t` or an enumeration. -/
def writeU32 (n : Nat) : List Nat :=
  [n % 256, n / 256 % 256, n / 65536 % 256, n / 16777216 % 256]

/-- The little-endian bytes of a 64-bit value, written like the 32-bit
ones. -/
def writeU64 (n : Nat) : List Nat :=
  [n % 256, n / 256 % 256, n / 65536 % 256, n / 16777216 % 256,
   n / 4294967296 % 256, n / 1099511627776 % 256, n / 281474976710656 % 256,
   n / 72057594037927936 % 256]

/-- Reading a 32-bit value, `is >> value`; `none` when the stream is too
short. -/
def readU32 : List Nat → Option (Nat × List Nat)
  | b0 :: b1 :: b2 :: b3 :: rest =>
    some (b0 + 256 * b1 + 65536 * b2 + 16777216 * b3, rest)
  | _ => none

/-- Reading a 64-bit value. -/
def readU64 : List Nat → Option (Nat × List Nat)
  | b0 :: b1 :: b2 :: b3 :: b4 :: b5 :: b6 :: b7 :: rest =>
    some (b0 + 256 * b1 + 65536 * b2 + 16777216 * b3 + 4294967296 * b4
          + 1099511627776 * b5 + 281474976710656 * b6 + 72057594037927936 * b7, rest)
  | _ => none

/-- A `float` as it lies in memory: four bytes. -/
structure FloatBytes where
  b0 : Nat
  b1 : Nat
  b2 : Nat
  b3 : Nat
  deriving DecidableEq, Repr

/-- Writing a `float` copies its four bytes. -/
def writeFloat (f : FloatBytes) : List Nat := [f.b0, f.b1, f.b2, f.b3]

/-- Reading a `float`. -/
def readFloat : List Nat → Option (FloatBytes × List Nat)
  | b0 :: b1 :: b2 :: b3 :: rest => some (⟨b0, b1, b2, b3⟩, rest)
  | _ => none

/-- Modelled from the spec: the `std::string` output operator is outside the
sources; strings are serialized as `<u64 length><bytes>`. -/
def writeString (str : List Nat) : List Nat :=
  writeU64 (str.length % 18446744073709551616) ++ str

/-- The `std::string` input operator of `DataIStream`: the length, then that
many bytes taken from the buffer. -/
def readString (is : List Nat) : Option (List Nat × List Nat) :=
  match readU64 is with
  | none => none
  | some (nElems, is) =>
    if nElems = 0 then some ([], is)
    else if is.length < nElems then none
    else some (is.take nElems, is.drop nElems)

end Stream

/-! ## View deltas -/

open Stream in
/-- Modelled from the spec: `Wall` is declared outside the sources; it is
serialized as nine floats. -/
structure Wall where
  f0 : FloatBytes
  f1 : FloatBytes
  f2 : FloatBytes
  f3 : FloatBytes
  f4 : FloatBytes
  f5 : FloatBytes
  f6 : FloatBytes
  f7 : FloatBytes
  f8 : FloatBytes
  deriving DecidableEq, Repr

open Stream in
/-- Modelled from the spec: `Projection` is declared outside the sources; it
is serialized as nine floats. -/
structure Projection where
  f0 : FloatBytes
  f1 : FloatBytes
  f2 : FloatBytes
  f3 : FloatBytes
  f4 : FloatBytes
  f5 : FloatBytes
  f6 : FloatBytes
  f7 : FloatBytes
  f8 : FloatBytes
  deriving DecidableEq, Repr

/-- The client view, `eq::View`: dirty mask, current type, wall, projection,
eye base and name. -/
structure View where
  dirty : Nat
  current : Nat
  wall : Wall
  projection : Projection
  eyeBase : Stream.FloatBytes
  name : List Nat
  deriving DecidableEq, Repr

namespace View

open Stream

/-- Modelled from the spec: the enumerations `View::Type` and
`View::DirtyBits` are declared outside the sources. The type is one of NONE,
WALL, PROJECTION; the dirty mask is a bitset over WALL, PROJECTION, EYEBASE,
NAME. -/
def TYPE_NONE : Nat := 0

/-- View type WALL. -/
def TYPE_WALL : Nat := 1

/-- View type PROJECTION. -/
def TYPE_PROJECTION : Nat := 2

/-- The empty dirty mask. -/
def DIRTY_NONE : Nat := 0

/-- Dirty bit of the wall. -/
def DIRTY_WALL : Nat := 1

/-- Dirty bit of the projection. -/
def DIRTY_PROJECTION : Nat := 2

/-- Dirty bit of the eye base. -/
def DIRTY_EYEBASE : Nat := 4

/-- Dirty bit of the name. -/
def DIRTY_NAME : Nat := 8

/-- All dirty bits. -/
def DIRTY_ALL : Nat := 15

/-- Writing a wall, `os << _wall`. -/
def writeWall (w : Wall) : List Nat :=
  writeFloat w.f0 ++ writeFloat w.f1 ++ writeFloat w.f2 ++ writeFloat w.f3 ++
  writeFloat w.f4 ++ writeFloat w.f5 ++ writeFloat w.f6 ++ writeFloat w.f7 ++
  writeFloat w.f8

/-- Writing a projection, `os << _projection`. -/
def writeProjection (p : Projection) : List Nat :=
  writeFloat p.f0 ++ writeFloat p.f1 ++ writeFloat p.f2 ++ writeFloat p.f3 ++
  writeFloat p.f4 ++ writeFloat p.f5 ++ writeFloat p.f6 ++ writeFloat p.f7 ++
  writeFloat p.f8

/-- Reading a wall, `is >> _wall`. -/
def readWall (is : List Nat) : Option (Wall × List Nat) := do
  let (f0, is) ← readFloat is
  let (f1, is) ← readFloat is
  let (f2, is) ← readFloat is
  let (f3, is) ← readFloat is
  let (f4, is) ← readFloat is
  let (f5, is) ← readFloat is
  let (f6, is) ← readFloat is
  let (f7, is) ← readFloat is
  let (f8, is) ← readFloat is
  pure (⟨f0, f1, f2, f3, f4, f5, f6, f7, f8⟩, is)

/-- Reading a projection, `is >> _projection`. -/
def readProjection (is : List Nat) : Option (Projection × List Nat) := do
  let (f0, is) ← readFloat is
  let (f1, is) ← readFloat is
  let (f2, is) ← readFloat is
  let (f3, is) ← readFloat is
  let (f4, is) ← readFloat is
  let (f5, is) ← readFloat is
  let (f6, is) ← readFloat is
  let (f7, is) ← readFloat is
  let (f8, is) ← readFloat is
  pure (⟨f0, f1, f2, f3, f4, f5, f6, f7, f8⟩, is)

/-- The delta writer, `View::serialize( os, dirtyBits )`; the stream grows at
its end. -/
def serialize (v : View) (os : List Nat) (dirtyBits : Nat) : List Nat :=
  let os := os ++ writeU32 v.current
  if v.current = TYPE_NONE then os
  else
    let os := os ++ writeU32 dirtyBits
    let os := if dirtyBits &&& DIRTY_WALL ≠ 0 then os ++ writeWall v.wall else os
    let os := if dirtyBits &&& DIRTY_PROJECTION ≠ 0 then os ++ writeProjection v.projection else os
    let os := if dirtyBits &&& DIRTY_EYEBASE ≠ 0 then os ++ writeFloat v.eyeBase else os
    if dirtyBits &&& DIRTY_NAME ≠ 0 then os ++ writeString v.name else os

/-- The delta reader, `View::deserialize( is )`: the updated view and the
rest of the stream, or `none` when the stream ends early. -/
def deserialize (v : View) (is : List Nat) : Option (View × List Nat) :=
  match readU32 is with
  | none => none
  | some (current, is) =>
    let v := { v with current := current }
    if v.current = TYPE_NONE then some ({ v with dirty := DIRTY_NONE }, is)
    else
      match readU32 is with
      | none => none
      | some (dirty, is) =>
        let v := { v with dirty := dirty }
        let r1 : Option (View × List Nat) :=
          if v.dirty &&& DIRTY_WALL ≠ 0 then
            (readWall is).map (fun r => ({ v with wall := r.1 }, r.2))
          else some (v, is)
        let r2 : Option (View × List Nat) :=
          r1.bind (fun (v, is) =>
            if v.dirty &&& DIRTY_PROJECTION ≠ 0 then
              (readProjection is).map (fun r => ({ v with projection := r.1 }, r.2))
            else some (v, is))
        let r3 : Option (View × List Nat) :=
          r2.bind (fun (v, is) =>
            if v.dirty &&& DIRTY_EYEBASE ≠ 0 then
              (readFloat is).map (fun r => ({ v with eyeBase := r.1 }, r.2))
            else some (v, is))
        r3.bind (fun (v, is) =>
          if v.dirty &&& DIRTY_NAME ≠ 0 then
            (readString is).map (fun r => ({ v with name := r.1 }, r.2))
          else some (v, is))

/-- The layout of a delta in the words of the specification: the type; then,
unless the type is NONE, the dirty mask followed in the fixed order wall,
projection, eye base, name by the fields whose bit is set. -/
def delta (v : View) (dirtyBits : Nat) : List Nat :=
  writeU32 v.current ++
    (if v.current = TYPE_NONE then []
     else
       writeU32 dirtyBits ++
       (if dirtyBits &&& DIRTY_WALL ≠ 0 then writeWall v.wall else []) ++
       (if dirtyBits &&& DIRTY_PROJECTION ≠ 0 then writeProjection v.projection else []) ++
       (if dirtyBits &&& DIRTY_EYEBASE ≠ 0 then writeFloat v.eyeBase else []) ++
       (if dirtyBits &&& DIRTY_NAME ≠ 0 then writeString v.name else []))

/-- The full instance data, `View::getInstanceData`. -/
def getInstanceData (v : View) (os : List Nat) : List Nat :=
  serialize v os DIRTY_ALL

/-- Applying instance data, `View::applyInstanceData`. -/
def applyInstanceData (v : View) (is : List Nat) : Option (View × List Nat) :=
  deserialize v is

/-- The delta of a commit, `View::pack`: the view afterwards and the stream. -/
def pack (v : View) (os : List Nat) : View × List Nat :=
  if v.dirty = DIRTY_NONE then (v, os)
  else ({ v with dirty := DIRTY_NONE }, serialize v os v.dirty)

/-- The setter `View::setWall`. -/
def setWall (v : View) (wall : Wall) : View :=
  { v with wall := wall, current := TYPE_WALL, dirty := v.dirty ||| DIRTY_WALL }

/-- The setter `View::setProjection`. -/
def setProjection (v : View) (projection : Projection) : View :=
  { v with projection := projection, current := TYPE_PROJECTION,
           dirty := v.dirty ||| DIRTY_PROJECTION }

/-- The setter `View::setEyeBase`. -/
def setEyeBase (v : View) (eyeBase : FloatBytes) : View :=
  { v with eyeBase := eyeBase, dirty := v.dirty ||| DIRTY_EYEBASE }

/-- The setter `View::setName`. -/
def setName (v : View) (name : List Nat) : View :=
  { v with name := name, dirty := v.dirty ||| DIRTY_NAME }

/-- The number of bytes of a delta in the words of the specification: the
fixed header (type and dirty mask) plus the bytes of the fields whose dirty
bit is set. -/
def deltaSize (v : View) (dirtyBits : Nat) : Nat :=
  8 + (if dirtyBits &&& DIRTY_WALL ≠ 0 then 36 else 0)
    + (if dirtyBits &&& DIRTY_PROJECTION ≠ 0 then 36 else 0)
    + (if dirtyBits &&& DIRTY_EYEBASE ≠ 0 then 4 else 0)
    + (if dirtyBits &&& DIRTY_NAME ≠ 0 then 8 + v.name.length else 0)

/-- The default constructor `View::View()`, given the default wall and
projection: clean, of type NONE, eye base `0.f`, empty name. -/
def init (wall : Wall) (projection : Projection) : View :=
  { dirty := DIRTY_NONE, current := TYPE_NONE, wall := wall, projection := projection,
    eyeBase := ⟨0, 0, 0, 0⟩, name := [] }

/-- The constructor `View::View( is )`: eye base `0.f`, then `deserialize`. -/
def ofStream (wall : Wall) (projection : Projection) (is : List Nat) :
    Option (View × List Nat) :=
  deserialize (init wall projection) is

/-- The bytes of the float `1.f`. -/
def floatOne : FloatBytes := ⟨0, 0, 128, 63⟩

/-- A wall of nine zero floats. -/
def zeroWall : Wall :=
  ⟨⟨0, 0, 0, 0⟩, ⟨0, 0, 0, 0⟩, ⟨0, 0, 0, 0⟩, ⟨0, 0, 0, 0⟩, ⟨0, 0, 0, 0⟩, ⟨0, 0, 0, 0⟩,
   ⟨0, 0, 0, 0⟩, ⟨0, 0, 0, 0⟩, ⟨0, 0, 0, 0⟩⟩

/-- A projection of nine zero floats. -/
def zeroProjection : Projection :=
  ⟨⟨0, 0, 0, 0⟩, ⟨0, 0, 0, 0⟩, ⟨0, 0, 0, 0⟩, ⟨0, 0, 0, 0⟩, ⟨0, 0, 0, 0⟩, ⟨0, 0, 0, 0⟩,
   ⟨0, 0, 0, 0⟩, ⟨0, 0, 0, 0⟩, ⟨0, 0, 0, 0⟩⟩

/-- A wall with a unit first coordinate. -/
def unitWall : Wall := { zeroWall with f0 := floatOne }

/-- A view without wall or projection whose eye base has been set: the
default view after `setEyeBase( 1.f )`. -/
def eyeBaseOnly : View := setEyeBase (init zeroWall zeroProjection) floatOne

end View

/-! ## Child lists of distributed objects -/

namespace DataIStream

/-- A child object as `deserializeChildren` sees it: its address, its
identifier and whether it is attached and a master. -/
structure Child where
  addr : Nat
  id : Nat
  isAttached : Bool
  isMaster : Bool
  deriving DecidableEq, Repr

/-- The version a child is synced to: `VERSION_HEAD` or a given version. -/
inductive SyncVersion where
  | VERSION_HEAD
  | version (v : Nat)
  deriving DecidableEq, Repr

/-- The calls `deserializeChildren` makes on the owner, the local node and
the children, with the address of the child concerned. -/
inductive Call where
  | create (child : Nat)
  | mapObject (child : Nat) (version : ObjectVersion)
  | sync (child : Nat) (version : SyncVersion)
  | unmapObject (child : Nat)
  | release (child : Nat)
  deriving DecidableEq, Repr

/-- The owning object: whether it is a master, and the children its
`create` hands out, numbered in the order of the calls. -/
structure Owner where
  isMaster : Bool
  create : Nat → Child

/-- The trace of a call of `deserializeChildren`: the calls made so far and
the number of children created. -/
structure Trace where
  calls : List Call
  created : Nat
  deriving DecidableEq, Repr

/-- The zero identifier, `base::UUID::ZERO`. -/
def UUID_ZERO : Nat := 0

/-- The search `stde::find_if( old, ObjectFinder( id ))`: the position of the
first child with the identifier, `old.length` for `old.end()`. The finder
calls `getID()` on every candidate it reaches; on a null candidate that is a
null pointer dereference and there is no result (`none`). -/
def find_if : List (Option Child) → Nat → Option Nat
  | [], _ => some 0
  | none :: _, _ => none
  | some candidate :: rest, id =>
    if candidate.id = id then some 0
    else (find_if rest id).map (· + 1)

/-- The first loop of `deserializeChildren`: rebuild the vector from the
serialized list. Yields the remaining old children, the result and the trace. -/
def rebuild (object : Owner) :
    List ObjectVersion → List (Option Child) → List (Option Child) → Trace →
    Option (List (Option Child) × List (Option Child) × Trace)
  | [], old, result, t => some (old, result, t)
  | version :: versions, old, result, t =>
    if version.identifier = UUID_ZERO then
      rebuild object versions old (result ++ [none]) t
    else
      match find_if old version.identifier with
      | none => none
      | some j =>
        if j = old.length then
          -- previously unknown child
          let child := object.create t.created
          let t : Trace :=
            { calls := t.calls ++ [Call.create child.addr, Call.mapObject child.addr version]
              created := t.created + 1 }
          rebuild object versions old (result ++ [some child]) t
        else
          match old.get? j with
          | some (some child) =>
            let old := old.eraseIdx j
            let t : Trace :=
              { t with calls := t.calls ++
                  [Call.sync child.addr
                    (if object.isMaster then SyncVersion.VERSION_HEAD
                     else SyncVersion.version version.version)] }
            rebuild object versions old (result ++ [some child]) t
          | _ => none

/-- One round of the second loop of `deserializeChildren` for the child taken
from the back of the old vector. -/
def releaseChild (t : Trace) (child : Option Child) : Trace :=
  match child with
  | none => t
  | some child =>
    let t : Trace :=
      if child.isAttached && !child.isMaster then
        { t with calls := t.calls ++ [Call.unmapObject child.addr] }
      else t
    { t with calls := t.calls ++ [Call.release child.addr] }

/-- The second loop of `deserializeChildren`: the removed children, taken from
the back of the old vector until it is empty. -/
def releaseRemoved (old : List (Option Child)) (t : Trace) : Trace :=
  old.reverse.foldl releaseChild t

/-- The child list reader `DataIStream::deserializeChildren( object, old,
result )` on the serialized list `versions`: the new content of `result` and
the trace. The old vector is copied and `result` is cleared first. -/
def deserializeChildren (object : Owner) (versions : List ObjectVersion)
    (old_ : List (Option Child)) (result : List (Option Child)) (t : Trace) :
    Option (List (Option Child) × Trace) :=
  let old := old_
  let result := result.take 0
  match rebuild object versions old result t with
  | none => none
  | some (old, result, t) => some (result, releaseRemoved old t)

/-- The release pass in the words of the specification: for every element
remaining in the old list that is not null, taken from the back: if attached
and not a master, unmap; then release to the owner. -/
def releasePlan (old : List (Option Child)) : List Call :=
  old.reverse.flatMap (fun entry =>
    match entry with
    | none => []
    | some child =>
      (if child.isAttached = true ∧ child.isMaster = false then [Call.unmapObject child.addr]
       else []) ++ [Call.release child.addr])

/-- The addresses of the non-null entries of a child vector. -/
def addrs (l : List (Option Child)) : List Nat :=
  (l.filterMap id).map (fun c => c.addr)

/-- The identifiers of the non-null entries of a child vector. -/
def ids (l : List (Option Child)) : List Nat :=
  (l.filterMap id).map (fun c => c.id)

/-- Recognizes the calls of the rebuild loop: create, map and sync. -/
def Call.isRebuild : Call → Bool
  | .create _ => true
  | .mapObject _ _ => true
  | .sync _ _ => true
  | _ => false

/-- A slave owner whose `create` hands out children at addresses 100, 101, ... -/
def slaveOwner : Owner :=
  { isMaster := false
    create := fun n => { addr := 100 + n, id := 0, isAttached := false, isMaster := false } }

/-- An attached slave child with identifier 5 at address 1. -/
def childFive : Child := { addr := 1, id := 5, isAttached := true, isMaster := false }

/-- An unattached child with identifier 6 at address 2. -/
def childSix : Child := { addr := 2, id := 6, isAttached := false, isMaster := false }

/-- An attached master child with identifier 7 at address 3. -/
def childSeven : Child := { addr := 3, id := 7, isAttached := true, isMaster := true }

/-- An attached slave child with identifier 8 at address 4. -/
def childEight : Child := { addr := 4, id := 8, isAttached := true, isMaster := false }

/-! ### Vectors of plain items -/

/-- Modelled from the spec: `DataIStream::read( data, size )` is defined
outside the sources. It takes the next `size` bytes of the stream; there is
no result when fewer bytes are left. -/
def read (is : List Nat) (size : Nat) : Option (List Nat × List Nat) :=
  if is.length < size then none else some (is.take size, is.drop size)

/-- The plain item operator `operator >> ( T& value )` for an item of `width`
bytes, `read( &value, sizeof( value ))`; the item is its bytes. -/
def readPlain (width : Nat) (is : List Nat) : Option (List Nat × List Nat) :=
  read is width

/-- The loop of the generic vector operator: `nElems` items read one by
one. -/
def readElements (width : Nat) : Nat → List Nat → Option (List (List Nat) × List Nat)
  | 0, is => some ([], is)
  | n + 1, is =>
    match readPlain width is with
    | none => none
    | some (value, is) =>
      match readElements width n is with
      | none => none
      | some (values, is) => some (value :: values, is)

/-- The generic vector operator `operator >> ( std::vector< T >& value )`:
the number of elements, then the elements one by one. -/
def readVector (width : Nat) (is : List Nat) : Option (List (List Nat) × List Nat) :=
  match Stream.readU64 is with
  | none => none
  | some (nElems, is) => readElements width nElems is

/-- The elements of a vector of `n` items of `width` bytes whose storage
holds the bytes `memory`. -/
def elements (width : Nat) : Nat → List Nat → List (List Nat)
  | 0, _ => []
  | n + 1, memory => memory.take width :: elements width n (memory.drop width)

/-- The flat vector reader `_readFlatVector` for items of `width` bytes: the
number of elements, then one read of `nElems * sizeof( T )` bytes, a 64-bit
product, into the storage of the resized vector. -/
def _readFlatVector (width : Nat) (is : List Nat) : Option (List (List Nat) × List Nat) :=
  match Stream.readU64 is with
  | none => none
  | some (nElems, is) =>
    let memory := List.replicate (nElems * width) 0
    if nElems > 0 then
      match read is (nElems * width % 18446744073709551616) with
      | none => none
      | some (bytes, is) =>
        some (elements width nElems (bytes ++ memory.drop bytes.length), is)
    else some (elements width nElems memory, is)

end DataIStream

/-! ## Transmit destinations -/

/-- The input frames that are the first of their network node in the list:
the distinct destinations in the order of their first occurrence. -/
def firstPerNode : List InputFrame → List InputFrame
  | [] => []
  | i :: rest =>
    i :: (firstPerNode rest).filter (fun j => j.node.netNodeID != i.node.netNodeID)

/-- The transmit packet of an output frame for the node of an input frame. -/
def transmitPacket (v : ChannelUpdateVisitor) (context : RenderContext) (outputFrame : Frame)
    (inputFrame : InputFrame) : Packet :=
  Packet.ChannelFrameTransmit context (outputFrame.dataVersion.get v.eye)
    inputFrame.node.netNodeID inputFrame.node.id

/-! ## Textures -/

namespace Texture

/-- OpenGL constant of the GL headers. -/
def GL_UNSIGNED_BYTE : Nat := 0x1401

/-- OpenGL constant of the GL headers. -/
def GL_UNSIGNED_INT : Nat := 0x1405

/-- OpenGL constant of the GL headers. -/
def GL_FLOAT : Nat := 0x1406

/-- OpenGL constant of the GL headers. -/
def GL_HALF_FLOAT : Nat := 0x140B

/-- OpenGL constant of the GL headers. -/
def GL_DEPTH_COMPONENT : Nat := 0x1902

/-- OpenGL constant of the GL headers. -/
def GL_ALPHA : Nat := 0x1906

/-- OpenGL constant of the GL headers. -/
def GL_RGBA : Nat := 0x1908

/-- OpenGL constant of the GL headers. -/
def GL_RGBA8 : Nat := 0x8058

/-- OpenGL constant of the GL headers. -/
def GL_RGBA16 : Nat := 0x805B

/-- OpenGL constant of the GL headers. -/
def GL_BGRA : Nat := 0x80E1

/-- OpenGL constant of the GL headers. -/
def GL_RGBA32F : Nat := 0x8814

/-- OpenGL constant of the GL headers. -/
def GL_ALPHA32F_ARB : Nat := 0x8816

/-- OpenGL constant of the GL headers. -/
def GL_RGBA16F : Nat := 0x881A

/-- OpenGL constant of the GL headers. -/
def GL_RGBA32UI : Nat := 0x8D70

/-- OpenGL constant of the GL headers. -/
def GL_RGBA_INTEGER_EXT : Nat := 0x8D99

/-- The format state of a texture: `_internalFormat`, `_format`, `_type` and
`_defined`. -/
structure Formats where
  _internalFormat : Nat
  _format : Nat
  _type : Nat
  _defined : Bool
  deriving DecidableEq, Repr

/-- The setter `Texture::setFormat`; every arm of its switch ends with
`break`. `textureInteger` is `GLEW_EXT_texture_integer`; `EQUNIMPLEMENTED`
reports and goes on. -/
def setFormat (t : Formats) (textureInteger : Bool) (format : Nat) : Formats :=
  if t._internalFormat = format then t
  else
    let t := { t with _defined := false, _internalFormat := format }
    if format = GL_DEPTH_COMPONENT then
      { t with _format := GL_DEPTH_COMPONENT, _type := GL_UNSIGNED_INT }
    else if format = GL_RGBA8 ∨ format = GL_RGBA16 ∨ format = GL_BGRA then
      { t with _format := GL_BGRA, _type := GL_UNSIGNED_BYTE }
    else if format = GL_RGBA16F then
      { t with _format := GL_RGBA, _type := GL_HALF_FLOAT }
    else if format = GL_RGBA32F then
      { t with _format := GL_RGBA, _type := GL_FLOAT }
    else if format = GL_ALPHA32F_ARB then
      { t with _format := GL_ALPHA, _type := GL_FLOAT }
    else if format = GL_RGBA32UI then
      if textureInteger then
        { t with _format := GL_RGBA_INTEGER_EXT, _type := GL_UNSIGNED_INT }
      else t
    else
      { t with _format := t._internalFormat, _type := GL_UNSIGNED_BYTE }

/-- The statement after the label `default:` of the switch in
`writeTexture`, the last of the switch. -/
def writeTextureDefault (_type : Option Nat) : Option Nat :=
  some GL_UNSIGNED_BYTE

/-- The statements from the label `case GL_RGBA16F:` on: the arm has no
`break`, so control falls through to `default:`. -/
def writeTextureHalfFloat (_type : Option Nat) : Option Nat :=
  writeTextureDefault (some GL_HALF_FLOAT)

/-- The statements from the label `case GL_RGBA32F:` on: the arm has no
`break`, so control falls through to `case GL_RGBA16F:`. -/
def writeTextureFloat (_type : Option Nat) : Option Nat :=
  writeTextureHalfFloat (some GL_FLOAT)

/-- The pixel type that `Texture::writeTexture` selects for the format
`getFormat()`: the local `type` after the switch; it is declared without a
value (`none`). -/
def writeTextureType (format : Nat) : Option Nat :=
  let type : Option Nat := none
  if format = GL_RGBA32F then writeTextureFloat type
  else if format = GL_RGBA16F then writeTextureHalfFloat type
  else writeTextureDefault type

/-- The test `Texture::_isDimPOT` on two 32-bit values; `width - 1` is the
unsigned 32-bit difference. -/
def _isDimPOT (width height : Nat) : Bool :=
  decide (width > 0) && decide (height > 0) &&
  (width &&& ((width + 4294967295) % 4294967296) == 0) &&
  (height &&& ((height + 4294967295) % 4294967296) == 0)

end Texture

/-! ## Dynamic frame resolution -/

namespace DFRLoadBalancer

/-- Library values and functions that `DFRLoadBalancer::update` uses and
that are defined outside the sources: `sqrtf` and the neutral zoom
`Zoom::NONE`. -/
structure Lib where
  sqrtf : ℚ → ℚ
  zoomNONE : Zoom

/-- The macro `EQ_MIN( a, b )` of the base library, `a < b ? a : b`. -/
def EQ_MIN (a b : ℚ) : ℚ := if a < b then a else b

/-- The macro `EQ_MAX( a, b )` of the base library, `a > b ? a : b`. -/
def EQ_MAX (a b : ℚ) : ℚ := if a > b then a else b

/-- What `update` reads and writes: the parent load balancer (frozen, frame
rate, damping), the zoom of the compound, the inherited pixel viewport of the
parent compound (`none` without a parent), the pixel viewport of the
compound's channel (`none` without a channel), and the members
`_fpsLastFrame` and `_newValueReady`. -/
structure DFR where
  isFrozen : Bool
  frameRate : ℚ
  damping : ℚ
  zoom : Zoom
  parentPVP : Option PixelViewport
  channelPVP : Option PixelViewport
  _fpsLastFrame : ℚ
  _newValueReady : Bool

/-- The frame update `DFRLoadBalancer::update` as compiled with
`QUICK_ADAPT`; there is no result when the parent compound or the channel is
dereferenced and is null. `currentZoom *= factor` scales both components;
the operator is defined outside the sources. -/
def update (lib : Lib) (lb : DFR) (_frameNumber : Nat) : Option DFR :=
  if lb.isFrozen then some { lb with zoom := lib.zoomNONE }
  else
    let currentZoom := lb.zoom
    if !lb._newValueReady then some lb
    else
      let lb := { lb with _newValueReady := false }
      let target := lb.frameRate
      let factor := (lib.sqrtf (lb._fpsLastFrame / target) - 1) * lb.damping + 1
      let currentZoom : Zoom := ⟨currentZoom.x * factor, currentZoom.y * factor⟩
      -- clip zoom factor to min( 128px ), max( channel pvp )
      match lb.parentPVP, lb.channelPVP with
      | some pvp, some channelPVP =>
        let minZoom := 128 / EQ_MIN (pvp.h : ℚ) (pvp.w : ℚ)
        let maxZoom := EQ_MIN ((channelPVP.w : ℚ) / (pvp.w : ℚ))
          ((channelPVP.h : ℚ) / (pvp.h : ℚ))
        let currentZoom := { currentZoom with x := EQ_MAX currentZoom.x minZoom }
        let currentZoom := { currentZoom with x := EQ_MIN currentZoom.x maxZoom }
        let currentZoom := { currentZoom with y := currentZoom.x }
        some { lb with zoom := currentZoom }
      | _, _ => none

/-- A sample square root: five Newton steps from 1; exact at 1. -/
def sampleSqrt (q : ℚ) : ℚ :=
  (fun x => (x + q / x) / 2) ((fun x => (x + q / x) / 2) ((fun x => (x + q / x) / 2)
    ((fun x => (x + q / x) / 2) ((fun x => (x + q / x) / 2) 1))))

/-- A sample library. -/
def sampleLib : Lib := { sqrtf := sampleSqrt, zoomNONE := ⟨1, 1⟩ }

/-- A load balancer on a channel of 100 by 100 pixels whose parent compound
covers 100 by 100 pixels; the last frame ran at the target rate. -/
def smallChannel : DFR :=
  { isFrozen := false, frameRate := 60, damping := 1 / 2, zoom := ⟨1, 1⟩
    parentPVP := some ⟨0, 0, 100, 100⟩, channelPVP := some ⟨0, 0, 100, 100⟩
    _fpsLastFrame := 60, _newValueReady := true }

/-- A load balancer on a channel of 1024 by 768 pixels whose parent compound
covers 512 by 256 pixels; the last frame ran at the target rate. -/
def largeChannel : DFR :=
  { isFrozen := false, frameRate := 60, damping := 1 / 2, zoom := ⟨1, 1⟩
    parentPVP := some ⟨0, 0, 512, 256⟩, channelPVP := some ⟨0, 0, 1024, 768⟩
    _fpsLastFrame := 60, _newValueReady := true }

end DFRLoadBalancer

/-! ## Frustum corners in float arithmetic

The corner computation once more, with the arithmetic as a parameter: every
`float` operation of the source is one operation of the arithmetic. With the
exact rational arithmetic this is the embedding used above; with the binary32
arithmetic below every operation rounds as the program's does. -/

namespace Numeric

/-- The `float` operations that `_computeFrustumCorners` uses: the four
arithmetic operations, unary minus, the comparison `a > b`, the conversion of
an integer, and the literals `1.0f` and `.5f`. -/
structure Arith (α : Type) where
  add : α → α → α
  sub : α → α → α
  mul : α → α → α
  div : α → α → α
  neg : α → α
  gt : α → α → Bool
  ofInt : Int → α
  one : α
  half : α

/-- The frustum `left, right, bottom, top, near, far` over the numbers of an
arithmetic. -/
structure FrustumOf (α : Type) where
  left : α
  right : α
  bottom : α
  top : α
  near_plane : α
  far_plane : α
  deriving DecidableEq, Repr

/-- Three numbers, an eye position. -/
structure Vector3Of (α : Type) where
  x : α
  y : α
  z : α
  deriving DecidableEq, Repr

/-- A fractional viewport `x, y, w, h`. -/
structure ViewportOf (α : Type) where
  x : α
  y : α
  w : α
  h : α
  deriving DecidableEq, Repr

/-- What `_computeFrustumCorners` reads: the frustum of the destination
channel, width and height of the frustum data, the inherited pixel
decomposition with the outcome of the test
`pixel != Pixel::ALL && pixel.isValid()`, the pixel viewport of the
destination channel, and the inherited viewport with the outcome of the test
`vp != Viewport::FULL && vp.isValid()`. The operators of both tests are
defined outside the sources. -/
structure CornerInput (α : Type) where
  frustum : FrustumOf α
  width : α
  height : α
  pixel : Pixel
  pixelDecomposed : Bool
  destPVP : PixelViewport
  vp : ViewportOf α
  vpDecomposed : Bool

/-- Frustum corners, `_computeFrustumCorners`, operation by operation. -/
def _computeFrustumCorners {α : Type} (A : Arith α) (inp : CornerInput α)
    (eye : Vector3Of α) (ortho : Bool) : FrustumOf α :=
  let frustum := inp.frustum
  let ratio : α := if ortho then A.one else A.div frustum.near_plane eye.z
  let width_2 : α := A.mul inp.width A.half
  let height_2 : α := A.mul inp.height A.half
  let frustum : FrustumOf α :=
    if A.gt eye.z (A.ofInt 0) = true ∨ ortho = true then
      { frustum with
        left := A.mul (A.sub (A.neg width_2) eye.x) ratio
        right := A.mul (A.sub width_2 eye.x) ratio
        bottom := A.mul (A.sub (A.neg height_2) eye.y) ratio
        top := A.mul (A.sub height_2 eye.y) ratio }
    else
      { frustum with
        left := A.mul (A.sub width_2 eye.x) ratio
        right := A.mul (A.sub (A.neg width_2) eye.x) ratio
        bottom := A.mul (A.add height_2 eye.y) ratio
        top := A.mul (A.add (A.neg height_2) eye.y) ratio }
  -- move frustum according to pixel decomposition
  let pixel := inp.pixel
  let frustum : FrustumOf α :=
    if inp.pixelDecomposed = true then
      let destPVP := inp.destPVP
      let frustum : FrustumOf α :=
        if pixel.w > 1 then
          let frustumWidth := A.sub frustum.right frustum.left
          let pixelWidth := A.div frustumWidth (A.ofInt destPVP.w)
          let jitter := A.sub (A.mul pixelWidth (A.ofInt pixel.x)) (A.mul pixelWidth A.half)
          { frustum with left := A.add frustum.left jitter, right := A.add frustum.right jitter }
        else frustum
      if pixel.h > 1 then
        let frustumHeight := A.sub frustum.bottom frustum.top
        let pixelHeight := A.div frustumHeight (A.ofInt destPVP.h)
        let jitter := A.add (A.mul pixelHeight (A.ofInt pixel.y)) (A.mul pixelHeight A.half)
        { frustum with top := A.sub frustum.top jitter, bottom := A.sub frustum.bottom jitter }
      else frustum
    else frustum
  -- adjust to viewport (screen-space decomposition)
  let vp := inp.vp
  if inp.vpDecomposed = true then
    let frustumWidth := A.sub frustum.right frustum.left
    let left := A.add frustum.left (A.mul frustumWidth vp.x)
    let right := A.add left (A.mul frustumWidth vp.w)
    let frustumHeight := A.sub frustum.top frustum.bottom
    let bottom := A.add frustum.bottom (A.mul frustumHeight vp.y)
    let top := A.add bottom (A.mul frustumHeight vp.h)
    { frustum with left := left, right := right, bottom := bottom, top := top }
  else frustum

/-- The first part of `_computeFrustumCorners`: the corners by the sign of
`eye.z`. -/
def cornerStage {α : Type} (A : Arith α) (inp : CornerInput α) (eye : Vector3Of α)
    (ortho : Bool) : FrustumOf α :=
  let frustum := inp.frustum
  let ratio : α := if ortho then A.one else A.div frustum.near_plane eye.z
  let width_2 : α := A.mul inp.width A.half
  let height_2 : α := A.mul inp.height A.half
  if A.gt eye.z (A.ofInt 0) = true ∨ ortho = true then
    { frustum with
      left := A.mul (A.sub (A.neg width_2) eye.x) ratio
      right := A.mul (A.sub width_2 eye.x) ratio
      bottom := A.mul (A.sub (A.neg height_2) eye.y) ratio
      top := A.mul (A.sub height_2 eye.y) ratio }
  else
    { frustum with
      left := A.mul (A.sub width_2 eye.x) ratio
      right := A.mul (A.sub (A.neg width_2) eye.x) ratio
      bottom := A.mul (A.add height_2 eye.y) ratio
      top := A.mul (A.add (A.neg height_2) eye.y) ratio }

/-- The second part of `_computeFrustumCorners`: the move by the pixel
decomposition. -/
def pixelStage {α : Type} (A : Arith α) (inp : CornerInput α) (frustum : FrustumOf α) :
    FrustumOf α :=
  let pixel := inp.pixel
  if inp.pixelDecomposed = true then
    let destPVP := inp.destPVP
    let frustum : FrustumOf α :=
      if pixel.w > 1 then
        let frustumWidth := A.sub frustum.right frustum.left
        let pixelWidth := A.div frustumWidth (A.ofInt destPVP.w)
        let jitter := A.sub (A.mul pixelWidth (A.ofInt pixel.x)) (A.mul pixelWidth A.half)
        { frustum with left := A.add frustum.left jitter, right := A.add frustum.right jitter }
      else frustum
    if pixel.h > 1 then
      let frustumHeight := A.sub frustum.bottom frustum.top
      let pixelHeight := A.div frustumHeight (A.ofInt destPVP.h)
      let jitter := A.add (A.mul pixelHeight (A.ofInt pixel.y)) (A.mul pixelHeight A.half)
      { frustum with top := A.sub frustum.top jitter, bottom := A.sub frustum.bottom jitter }
    else frustum
  else frustum

/-- The third part of `_computeFrustumCorners`: the adjustment to the
viewport. -/
def viewportStage {α : Type} (A : Arith α) (inp : CornerInput α) (frustum : FrustumOf α) :
    FrustumOf α :=
  let vp := inp.vp
  if inp.vpDecomposed = true then
    let frustumWidth := A.sub frustum.right frustum.left
    let left := A.add frustum.left (A.mul frustumWidth vp.x)
    let right := A.add left (A.mul frustumWidth vp.w)
    let frustumHeight := A.sub frustum.top frustum.bottom
    let bottom := A.add frustum.bottom (A.mul frustumHeight vp.y)
    let top := A.add bottom (A.mul frustumHeight vp.h)
    { frustum with left := left, right := right, bottom := bottom, top := top }
  else frustum

/-- The exact arithmetic of the rationals. -/
def exact : Arith ℚ :=
  { add := fun a b => a + b
    sub := fun a b => a - b
    mul := fun a b => a * b
    div := fun a b => a / b
    neg := fun a => -a
    gt := fun a b => decide (a > b)
    ofInt := fun i => (i : ℚ)
    one := 1
    half := 1 / 2 }

/-- What the rational embedding of `_computeFrustumCorners` reads, as an
input of the corner computation over the exact arithmetic. -/
def inputOf (v : ChannelUpdateVisitor) (c : Compound) (fd : FrustumData) : CornerInput ℚ :=
  { frustum :=
      ⟨c.inheritChannel.frustum.left, c.inheritChannel.frustum.right,
       c.inheritChannel.frustum.bottom, c.inheritChannel.frustum.top,
       c.inheritChannel.frustum.near_plane, c.inheritChannel.frustum.far_plane⟩
    width := fd.width
    height := fd.height
    pixel := c.inheritPixel
    pixelDecomposed :=
      decide (c.inheritPixel ≠ v.lib.pixelALL ∧ v.lib.pixelIsValid c.inheritPixel = true)
    destPVP := c.inheritChannel.pixelViewport
    vp := ⟨c.inheritViewport.x, c.inheritViewport.y, c.inheritViewport.w, c.inheritViewport.h⟩
    vpDecomposed :=
      decide (c.inheritViewport ≠ v.lib.viewportFULL ∧
        v.lib.viewportIsValid c.inheritViewport = true) }

/-- A frustum over the rationals as a `Frustumf`. -/
def toFrustumf (f : FrustumOf ℚ) : Frustumf :=
  ⟨f.left, f.right, f.bottom, f.top, f.near_plane, f.far_plane⟩

end Numeric

/-! ## The binary32 format -/

/-- A value of the IEEE 754 binary32 format, the `float` of the program. A
finite value is `(-1)^sign * m * 2^e` with `m < 2^24`, and `2^23 <= m` unless
`e = -149`; exponents range from -149 to 104. Zero has `m = 0`, `e = -149`
and a sign. NaNs are not told apart. -/
inductive Binary32 where
  | finite (sign : Bool) (m : Nat) (e : Int)
  | inf (sign : Bool)
  | nan
  deriving DecidableEq, Repr

namespace Binary32

/-- The number of binary digits of `n`; the fuel bounds the number of
digits. -/
def bitLength : Nat → Nat → Nat
  | 0, _ => 0
  | fuel + 1, n => if n = 0 then 0 else bitLength fuel (n / 2) + 1

/-- Rounding to nearest, ties to even: the binary32 value nearest to
`(-1)^sign * (M + d) * 2^E`, where `0 <= d < 1` and `d > 0` exactly if `sticky`
is set. With `sticky` set, `M` has at least 26 digits. The result is an
infinity when the rounded value exceeds the largest finite value, and has
fewer significant digits below `2^-126`. -/
def round (sign : Bool) (M : Nat) (E : Int) (sticky : Bool) : Binary32 :=
  if M = 0 then finite sign 0 (-149)
  else
    let b : Int := bitLength 4096 M
    let e : Int := max (E + b - 24) (-149)
    if e ≤ E then finite sign (M * 2 ^ (E - e).toNat) e
    else
      let shift := (e - E).toNat
      let q := M / 2 ^ shift
      let r := M % 2 ^ shift
      let half := 2 ^ (shift - 1)
      let up : Bool :=
        decide (r > half) || (decide (r = half) && (sticky || decide (q % 2 = 1)))
      let m := if up then q + 1 else q
      let m' := if m = 16777216 then 8388608 else m
      let e' := if m = 16777216 then e + 1 else e
      if e' > 104 then inf sign else finite sign m' e'

/-- Unary minus. -/
def neg : Binary32 → Binary32
  | finite s m e => finite (!s) m e
  | inf s => inf (!s)
  | nan => nan

/-- Multiplication, correctly rounded. -/
def mul : Binary32 → Binary32 → Binary32
  | nan, _ => nan
  | _, nan => nan
  | inf s, inf s' => inf (s != s')
  | inf s, finite s' m _ => if m = 0 then nan else inf (s != s')
  | finite s m _, inf s' => if m = 0 then nan else inf (s != s')
  | finite s m e, finite s' m' e' => round (s != s') (m * m') (e + e') false

/-- Addition, correctly rounded; an exact zero sum is negative only when
both operands are negative. -/
def add : Binary32 → Binary32 → Binary32
  | nan, _ => nan
  | _, nan => nan
  | inf s, inf s' => if s = s' then inf s else nan
  | inf s, finite _ _ _ => inf s
  | finite _ _ _, inf s' => inf s'
  | finite s m e, finite s' m' e' =>
    let E := min e e'
    let a : Int := (if s then -1 else 1) * ((m * 2 ^ (e - E).toNat : Nat) : Int)
    let b : Int := (if s' then -1 else 1) * ((m' * 2 ^ (e' - E).toNat : Nat) : Int)
    let sum := a + b
    if sum = 0 then finite (s && s') 0 (-149)
    else round (decide (sum < 0)) sum.natAbs E false

/-- Subtraction, `a + (-b)`. -/
def sub (a b : Binary32) : Binary32 := add a (neg b)

/-- Division, correctly rounded. A finite non-zero value divided by zero is an
infinity, zero divided by zero is NaN. -/
def div : Binary32 → Binary32 → Binary32
  | nan, _ => nan
  | _, nan => nan
  | inf _, inf _ => nan
  | inf s, finite s' _ _ => inf (s != s')
  | finite s _ _, inf s' => finite (s != s') 0 (-149)
  | finite s m e, finite s' m' e' =>
    if m' = 0 then (if m = 0 then nan else inf (s != s'))
    else
      let k := 26 + bitLength 4096 m'
      round (s != s') (m * 2 ^ k / m') (e - e' - k) (decide (m * 2 ^ k % m' ≠ 0))

/-- The comparison `a > b`; false when an operand is NaN. -/
def gt : Binary32 → Binary32 → Bool
  | finite s m e, finite s' m' e' =>
    let E := min e e'
    let a : Int := (if s then -1 else 1) * ((m * 2 ^ (e - E).toNat : Nat) : Int)
    let b : Int := (if s' then -1 else 1) * ((m' * 2 ^ (e' - E).toNat : Nat) : Int)
    decide (a > b)
  | inf s, inf s' => !s && s'
  | inf s, finite _ _ _ => !s
  | finite _ _ _, inf s' => s'
  | _, _ => false

/-- The conversion of an integer, correctly rounded. -/
def ofInt (i : Int) : Binary32 := round (decide (i < 0)) i.natAbs 0 false

/-- Whether the value is finite. -/
def isFinite : Binary32 → Bool
  | finite _ _ _ => true
  | _ => false

/-- Whether the value is a finite value of the format, in the one
representation the operations produce, other than the negative zero: a
normal value has `2^23 <= m < 2^24` and `-149 <= e <= 104`, a subnormal value
or the zero has `m < 2^23` and `e = -149`. -/
def regular : Binary32 → Bool
  | finite s m e =>
    (decide (8388608 ≤ m) && decide (m < 16777216) && decide (-149 ≤ e) && decide (e ≤ 104)) ||
    (decide (m < 8388608) && decide (e = -149) && (decide (m ≠ 0) || !s))
  | _ => false

/-- The binary32 arithmetic: every operation rounds to binary32. -/
def arith : Numeric.Arith Binary32 :=
  { add := add, sub := sub, mul := mul, div := div, neg := neg, gt := gt, ofInt := ofInt
    one := ofInt 1
    half := div (ofInt 1) (ofInt 2) }

/-- The `float` nearest to the decimal fraction `n / d`, as the compiler
converts a literal. -/
def ofFraction (n d : Int) : Binary32 := div (ofInt n) (ofInt d)

/-- A wall 4 wide and 2 high for a destination channel of 1280 by 1024
pixels with the near plane 1 and the far plane 100; no pixel decomposition,
full viewport. -/
def wall : Numeric.CornerInput Binary32 :=
  { frustum := ⟨ofInt (-1), ofInt 1, ofInt (-1), ofInt 1, ofInt 1, ofInt 100⟩
    width := ofInt 4
    height := ofInt 2
    pixel := ⟨0, 0, 1, 1⟩
    pixelDecomposed := false
    destPVP := ⟨0, 0, 1280, 1024⟩
    vp := ⟨ofInt 0, ofInt 0, ofInt 1, ofInt 1⟩
    vpDecomposed := false }

/-- The same for a wall 3 wide and 2 high. -/
def wall3 : Numeric.CornerInput Binary32 := { wall with width := ofInt 3 }

/-- The left half of an input: viewport `(0, 0, 0.5, 1)`. -/
def leftHalf (inp : Numeric.CornerInput Binary32) : Numeric.CornerInput Binary32 :=
  { inp with vp := ⟨ofInt 0, ofInt 0, ofFraction 1 2, ofInt 1⟩, vpDecomposed := true }

/-- The right half of an input: viewport `(0.5, 0, 0.5, 1)`. -/
def rightHalf (inp : Numeric.CornerInput Binary32) : Numeric.CornerInput Binary32 :=
  { inp with vp := ⟨ofFraction 1 2, ofInt 0, ofFraction 1 2, ofInt 1⟩, vpDecomposed := true }

/-- The second of two pixel columns of an input: pixel `(1, 0, 2, 1)`. -/
def secondColumn (inp : Numeric.CornerInput Binary32) : Numeric.CornerInput Binary32 :=
  { inp with pixel := ⟨1, 0, 2, 1⟩, pixelDecomposed := true }

end Binary32
/-! # Properties -/

/-! ## Stream round trips -/

namespace Stream

theorem readU32_writeU32 (n : Nat) (rest : List Nat) :
    readU32 (writeU32 n ++ rest) = some (n % 4294967296, rest) := by
  simp only [writeU32, readU32, List.cons_append, List.nil_append, Option.some.injEq,
    Prod.mk.injEq, and_true]
  omega

theorem readU64_writeU64 (n : Nat) (rest : List Nat) :
    readU64 (writeU64 n ++ rest) = some (n % 18446744073709551616, rest) := by
  simp only [writeU64, readU64, List.cons_append, List.nil_append, Option.some.injEq,
    Prod.mk.injEq, and_true]
  omega

theorem readFloat_writeFloat (f : FloatBytes) (rest : List Nat) :
    readFloat (writeFloat f ++ rest) = some (f, rest) := by
  cases f
  rfl

theorem readString_writeString (str rest : List Nat)
    (h : str.length < 18446744073709551616) :
    readString (writeString str ++ rest) = some (str, rest) := by
  unfold readString writeString
  rw [List.append_assoc, readU64_writeU64, Nat.mod_eq_of_lt (Nat.mod_lt _ (by decide)),
    Nat.mod_eq_of_lt h]
  by_cases h0 : str.length = 0
  · have : str = [] := List.length_eq_zero.mp h0
    subst this
    simp
  · simp [h0]

theorem length_writeU32 (n : Nat) : (writeU32 n).length = 4 := rfl

theorem length_writeFloat (f : FloatBytes) : (writeFloat f).length = 4 := rfl

theorem length_writeString (str : List Nat) : (writeString str).length = 8 + str.length := by
  simp [writeString, writeU64]
  omega

end Stream

namespace View

open Stream

theorem readWall_writeWall (w : Wall) (rest : List Nat) :
    readWall (writeWall w ++ rest) = some (w, rest) := by
  obtain ⟨⟨_, _, _, _⟩, ⟨_, _, _, _⟩, ⟨_, _, _, _⟩, ⟨_, _, _, _⟩, ⟨_, _, _, _⟩,
    ⟨_, _, _, _⟩, ⟨_, _, _, _⟩, ⟨_, _, _, _⟩, ⟨_, _, _, _⟩⟩ := w
  rfl

theorem readProjection_writeProjection (p : Projection) (rest : List Nat) :
    readProjection (writeProjection p ++ rest) = some (p, rest) := by
  obtain ⟨⟨_, _, _, _⟩, ⟨_, _, _, _⟩, ⟨_, _, _, _⟩, ⟨_, _, _, _⟩, ⟨_, _, _, _⟩,
    ⟨_, _, _, _⟩, ⟨_, _, _, _⟩, ⟨_, _, _, _⟩, ⟨_, _, _, _⟩⟩ := p
  rfl

theorem length_writeWall (w : Wall) : (writeWall w).length = 36 := rfl

theorem length_writeProjection (p : Projection) : (writeProjection p).length = 36 := rfl

theorem serialize_eq_delta (v : View) (os : List Nat) (dirtyBits : Nat) :
    serialize v os dirtyBits = os ++ delta v dirtyBits := by
  unfold serialize delta
  by_cases hc : v.current = TYPE_NONE
  · simp [hc]
  · simp only [hc, if_false]
    split_ifs <;> simp [List.append_assoc]

theorem deserialize_delta (v r : View) (bits : Nat) (rest : List Nat)
    (hc : v.current < 4294967296) (hb : bits < 4294967296)
    (hn : v.name.length < 18446744073709551616) :
    deserialize r (delta v bits ++ rest) =
      some (if v.current = TYPE_NONE then { r with current := v.current, dirty := DIRTY_NONE }
            else { dirty := bits, current := v.current,
                   wall := if bits &&& DIRTY_WALL ≠ 0 then v.wall else r.wall,
                   projection :=
                     if bits &&& DIRTY_PROJECTION ≠ 0 then v.projection else r.projection,
                   eyeBase := if bits &&& DIRTY_EYEBASE ≠ 0 then v.eyeBase else r.eyeBase,
                   name := if bits &&& DIRTY_NAME ≠ 0 then v.name else r.name }, rest) := by
  unfold deserialize delta
  rw [List.append_assoc, readU32_writeU32, Nat.mod_eq_of_lt hc]
  by_cases hnone : v.current = TYPE_NONE
  · simp [hnone]
  · simp only [hnone, if_false, List.append_assoc]
    rw [readU32_writeU32, Nat.mod_eq_of_lt hb]
    by_cases h1 : bits &&& DIRTY_WALL = 0 <;> by_cases h2 : bits &&& DIRTY_PROJECTION = 0 <;>
      by_cases h3 : bits &&& DIRTY_EYEBASE = 0 <;> by_cases h4 : bits &&& DIRTY_NAME = 0 <;>
      simp [h1, h2, h3, h4, readWall_writeWall, readProjection_writeProjection,
        readFloat_writeFloat, readString_writeString _ _ hn]

theorem lor_ne_zero_right (a b : Nat) (hb : b ≠ 0) : a ||| b ≠ 0 := by
  obtain ⟨i, hi⟩ := Nat.ne_zero_implies_bit_true hb
  intro h
  have : (a ||| b).testBit i = true := by simp [Nat.testBit_or, hi]
  rw [h] at this
  simp at this

/-- C4 (as stated, refuted): the view obtained from a default view by
`setEyeBase( 1.f )` has type NONE; its instance data is the four type bytes
only, and the view constructed from that stream has eye base `0.f`. -/
theorem getInstanceData_roundtrip_loses_eyeBase :
    getInstanceData eyeBaseOnly [] = [0, 0, 0, 0] ∧
    ofStream zeroWall zeroProjection (getInstanceData eyeBaseOnly []) =
      some (init zeroWall zeroProjection, []) ∧
    (init zeroWall zeroProjection).eyeBase ≠ eyeBaseOnly.eyeBase := by
  refine ⟨by decide, by decide, by decide⟩

/-- C4 (amended): for every view whose current type is not NONE, the stream
written by `getInstanceData` is read back by `applyInstanceData` completely and
the reader then equals the view in current type, wall, projection, eye base
and name. For a view of type NONE only the type is transmitted: the reader
gets type NONE and a clean dirty mask and keeps its own other fields. -/
theorem getInstanceData_roundtrip (v r : View) (rest : List Nat)
    (hc : v.current < 4294967296) (hn : v.name.length < 18446744073709551616) :
    (v.current ≠ TYPE_NONE →
      ∃ r', applyInstanceData r (getInstanceData v [] ++ rest) = some (r', rest) ∧
        r'.current = v.current ∧ r'.wall = v.wall ∧ r'.projection = v.projection ∧
        r'.eyeBase = v.eyeBase ∧ r'.name = v.name) ∧
    (v.current = TYPE_NONE →
      applyInstanceData r (getInstanceData v [] ++ rest) =
        some ({ r with current := TYPE_NONE, dirty := DIRTY_NONE }, rest)) := by
  have key := deserialize_delta v r DIRTY_ALL rest hc (by decide) hn
  unfold applyInstanceData getInstanceData
  rw [serialize_eq_delta, List.nil_append]
  constructor
  · intro hne
    rw [key]
    refine ⟨_, rfl, ?_⟩
    simp [hne, DIRTY_ALL, DIRTY_WALL, DIRTY_PROJECTION, DIRTY_EYEBASE, DIRTY_NAME]
  · intro he
    rw [key]
    simp [he]

/-- Witness of C4 (amended) on a wall view named "v". -/
theorem getInstanceData_roundtrip_witness :
    ∃ r', applyInstanceData eyeBaseOnly
        (getInstanceData (setName (setWall eyeBaseOnly unitWall) [118]) [] ++ [7]) =
          some (r', [7]) ∧
      r'.current = TYPE_WALL ∧ r'.wall = unitWall ∧ r'.projection = zeroProjection ∧
      r'.eyeBase = floatOne ∧ r'.name = [118] :=
  (getInstanceData_roundtrip (setName (setWall eyeBaseOnly unitWall) [118]) eyeBaseOnly [7]
    (by decide) (by decide)).1 (by decide)

theorem length_delta (v : View) (dirtyBits : Nat) (hc : v.current ≠ TYPE_NONE) :
    (delta v dirtyBits).length = deltaSize v dirtyBits := by
  unfold delta deltaSize
  simp only [hc, if_false, List.length_append, length_writeU32]
  split_ifs <;>
    simp [length_writeWall, length_writeProjection, length_writeFloat, length_writeString] <;>
    omega

/-- C5 (as stated, refuted): the default view after `setEyeBase( 1.f )` has
the dirty mask EYEBASE, yet `pack` writes the four type bytes only, not the
header and the eye base. -/
theorem pack_size_type_none :
    eyeBaseOnly.dirty ≠ DIRTY_NONE ∧ eyeBaseOnly.dirty &&& DIRTY_EYEBASE ≠ 0 ∧
    (pack eyeBaseOnly []).2 = [0, 0, 0, 0] ∧
    (pack eyeBaseOnly []).2.length ≠ deltaSize eyeBaseOnly eyeBaseOnly.dirty := by
  refine ⟨by decide, by decide, by decide, by decide⟩

/-- C5 (amended): for every view with a non-empty dirty mask whose current
type is not NONE, `pack` appends the fixed header plus exactly the bytes of
the fields whose dirty bit is set; for a view of type NONE it appends the
four bytes of the type only. -/
theorem pack_size (v : View) (os : List Nat) (hd : v.dirty ≠ DIRTY_NONE) :
    (v.current ≠ TYPE_NONE → (pack v os).2.length = os.length + deltaSize v v.dirty) ∧
    (v.current = TYPE_NONE → (pack v os).2.length = os.length + 4) := by
  unfold pack
  simp only [hd, if_false, serialize_eq_delta, List.length_append]
  constructor
  · intro hc
    rw [length_delta v v.dirty hc]
  · intro hc
    simp [delta, hc, length_writeU32]

/-- Witness of C5 (amended): a wall view with dirty wall and name. -/
theorem pack_size_witness :
    (pack (setName (setWall eyeBaseOnly unitWall) [118]) [1, 2]).2.length =
      [1, 2].length + deltaSize (setName (setWall eyeBaseOnly unitWall) [118])
        (setName (setWall eyeBaseOnly unitWall) [118]).dirty :=
  (pack_size (setName (setWall eyeBaseOnly unitWall) [118]) [1, 2] (by decide)).1 (by decide)

/-- C6: `serialize` appends the type; nothing more for type NONE; otherwise
the dirty bits and then, in the order wall, projection, eye base, name, the
fields whose bit is set. `deserialize` reads such a delta to its end,
leaving what follows it in the stream, and takes over the type, the mask and
exactly the fields of the mask. -/
theorem serialize_layout (v : View) (os : List Nat) (dirtyBits : Nat) :
    serialize v os dirtyBits = os ++ delta v dirtyBits ∧
    (v.current = TYPE_NONE → serialize v os dirtyBits = os ++ writeU32 v.current) ∧
    (v.current ≠ TYPE_NONE →
      serialize v os dirtyBits =
        os ++ (writeU32 v.current ++ writeU32 dirtyBits ++
          (if dirtyBits &&& DIRTY_WALL ≠ 0 then writeWall v.wall else []) ++
          (if dirtyBits &&& DIRTY_PROJECTION ≠ 0 then writeProjection v.projection else []) ++
          (if dirtyBits &&& DIRTY_EYEBASE ≠ 0 then writeFloat v.eyeBase else []) ++
          (if dirtyBits &&& DIRTY_NAME ≠ 0 then writeString v.name else []))) ∧
    (v.current < 4294967296 → dirtyBits < 4294967296 →
      v.name.length < 18446744073709551616 →
      ∀ (r : View) (rest : List Nat),
        deserialize r (serialize v [] dirtyBits ++ rest) =
          some (if v.current = TYPE_NONE then
                  { r with current := v.current, dirty := DIRTY_NONE }
                else
                  { dirty := dirtyBits, current := v.current,
                    wall := if dirtyBits &&& DIRTY_WALL ≠ 0 then v.wall else r.wall,
                    projection :=
                      if dirtyBits &&& DIRTY_PROJECTION ≠ 0 then v.projection
                      else r.projection,
                    eyeBase := if dirtyBits &&& DIRTY_EYEBASE ≠ 0 then v.eyeBase else r.eyeBase,
                    name := if dirtyBits &&& DIRTY_NAME ≠ 0 then v.name else r.name },
                rest)) := by
  refine ⟨serialize_eq_delta v os dirtyBits, ?_, ?_, ?_⟩
  · intro hc
    rw [serialize_eq_delta]
    simp [delta, hc]
  · intro hc
    rw [serialize_eq_delta]
    simp [delta, hc, List.append_assoc]
  · intro hc hb hn r rest
    rw [serialize_eq_delta, List.nil_append]
    exact deserialize_delta v r dirtyBits rest hc hb hn

/-- Witness of C6: the delta of a wall view for the mask WALL | EYEBASE, read
into a default view, with one byte following in the stream. -/
theorem serialize_layout_witness :
    deserialize (init zeroWall zeroProjection)
        (serialize (setWall eyeBaseOnly unitWall) [] 5 ++ [9]) =
      some ({ dirty := 5, current := TYPE_WALL, wall := unitWall,
              projection := zeroProjection, eyeBase := floatOne, name := [] }, [9]) :=
  (serialize_layout (setWall eyeBaseOnly unitWall) [] 5).2.2.2 (by decide) (by decide)
    (by decide) (init zeroWall zeroProjection) [9]

/-- C7: `pack` on a clean view writes nothing and leaves the view unchanged;
on a dirty view it serializes with the current dirty mask and clears the
mask. After `setWall`, `pack`, `setEyeBase`, `pack` the second delta carries
the mask EYEBASE and the eye base only, and on a view that was clean before,
the first delta carries the mask WALL and the wall only. -/
theorem pack_emits_dirty_subset (v : View) (os : List Nat) (wall : Wall)
    (eyeBase : FloatBytes) :
    (v.dirty = DIRTY_NONE → pack v os = (v, os)) ∧
    (v.dirty ≠ DIRTY_NONE →
      pack v os = ({ v with dirty := DIRTY_NONE }, serialize v os v.dirty)) ∧
    (pack v os).1.dirty = DIRTY_NONE ∧
    (v.dirty = DIRTY_NONE →
      (pack (setWall v wall) []).2 =
        writeU32 TYPE_WALL ++ writeU32 DIRTY_WALL ++ writeWall wall) ∧
    (pack (setEyeBase (pack (setWall v wall) []).1 eyeBase) []).2 =
      writeU32 TYPE_WALL ++ writeU32 DIRTY_EYEBASE ++ writeFloat eyeBase := by
  refine ⟨?_, ?_, ?_, ?_, ?_⟩
  · intro h
    simp [pack, h]
  · intro h
    simp [pack, h]
  · unfold pack
    split_ifs with h
    · exact h
    · rfl
  · intro h
    simp [pack, setWall, h, DIRTY_NONE, DIRTY_WALL, serialize, TYPE_WALL, TYPE_NONE,
      DIRTY_PROJECTION, DIRTY_EYEBASE, DIRTY_NAME]
  · have h1 : (setWall v wall).dirty ≠ DIRTY_NONE := lor_ne_zero_right _ _ (by decide)
    have h2 : pack (setWall v wall) [] =
        ({ setWall v wall with dirty := DIRTY_NONE },
          serialize (setWall v wall) [] (setWall v wall).dirty) := by
      simp [pack, h1]
    rw [h2]
    have e1 : (4 : Nat) &&& 8 = 0 := by decide
    have e2 : (4 : Nat) &&& 2 = 0 := by decide
    simp [pack, setWall, setEyeBase, DIRTY_NONE, DIRTY_WALL, serialize, TYPE_WALL, TYPE_NONE,
      DIRTY_PROJECTION, DIRTY_EYEBASE, DIRTY_NAME, e1, e2]

/-- Witness of C7 on the default view. -/
theorem pack_emits_dirty_subset_witness :
    pack (init zeroWall zeroProjection) [3] = (init zeroWall zeroProjection, [3]) ∧
    pack eyeBaseOnly [3] =
      ({ eyeBaseOnly with dirty := DIRTY_NONE }, serialize eyeBaseOnly [3] eyeBaseOnly.dirty) ∧
    (pack (setWall (init zeroWall zeroProjection) unitWall) []).2 =
      writeU32 TYPE_WALL ++ writeU32 DIRTY_WALL ++ writeWall unitWall :=
  ⟨(pack_emits_dirty_subset (init zeroWall zeroProjection) [3] unitWall floatOne).1 (by decide),
   (pack_emits_dirty_subset eyeBaseOnly [3] unitWall floatOne).2.1 (by decide),
   (pack_emits_dirty_subset (init zeroWall zeroProjection) [3] unitWall floatOne).2.2.2.1
     (by decide)⟩

end View

namespace DataIStream

theorem releaseRemoved_calls_aux (l : List (Option Child)) (t : Trace) :
    (l.foldl releaseChild t).calls =
      t.calls ++ l.flatMap (fun entry =>
        match entry with
        | none => []
        | some child =>
          (if child.isAttached = true ∧ child.isMaster = false then
            [Call.unmapObject child.addr]
           else []) ++ [Call.release child.addr]) ∧
    (l.foldl releaseChild t).created = t.created := by
  induction l generalizing t with
  | nil => simp
  | cons e l ih =>
    rw [List.foldl_cons]
    obtain ⟨h1, h2⟩ := ih (releaseChild t e)
    rw [h1, h2]
    cases e with
    | none => simp [releaseChild]
    | some c =>
      cases ha : c.isAttached <;> cases hm : c.isMaster <;>
        simp [releaseChild, ha, hm, List.flatMap_cons]

theorem releaseRemoved_eq (old : List (Option Child)) (t : Trace) :
    releaseRemoved old t = { calls := t.calls ++ releasePlan old, created := t.created } := by
  obtain ⟨h1, h2⟩ := releaseRemoved_calls_aux old.reverse t
  unfold releaseRemoved releasePlan
  cases h : List.foldl releaseChild t old.reverse
  rw [h] at h1 h2
  simp only at h1 h2
  rw [h1, h2]

theorem addrs_cons_none (l : List (Option Child)) : addrs (none :: l) = addrs l := by
  simp [addrs]

theorem addrs_cons_some (c : Child) (l : List (Option Child)) :
    addrs (some c :: l) = c.addr :: addrs l := by
  simp [addrs]

theorem addrs_append (l1 l2 : List (Option Child)) : addrs (l1 ++ l2) = addrs l1 ++ addrs l2 := by
  simp [addrs]

theorem addrs_reverse (l : List (Option Child)) : addrs l.reverse = (addrs l).reverse := by
  simp [addrs, List.filterMap_reverse]

theorem addrs_sublist {l1 l2 : List (Option Child)} (h : l1.Sublist l2) :
    (addrs l1).Sublist (addrs l2) :=
  (h.filterMap id).map _

theorem mem_addrs_of_get? {old : List (Option Child)} {j : Nat} {child : Child}
    (h : old.get? j = some (some child)) : child.addr ∈ addrs old := by
  have hm : some child ∈ old := List.get?_mem h
  simp only [addrs, List.mem_map, List.mem_filterMap, id]
  exact ⟨child, ⟨some child, hm, rfl⟩, rfl⟩

theorem not_mem_addrs_eraseIdx (old : List (Option Child)) (j : Nat) (child : Child)
    (hnd : (addrs old).Nodup) (h : old.get? j = some (some child)) :
    child.addr ∉ addrs (old.eraseIdx j) := by
  induction old generalizing j with
  | nil => simp at h
  | cons e rest ih =>
    cases j with
    | zero =>
      simp only [List.get?_cons_zero, Option.some.injEq] at h
      subst h
      rw [addrs_cons_some] at hnd
      simpa using (List.nodup_cons.mp hnd).1
    | succ j =>
      simp only [List.get?_cons_succ] at h
      rw [List.eraseIdx_cons_succ]
      cases e with
      | none =>
        rw [addrs_cons_none] at hnd ⊢
        exact ih j hnd h
      | some c0 =>
        rw [addrs_cons_some] at hnd ⊢
        obtain ⟨h0, hrest⟩ := List.nodup_cons.mp hnd
        have hin := mem_addrs_of_get? h
        intro hmem
        rcases List.mem_cons.mp hmem with heq | hmem
        · exact h0 (heq ▸ hin)
        · exact ih j hrest h hmem

theorem rebuild_spec (object : Owner) (versions : List ObjectVersion) :
    ∀ (old result : List (Option Child)) (t : Trace)
      (old' result' : List (Option Child)) (t' : Trace),
      rebuild object versions old result t = some (old', result', t') →
      ∃ made, t'.calls = t.calls ++ made ∧ (∀ call ∈ made, call.isRebuild = true) ∧
        (addrs old').Sublist (addrs old) ∧
        ((addrs old).Nodup → ∀ a sv, Call.sync a sv ∈ made → a ∉ addrs old') := by
  induction versions with
  | nil =>
    intro old result t old' result' t' h
    simp only [rebuild, Option.some.injEq, Prod.mk.injEq] at h
    obtain ⟨rfl, -, rfl⟩ := h
    exact ⟨[], by simp, by simp, List.Sublist.refl _, by simp⟩
  | cons version versions ih =>
    intro old result t old' result' t' h
    rw [rebuild] at h
    by_cases hz : version.identifier = UUID_ZERO
    · rw [if_pos hz] at h
      exact ih _ _ _ _ _ _ h
    · rw [if_neg hz] at h
      cases hf : find_if old version.identifier with
      | none => rw [hf] at h; simp at h
      | some j =>
        rw [hf] at h
        simp only at h
        by_cases hj : j = old.length
        · rw [if_pos hj] at h
          obtain ⟨made, h1, h2, h3, h4⟩ := ih _ _ _ _ _ _ h
          refine ⟨[Call.create (object.create t.created).addr,
            Call.mapObject (object.create t.created).addr version] ++ made, ?_, ?_, h3, ?_⟩
          · rw [h1]; simp
          · intro call hc
            rcases List.mem_append.mp hc with hc | hc
            · simp only [List.mem_cons, List.mem_singleton, List.not_mem_nil, or_false] at hc
              rcases hc with rfl | rfl <;> rfl
            · exact h2 call hc
          · intro hnd a sv hs
            rcases List.mem_append.mp hs with hs | hs
            · simp at hs
            · exact h4 hnd a sv hs
        · rw [if_neg hj] at h
          cases hg : old.get? j with
          | none => rw [hg] at h; simp at h
          | some e =>
            cases e with
            | none => rw [hg] at h; simp at h
            | some child =>
              rw [hg] at h
              simp only at h
              obtain ⟨made, h1, h2, h3, h4⟩ := ih _ _ _ _ _ _ h
              have hsub : (addrs (old.eraseIdx j)).Sublist (addrs old) :=
                addrs_sublist (List.eraseIdx_sublist old j)
              refine ⟨[Call.sync child.addr
                  (if object.isMaster then SyncVersion.VERSION_HEAD
                   else SyncVersion.version version.version)] ++ made, ?_, ?_,
                h3.trans hsub, ?_⟩
              · rw [h1]; simp
              · intro call hc
                rcases List.mem_append.mp hc with hc | hc
                · simp only [List.mem_singleton] at hc
                  subst hc; rfl
                · exact h2 call hc
              · intro hnd a sv hs
                rcases List.mem_append.mp hs with hs | hs
                · simp only [List.mem_singleton, Call.sync.injEq] at hs
                  obtain ⟨rfl, -⟩ := hs
                  intro hmem
                  exact not_mem_addrs_eraseIdx old j child hnd hg (h3.subset hmem)
                · exact h4 (hnd.sublist hsub) a sv hs

theorem count_release_flatMap (l : List (Option Child)) (a : Nat) :
    (l.flatMap (fun entry =>
        match entry with
        | none => []
        | some child =>
          (if child.isAttached = true ∧ child.isMaster = false then
            [Call.unmapObject child.addr]
           else []) ++ [Call.release child.addr])).count (Call.release a) =
      (addrs l).count a := by
  induction l with
  | nil => simp [addrs]
  | cons e l ih =>
    rw [List.flatMap_cons, List.count_append, ih]
    cases e with
    | none => simp [addrs_cons_none]
    | some c =>
      rw [addrs_cons_some]
      cases ha : c.isAttached <;> cases hm : c.isMaster <;> by_cases hc : c.addr = a <;>
        simp [ha, hm, hc, List.count_cons, Nat.add_comm]

theorem count_unmap_flatMap (l : List (Option Child)) (a : Nat) :
    (l.flatMap (fun entry =>
        match entry with
        | none => []
        | some child =>
          (if child.isAttached = true ∧ child.isMaster = false then
            [Call.unmapObject child.addr]
           else []) ++ [Call.release child.addr])).count (Call.unmapObject a) =
      (addrs (l.filter (fun entry =>
        match entry with
        | none => false
        | some child => child.isAttached && !child.isMaster))).count a := by
  induction l with
  | nil => simp [addrs]
  | cons e l ih =>
    rw [List.flatMap_cons, List.count_append, ih]
    cases e with
    | none => simp
    | some c =>
      cases ha : c.isAttached <;> cases hm : c.isMaster <;> by_cases hc : c.addr = a <;>
        simp [ha, hm, hc, List.count_cons, Nat.add_comm, List.filter_cons, addrs_cons_some]

/-- C8 (code defect): a vector produced by `deserializeChildren` can hold a
null placeholder, and a later call with that vector as the old list has no
result when the search for an identifier reaches the placeholder, because the
finder dereferences it. Without the placeholder the same call returns the
child synced to the serialized version. -/
theorem deserializeChildren_null_placeholder :
    deserializeChildren slaveOwner [⟨0, 0⟩, ⟨5, 1⟩] [some childFive] [] ⟨[], 0⟩ =
      some ([none, some childFive], ⟨[Call.sync 1 (SyncVersion.version 1)], 0⟩) ∧
    deserializeChildren slaveOwner [⟨5, 2⟩] [none, some childFive] [none, some childFive]
      ⟨[], 0⟩ = none ∧
    deserializeChildren slaveOwner [⟨5, 2⟩] [some childFive] [some childFive] ⟨[], 0⟩ =
      some ([some childFive], ⟨[Call.sync 1 (SyncVersion.version 2)], 0⟩) := by
  refine ⟨by decide, by decide, by decide⟩

end DataIStream

namespace ChannelUpdateVisitor

/-- C1: `_skipCompound` returns true exactly when the compound's channel is
not the visitor's channel, or the compound is not inherit-active for the
visitor's eye, or its inherited task mask is `TASK_NONE`. -/
theorem skipCompound_iff (v : ChannelUpdateVisitor) (compound : Compound) :
    v._skipCompound compound = true ↔
      (compound.channel ≠ some v.channel.addr ∨ compound.isInheritActive v.eye = false ∨
        compound.inheritTasks = TASK_NONE) := by
  simp [_skipCompound, or_assoc]

/-- C10: `visitPre` returns `TRAVERSE_PRUNE` exactly when the compound is not
inherit-active for the visitor's eye, and then nothing is sent and the last
draw compound, the maximum frame rate and the updated flag stay as they
are. -/
theorem visitPre_prune_iff (v : ChannelUpdateVisitor) (compound : Compound) (s : State) :
    ((v.visitPre compound s).1 = VisitorResult.TRAVERSE_PRUNE ↔
      compound.isInheritActive v.eye = false) ∧
    (compound.isInheritActive v.eye = false →
      v.visitPre compound s = (VisitorResult.TRAVERSE_PRUNE, s)) := by
  unfold visitPre
  by_cases h : compound.isInheritActive v.eye = false
  · simp [h]
  · have h' : compound.isInheritActive v.eye = true := by simpa using h
    rw [h']
    constructor
    · split_ifs <;> simp_all
    · intro hf
      cases hf

/-- Witness of C10: the sample visitor on a compound that is not active. -/
theorem visitPre_prune_iff_witness :
    Sample.visitor.visitPre Sample.inactiveCompound (State.frameStart 60) =
      (VisitorResult.TRAVERSE_PRUNE, State.frameStart 60) :=
  (visitPre_prune_iff Sample.visitor Sample.inactiveCompound (State.frameStart 60)).2 rfl

/-- The transmit packets of one output frame: one per distinct destination
that is neither the own node nor already served; nothing else changes. -/
theorem transmitInputFrames_spec (v : ChannelUpdateVisitor) (context : RenderContext)
    (outputNodeID : Nat) (outputFrame : Frame) (inputFrames : List InputFrame) :
    ∀ (nodeIDs : List Nat) (s : State),
      ∃ extra : List Packet,
        _transmitInputFrames v context outputNodeID outputFrame inputFrames nodeIDs s =
          { s with sent := s.sent ++ extra } ∧
        (∀ p ∈ extra, p.isTransmit = true) ∧
        extra.length =
          ((inputFrames.map (fun i => i.node.netNodeID)).toFinset \
            insert outputNodeID nodeIDs.toFinset).card := by
  induction inputFrames with
  | nil =>
    intro nodeIDs s
    exact ⟨[], by simp [_transmitInputFrames], by simp, by simp⟩
  | cons i rest ih =>
    intro nodeIDs s
    rw [_transmitInputFrames]
    by_cases h : i.node.netNodeID = outputNodeID ∨ i.node.netNodeID ∈ nodeIDs
    · simp only [h, if_true]
      obtain ⟨extra, h1, h2, h3⟩ := ih nodeIDs s
      refine ⟨extra, h1, h2, ?_⟩
      rw [h3, List.map_cons, List.toFinset_cons]
      congr 1
      ext x
      simp only [Finset.mem_sdiff, Finset.mem_insert, List.mem_toFinset]
      constructor
      · rintro ⟨hx, hn⟩
        exact ⟨Or.inr hx, hn⟩
      · rintro ⟨hx | hx, hn⟩
        · exfalso
          apply hn
          rcases h with h | h
          · exact Or.inl (hx.trans h)
          · exact Or.inr (hx ▸ h)
        · exact ⟨hx, hn⟩
    · simp only [h, if_false]
      obtain ⟨extra, h1, h2, h3⟩ := ih (i.node.netNodeID :: nodeIDs)
        (s.send (Packet.ChannelFrameTransmit context (outputFrame.dataVersion.get v.eye)
          i.node.netNodeID i.node.id))
      refine ⟨Packet.ChannelFrameTransmit context (outputFrame.dataVersion.get v.eye)
          i.node.netNodeID i.node.id :: extra, ?_, ?_, ?_⟩
      · rw [h1]
        simp [State.send]
      · intro p hp
        rcases List.mem_cons.mp hp with rfl | hp
        · rfl
        · exact h2 p hp
      · rw [List.length_cons, h3, List.map_cons, List.toFinset_cons, List.toFinset_cons]
        have hnot : i.node.netNodeID ∉
            (rest.map (fun i => i.node.netNodeID)).toFinset \
              insert outputNodeID (insert i.node.netNodeID nodeIDs.toFinset) := by
          simp
        rw [← Finset.card_insert_of_not_mem hnot]
        congr 1
        ext x
        simp only [Finset.mem_sdiff, Finset.mem_insert, List.mem_toFinset]
        push_neg at h
        constructor
        · rintro (hx | ⟨hx, hn⟩)
          · subst hx
            refine ⟨Or.inl rfl, ?_⟩
            rintro (h' | h')
            · exact h.1 h'
            · exact h.2 h'
          · refine ⟨Or.inr hx, ?_⟩
            rintro (h' | h')
            · exact hn (Or.inl h')
            · exact hn (Or.inr (Or.inr h'))
        · rintro ⟨hx | hx, hn⟩
          · exact Or.inl hx
          · by_cases hxi : x = i.node.netNodeID
            · exact Or.inl hxi
            · refine Or.inr ⟨hx, ?_⟩
              rintro (h' | h' | h')
              · exact hn (Or.inl h')
              · exact hxi h'
              · exact hn (Or.inr h')

theorem card_sdiff_own (ids : Finset Nat) (own : Nat) :
    (ids \ insert own (∅ : Finset Nat)).card = ids.card - (if own ∈ ids then 1 else 0) := by
  have : insert own (∅ : Finset Nat) = {own} := rfl
  rw [this, Finset.sdiff_singleton_eq_erase, Finset.card_erase_eq_ite]
  split_ifs <;> rfl

/-- The transmit packets of a readback: for every output frame, one per
distinct destination other than the own node. -/
theorem transmitFrames_spec (v : ChannelUpdateVisitor) (context : RenderContext)
    (outputNodeID : Nat) (frames : List Frame) :
    ∀ s : State,
      ∃ extra : List Packet,
        _transmitFrames v context outputNodeID frames s = { s with sent := s.sent ++ extra } ∧
        (∀ p ∈ extra, p.isTransmit = true) ∧
        extra.length =
          (frames.map (fun f =>
            (f.consumerNodeIDs context.eye).toFinset.card -
              (if outputNodeID ∈ f.consumerNodeIDs context.eye then 1 else 0))).sum := by
  induction frames with
  | nil =>
    intro s
    exact ⟨[], by simp [_transmitFrames], by simp, by simp⟩
  | cons f rest ih =>
    intro s
    rw [_transmitFrames]
    obtain ⟨e1, h1, h2, h3⟩ :=
      transmitInputFrames_spec v context outputNodeID f (f.inputFrames.get context.eye) [] s
    simp only [h1]
    obtain ⟨e2, g1, g2, g3⟩ := ih { s with sent := s.sent ++ e1 }
    refine ⟨e1 ++ e2, ?_, ?_, ?_⟩
    · rw [g1]
      simp
    · intro p hp
      rcases List.mem_append.mp hp with hp | hp
      · exact h2 p hp
      · exact g2 p hp
    · rw [List.length_append, h3, g3, List.map_cons, List.sum_cons, List.toFinset_nil,
        card_sdiff_own]
      simp [Frame.consumerNodeIDs]

theorem collect_readback_frames (eye : Eye) (outputFrames : List Frame) :
    ∀ acc : List Frame × List ObjectVersion,
      outputFrames.foldl
        (fun acc frame =>
          if frame.hasData.get eye = false then acc
          else (acc.1 ++ [frame], acc.2 ++ [frame.objectVersion])) acc =
      (acc.1 ++ outputFrames.filter (fun f => f.hasData.get eye),
       acc.2 ++ (outputFrames.filter (fun f => f.hasData.get eye)).map
         (fun f => f.objectVersion)) := by
  induction outputFrames with
  | nil => intro acc; simp
  | cons f rest ih =>
    intro acc
    rw [List.foldl_cons, ih]
    cases h : f.hasData.get eye <;> simp [h, List.filter_cons]

/-- What a readback call sends: the readback packet and the transmit
packets, nothing else. -/
theorem updateReadback_sent (v : ChannelUpdateVisitor) (compound : Compound)
    (context : RenderContext) (s : State)
    (hrb : compound.testInheritTask TASK_READBACK = true)
    (hdata : compound.readbackFrames v.eye ≠ []) :
    ∃ extra : List Packet,
      (v._updateReadback compound context s).sent =
        s.sent ++ Packet.ChannelFrameReadback context
          ((compound.readbackFrames v.eye).length % 4294967296)
          ((compound.readbackFrames v.eye).map (fun f => f.objectVersion)) :: extra ∧
      (∀ p ∈ extra, p.isTransmit = true) ∧
      extra.length =
        ((compound.readbackFrames v.eye).map (fun f =>
          (f.consumerNodeIDs context.eye).toFinset.card -
            (if v.channel.node.netNodeID ∈ f.consumerNodeIDs context.eye then 1 else 0))).sum := by
  unfold _updateReadback
  simp only [hrb, Bool.true_eq_false, if_false, collect_readback_frames, List.nil_append]
  have hne : (compound.outputFrames.filter (fun f => f.hasData.get v.eye)).isEmpty = false := by
    cases hf : compound.outputFrames.filter (fun f => f.hasData.get v.eye) with
    | nil => exact absurd hf hdata
    | cons _ _ => rfl
  rw [hne]
  simp only [Bool.false_eq_true, if_false]
  obtain ⟨extra, h1, h2, h3⟩ := transmitFrames_spec v context v.channel.node.netNodeID
    (compound.outputFrames.filter (fun f => f.hasData.get v.eye))
    { s.send (Packet.ChannelFrameReadback context
        ((compound.outputFrames.filter (fun f => f.hasData.get v.eye)).length % 4294967296)
        ((compound.outputFrames.filter (fun f => f.hasData.get v.eye)).map
          (fun f => f.objectVersion))) with updated := true }
  refine ⟨extra, ?_, h2, h3⟩
  rw [h1]
  simp [State.send, Compound.readbackFrames]

/-- C3 (as stated, refuted): the sample compound reads back two output
frames whose consumers are both hosted on the one remote node. The readback
is sent, the consumers are on one network node identifier, the own identifier
is not among them, and two transmit packets are sent, not one. -/
theorem updateReadback_two_frames_one_destination :
    ((Sample.visitor._updateReadback Sample.readbackCompound
        (Sample.visitor._setupRenderContext Sample.readbackCompound)
        (State.frameStart 60)).sent.countP Packet.isReadback = 1) ∧
    ((Sample.readbackCompound.readbackFrames Eye.CYCLOP).flatMap
        (fun f => f.consumerNodeIDs Eye.CYCLOP)).dedup = [7] ∧
    Sample.visitor.channel.node.netNodeID = 1 ∧
    ((Sample.visitor._updateReadback Sample.readbackCompound
        (Sample.visitor._setupRenderContext Sample.readbackCompound)
        (State.frameStart 60)).sent.countP Packet.isTransmit = 2) ∧
    ((Sample.visitor._updateReadback Sample.readbackCompound
        (Sample.visitor._setupRenderContext Sample.readbackCompound)
        (State.frameStart 60)).sent.countP Packet.isTransmit ≠
      (((Sample.readbackCompound.readbackFrames Eye.CYCLOP).flatMap
          (fun f => f.consumerNodeIDs Eye.CYCLOP)).dedup.length -
        (if Sample.visitor.channel.node.netNodeID ∈
            (Sample.readbackCompound.readbackFrames Eye.CYCLOP).flatMap
              (fun f => f.consumerNodeIDs Eye.CYCLOP) then 1 else 0))) := by
  refine ⟨by decide, by decide, by decide, by decide, by decide⟩

theorem isReadback_of_isTransmit (p : Packet) (h : p.isTransmit = true) :
    p.isReadback = false := by
  cases p <;> simp_all [Packet.isTransmit, Packet.isReadback]

/-- C3 (amended): a call of `_updateReadback` that emits a readback packet
emits exactly that one readback packet, and its transmit packets number, summed
over the output frames with data on the visitor's eye, the distinct network
node identifiers hosting that frame's input frames on this eye, less one when
the producing channel's own identifier is among them. With a single such
output frame that is K - 1 or K. -/
theorem updateReadback_transmit_count (v : ChannelUpdateVisitor) (compound : Compound)
    (context : RenderContext) (s : State) (hctx : context.eye = v.eye)
    (hrb : compound.testInheritTask TASK_READBACK = true)
    (hdata : compound.readbackFrames v.eye ≠ []) :
    (v._updateReadback compound context s).sent.countP Packet.isReadback =
      s.sent.countP Packet.isReadback + 1 ∧
    (v._updateReadback compound context s).sent.countP Packet.isTransmit =
      s.sent.countP Packet.isTransmit +
        ((compound.readbackFrames v.eye).map (fun f =>
          (f.consumerNodeIDs v.eye).toFinset.card -
            (if v.channel.node.netNodeID ∈ f.consumerNodeIDs v.eye then 1 else 0))).sum := by
  obtain ⟨extra, h1, h2, h3⟩ := updateReadback_sent v compound context s hrb hdata
  rw [hctx] at h3
  rw [h1]
  constructor
  · rw [List.countP_append, List.countP_cons]
    have h0 : extra.countP Packet.isReadback = 0 := by
      rw [List.countP_eq_zero]
      intro p hp
      simp [isReadback_of_isTransmit p (h2 p hp)]
    simp [h0, Packet.isReadback]
  · rw [List.countP_append, List.countP_cons]
    have hall : extra.countP Packet.isTransmit = extra.length :=
      List.countP_eq_length.mpr h2
    simp [hall, h3, Packet.isTransmit]

/-- Witness of C3 (amended): the two output frames of the sample compound
give one transmit packet each. -/
theorem updateReadback_transmit_count_witness :
    (Sample.visitor._updateReadback Sample.readbackCompound
        (Sample.visitor._setupRenderContext Sample.readbackCompound)
        (State.frameStart 60)).sent.countP Packet.isTransmit =
      (State.frameStart 60).sent.countP Packet.isTransmit +
        ((Sample.readbackCompound.readbackFrames Sample.visitor.eye).map (fun f =>
          (f.consumerNodeIDs Sample.visitor.eye).toFinset.card -
            (if Sample.visitor.channel.node.netNodeID ∈ f.consumerNodeIDs Sample.visitor.eye
             then 1 else 0))).sum :=
  (updateReadback_transmit_count Sample.visitor Sample.readbackCompound
    (Sample.visitor._setupRenderContext Sample.readbackCompound) (State.frameStart 60)
    rfl (by decide) (by decide)).2

theorem updateDrawFinish_eq (v : ChannelUpdateVisitor) (c : Compound) (s : State) :
    v._updateDrawFinish c s =
      if c.isLastInheritEye v.eye = true ∧
          (s.lastDrawCompound = none ∨ s.lastDrawCompound = some c.addr) then
        { s with lastDrawCompound := some c.addr, sent := s.sent ++ drawFinishCascade v }
      else s := by
  unfold _updateDrawFinish drawFinishCascade
  obtain ⟨ld, fps, sent, upd⟩ := s
  cases hl : c.isLastInheritEye v.eye <;> cases ld with
  | none =>
    simp [State.send]
    try (split_ifs <;> simp)
  | some a =>
    by_cases ha : a = c.addr
    · simp [State.send, ha]
      try (split_ifs <;> simp)
    · simp [State.send, ha]

end ChannelUpdateVisitor

namespace State

theorem QuietStep.refl (s : State) : s.QuietStep s :=
  ⟨rfl, [], by simp, by simp⟩

theorem QuietStep.trans {s1 s2 s3 : State} (h12 : s1.QuietStep s2) (h23 : s2.QuietStep s3) :
    s1.QuietStep s3 := by
  obtain ⟨a1, e1, b1, c1⟩ := h12
  obtain ⟨a2, e2, b2, c2⟩ := h23
  refine ⟨a2.trans a1, e1 ++ e2, ?_, ?_⟩
  · rw [b2, b1, List.append_assoc]
  · intro p hp
    rcases List.mem_append.mp hp with hp | hp
    · exact c1 p hp
    · exact c2 p hp

theorem QuietStep.send (s : State) (p : Packet) (h1 : p.isDrawFinish = false)
    (h2 : p.isDraw = false) : s.QuietStep (s.send p) := by
  refine ⟨rfl, [p], rfl, ?_⟩
  intro q hq
  simp only [List.mem_singleton] at hq
  subst hq
  exact ⟨h1, h2⟩

theorem QuietStep.finishView {s s' : State} (h : s.QuietStep s') :
    s'.finishView = s.finishView := by
  obtain ⟨a, e, b, c⟩ := h
  unfold State.finishView
  rw [a, b, List.filter_append]
  have : e.filter Packet.isDrawFinish = [] := by
    rw [List.filter_eq_nil_iff]
    intro p hp
    simp [(c p hp).1]
  rw [this, List.append_nil]

theorem QuietStep.countP_isDraw {s s' : State} (h : s.QuietStep s') :
    s'.sent.countP Packet.isDraw = s.sent.countP Packet.isDraw := by
  obtain ⟨a, e, b, c⟩ := h
  rw [b, List.countP_append]
  have : e.countP Packet.isDraw = 0 := by
    rw [List.countP_eq_zero]
    intro p hp
    simp [(c p hp).2]
  rw [this, Nat.add_zero]

end State

namespace ChannelUpdateVisitor

theorem quiet_updateFrameRate (c : Compound) (s : State) :
    s.QuietStep (_updateFrameRate c s) := by
  unfold _updateFrameRate
  dsimp only
  split_ifs
  · exact ⟨rfl, [], by simp, by simp⟩
  · exact State.QuietStep.refl s

theorem quiet_updateViewStart (c : Compound) (context : RenderContext) (s : State) :
    s.QuietStep (_updateViewStart c context s) := by
  unfold _updateViewStart
  split_ifs
  · exact State.QuietStep.refl s
  · exact State.QuietStep.send s _ rfl rfl

theorem quiet_updateViewFinish (c : Compound) (context : RenderContext) (s : State) :
    s.QuietStep (_updateViewFinish c context s) := by
  unfold _updateViewFinish
  split_ifs
  · exact State.QuietStep.refl s
  · exact State.QuietStep.send s _ rfl rfl

theorem quiet_sendClear (context : RenderContext) (s : State) :
    s.QuietStep (_sendClear context s) := by
  refine ⟨rfl, [Packet.ChannelFrameClear context], rfl, ?_⟩
  intro q hq
  simp only [List.mem_singleton] at hq
  subst hq
  exact ⟨rfl, rfl⟩

theorem quiet_updateAssemble (v : ChannelUpdateVisitor) (c : Compound)
    (context : RenderContext) (s : State) :
    s.QuietStep (_updateAssemble v c context s) := by
  unfold _updateAssemble
  dsimp only
  split_ifs
  · exact State.QuietStep.refl s
  · exact State.QuietStep.refl s
  · refine ⟨rfl, [_], rfl, ?_⟩
    intro q hq
    simp only [List.mem_singleton] at hq
    subst hq
    exact ⟨rfl, rfl⟩

theorem isDrawFinish_of_isTransmit (p : Packet) (h : p.isTransmit = true) :
    p.isDrawFinish = false ∧ p.isDraw = false := by
  cases p <;> simp_all [Packet.isTransmit, Packet.isDrawFinish, Packet.isDraw]

theorem quiet_updateReadback (v : ChannelUpdateVisitor) (c : Compound)
    (context : RenderContext) (s : State) :
    s.QuietStep (_updateReadback v c context s) := by
  by_cases hrb : c.testInheritTask TASK_READBACK = true
  · by_cases hdata : c.readbackFrames v.eye = []
    · have : _updateReadback v c context s = s := by
        unfold _updateReadback
        simp only [hrb, Bool.true_eq_false, if_false, collect_readback_frames, List.nil_append]
        unfold Compound.readbackFrames at hdata
        rw [hdata]
        simp
      rw [this]
      exact State.QuietStep.refl s
    · obtain ⟨extra, h1, h2, -⟩ := updateReadback_sent v c context s hrb hdata
      refine ⟨?_, _, h1, ?_⟩
      · unfold _updateReadback
        simp only [hrb, Bool.true_eq_false, if_false, collect_readback_frames, List.nil_append]
        split_ifs
        · rfl
        · obtain ⟨e, g1, -, -⟩ := transmitFrames_spec v context v.channel.node.netNodeID
            (c.outputFrames.filter (fun f => f.hasData.get v.eye))
            { s.send (Packet.ChannelFrameReadback context
                ((c.outputFrames.filter (fun f => f.hasData.get v.eye)).length % 4294967296)
                ((c.outputFrames.filter (fun f => f.hasData.get v.eye)).map
                  (fun f => f.objectVersion))) with updated := true }
          rw [g1]
          rfl
      · intro p hp
        rcases List.mem_cons.mp hp with rfl | hp
        · exact ⟨rfl, rfl⟩
        · exact isDrawFinish_of_isTransmit p (h2 p hp)
  · have : _updateReadback v c context s = s := by
      unfold _updateReadback
      simp at hrb
      simp [hrb]
    rw [this]
    exact State.QuietStep.refl s

theorem quiet_updatePostDraw (v : ChannelUpdateVisitor) (c : Compound)
    (context : RenderContext) (s : State) :
    s.QuietStep (_updatePostDraw v c context s) := by
  unfold _updatePostDraw
  exact ((quiet_updateAssemble v c context s).trans
    (quiet_updateReadback v c context _)).trans (quiet_updateViewFinish c context _)

theorem filter_drawFinishCascade (v : ChannelUpdateVisitor) :
    (drawFinishCascade v).filter Packet.isDrawFinish = drawFinishCascade v := by
  unfold drawFinishCascade
  split_ifs <;> simp [Packet.isDrawFinish]

theorem countP_isDraw_drawFinishCascade (v : ChannelUpdateVisitor) :
    (drawFinishCascade v).countP Packet.isDraw = 0 := by
  unfold drawFinishCascade
  split_ifs <;> simp [Packet.isDraw]

theorem updateDrawFinish_finishView (v : ChannelUpdateVisitor) (c : Compound) (s : State) :
    (v._updateDrawFinish c s).finishView =
      if c.isLastInheritEye v.eye = true ∧
          (s.finishView.1 = none ∨ s.finishView.1 = some c.addr) then
        (some c.addr, s.finishView.2 ++ drawFinishCascade v)
      else s.finishView := by
  rw [updateDrawFinish_eq]
  unfold State.finishView
  dsimp only
  split_ifs
  · simp [List.filter_append, filter_drawFinishCascade]
  · rfl

theorem updateDrawFinish_countP_isDraw (v : ChannelUpdateVisitor) (c : Compound) (s : State) :
    (v._updateDrawFinish c s).sent.countP Packet.isDraw = s.sent.countP Packet.isDraw := by
  rw [updateDrawFinish_eq]
  split_ifs
  · simp [List.countP_append, countP_isDraw_drawFinishCascade]
  · rfl

/-- The state of a leaf visit of an active, non-skipped compound just before
`_updateDrawFinish`. -/
theorem visitLeaf_before_finish (v : ChannelUpdateVisitor) (c : Compound) (s : State) :
    ∃ s1 : State, s1.finishView = s.finishView ∧
      s1.sent.countP Packet.isDraw ≤ s.sent.countP Packet.isDraw + 1 ∧
      (c.isInheritActive v.eye = true → v._skipCompound c = false →
        (v.visitLeaf c s).2 =
          _updatePostDraw v c (v._setupRenderContext c) (v._updateDrawFinish c s1)) := by
  have q1 : s.QuietStep
      (if c.testInheritTask TASK_CLEAR = true then
        _sendClear (v._setupRenderContext c)
          (_updateViewStart c (v._setupRenderContext c) (_updateFrameRate c s))
       else _updateViewStart c (v._setupRenderContext c) (_updateFrameRate c s)) := by
    split_ifs
    · exact ((quiet_updateFrameRate c s).trans (quiet_updateViewStart c _ _)).trans
        (quiet_sendClear _ _)
    · exact (quiet_updateFrameRate c s).trans (quiet_updateViewStart c _ _)
  by_cases hd : c.testInheritTask TASK_DRAW = true
  · refine ⟨{ State.send
        (if c.testInheritTask TASK_CLEAR = true then
          _sendClear (v._setupRenderContext c)
            (_updateViewStart c (v._setupRenderContext c) (_updateFrameRate c s))
         else _updateViewStart c (v._setupRenderContext c) (_updateFrameRate c s))
        (Packet.ChannelFrameDraw (v._setupRenderContext c) v.channel.hasListeners)
        with updated := true }, ?_, ?_, ?_⟩
    · rw [← q1.finishView]
      simp [State.finishView, State.send, List.filter_append, Packet.isDrawFinish]
    · rw [← q1.countP_isDraw]
      simp [State.send, List.countP_append, Packet.isDraw]
    · intro ha hs
      simp [visitLeaf, ha, hs, hd]
  · refine ⟨_, q1.finishView, ?_, ?_⟩
    · rw [q1.countP_isDraw]
      omega
    · intro ha hs
      simp [visitLeaf, ha, hs, hd]

end ChannelUpdateVisitor

theorem finishesOn_eq_false_of_inactive (c : Compound) (eye : Eye)
    (h : c.isInheritActive eye = false) : c.finishesOn eye = false := by
  simp [Compound.finishesOn, h]

theorem runVisit_finishView (v : ChannelUpdateVisitor) (x : Visit) (s : State) :
    (runVisit v x s).finishView = finishStep v x s.finishView := by
  cases x with
  | pre c =>
    simp only [runVisit, finishStep, Visit.target]
    unfold ChannelUpdateVisitor.visitPre
    by_cases ha : c.isInheritActive v.eye = false
    · simp [ha, finishesOn_eq_false_of_inactive c v.eye ha]
    · have ha' : c.isInheritActive v.eye = true := by simpa using ha
      simp only [ha', Bool.true_eq_false, if_false]
      have hq : (if v._skipCompound c = true then
            (VisitorResult.TRAVERSE_CONTINUE, v._updateDrawFinish c s)
          else
            (VisitorResult.TRAVERSE_CONTINUE,
              if c.testInheritTask TASK_CLEAR = true then
                ChannelUpdateVisitor._sendClear (v._setupRenderContext c)
                  (ChannelUpdateVisitor._updateViewStart c (v._setupRenderContext c)
                    (ChannelUpdateVisitor._updateFrameRate c (v._updateDrawFinish c s)))
              else
                ChannelUpdateVisitor._updateViewStart c (v._setupRenderContext c)
                  (ChannelUpdateVisitor._updateFrameRate c (v._updateDrawFinish c s)))).2.finishView
          = (v._updateDrawFinish c s).finishView := by
        split_ifs
        · rfl
        · exact (((ChannelUpdateVisitor.quiet_updateFrameRate c _).trans
            (ChannelUpdateVisitor.quiet_updateViewStart c _ _)).trans
            (ChannelUpdateVisitor.quiet_sendClear _ _)).finishView
        · exact ((ChannelUpdateVisitor.quiet_updateFrameRate c _).trans
            (ChannelUpdateVisitor.quiet_updateViewStart c _ _)).finishView
      rw [hq, ChannelUpdateVisitor.updateDrawFinish_finishView]
      simp [Compound.finishesOn, ha']
  | leaf c =>
    simp only [runVisit, finishStep, Visit.target]
    by_cases ha : c.isInheritActive v.eye = false
    · simp [ChannelUpdateVisitor.visitLeaf, ha, finishesOn_eq_false_of_inactive c v.eye ha]
    · have ha' : c.isInheritActive v.eye = true := by simpa using ha
      by_cases hs : v._skipCompound c = true
      · have : (v.visitLeaf c s).2 = v._updateDrawFinish c s := by
          simp [ChannelUpdateVisitor.visitLeaf, ha', hs]
        rw [this, ChannelUpdateVisitor.updateDrawFinish_finishView]
        simp [Compound.finishesOn, ha']
      · have hs' : v._skipCompound c = false := by simpa using hs
        obtain ⟨s1, h1, -, h3⟩ := ChannelUpdateVisitor.visitLeaf_before_finish v c s
        rw [h3 ha' hs', (ChannelUpdateVisitor.quiet_updatePostDraw v c _ _).finishView,
          ChannelUpdateVisitor.updateDrawFinish_finishView, h1]
        simp [Compound.finishesOn, ha']
  | post c =>
    simp only [runVisit, finishStep, Visit.target]
    unfold ChannelUpdateVisitor.visitPost
    split_ifs
    · rfl
    · exact (ChannelUpdateVisitor.quiet_updatePostDraw v c _ _).finishView

theorem visitPre_countP_isDraw (v : ChannelUpdateVisitor) (c : Compound) (s : State) :
    (v.visitPre c s).2.sent.countP Packet.isDraw = s.sent.countP Packet.isDraw := by
  unfold ChannelUpdateVisitor.visitPre
  dsimp only
  split_ifs
  · rfl
  · exact ChannelUpdateVisitor.updateDrawFinish_countP_isDraw v c s
  · rw [(((ChannelUpdateVisitor.quiet_updateFrameRate c _).trans
      (ChannelUpdateVisitor.quiet_updateViewStart c _ _)).trans
      (ChannelUpdateVisitor.quiet_sendClear _ _)).countP_isDraw,
      ChannelUpdateVisitor.updateDrawFinish_countP_isDraw]
  · rw [((ChannelUpdateVisitor.quiet_updateFrameRate c _).trans
      (ChannelUpdateVisitor.quiet_updateViewStart c _ _)).countP_isDraw,
      ChannelUpdateVisitor.updateDrawFinish_countP_isDraw]

theorem visitPost_countP_isDraw (v : ChannelUpdateVisitor) (c : Compound) (s : State) :
    (v.visitPost c s).2.sent.countP Packet.isDraw = s.sent.countP Packet.isDraw := by
  unfold ChannelUpdateVisitor.visitPost
  dsimp only
  split_ifs
  · rfl
  · exact (ChannelUpdateVisitor.quiet_updatePostDraw v c _ _).countP_isDraw

theorem runVisit_countP_isDraw (v : ChannelUpdateVisitor) (x : Visit) (s : State) :
    (runVisit v x s).sent.countP Packet.isDraw ≤
      s.sent.countP Packet.isDraw + (if x.drawsOn v.eye = true then 1 else 0) := by
  cases x with
  | pre c =>
    simp only [runVisit, Visit.drawsOn]
    rw [visitPre_countP_isDraw]
    simp
  | leaf c =>
    simp only [runVisit, Visit.drawsOn]
    by_cases ha : c.isInheritActive v.eye = false
    · simp [ChannelUpdateVisitor.visitLeaf, ha]
    · have ha' : c.isInheritActive v.eye = true := by simpa using ha
      by_cases hs : v._skipCompound c = true
      · have : (v.visitLeaf c s).2 = v._updateDrawFinish c s := by
          simp [ChannelUpdateVisitor.visitLeaf, ha', hs]
        rw [this, ChannelUpdateVisitor.updateDrawFinish_countP_isDraw]
        omega
      · have hs' : v._skipCompound c = false := by simpa using hs
        obtain ⟨s1, -, h2, h3⟩ := ChannelUpdateVisitor.visitLeaf_before_finish v c s
        rw [h3 ha' hs', (ChannelUpdateVisitor.quiet_updatePostDraw v c _ _).countP_isDraw,
          ChannelUpdateVisitor.updateDrawFinish_countP_isDraw]
        simpa [ha'] using h2
  | post c =>
    simp only [runVisit, Visit.drawsOn]
    rw [visitPost_countP_isDraw]
    simp

theorem visitLeaf_fst (v : ChannelUpdateVisitor) (c : Compound) (s : State) :
    (v.visitLeaf c s).1 = VisitorResult.TRAVERSE_CONTINUE := by
  unfold ChannelUpdateVisitor.visitLeaf
  split_ifs <;> rfl

theorem visitPost_fst (v : ChannelUpdateVisitor) (c : Compound) (s : State) :
    (v.visitPost c s).1 = VisitorResult.TRAVERSE_CONTINUE := by
  unfold ChannelUpdateVisitor.visitPost
  split_ifs <;> rfl

theorem visitPre_fst_active (v : ChannelUpdateVisitor) (c : Compound) (s : State)
    (h : c.isInheritActive v.eye = true) :
    (v.visitPre c s).1 = VisitorResult.TRAVERSE_CONTINUE := by
  unfold ChannelUpdateVisitor.visitPre
  rw [h]
  split_ifs <;> simp_all

theorem visitPre_of_inactive (v : ChannelUpdateVisitor) (c : Compound) (s : State)
    (h : c.isInheritActive v.eye = false) :
    v.visitPre c s = (VisitorResult.TRAVERSE_PRUNE, s) := by
  unfold ChannelUpdateVisitor.visitPre
  simp [h]

/-- The traversal is the sequence of its visits and never terminates early. -/
theorem accept_eq_visits (v : ChannelUpdateVisitor) (trees : Compounds) :
    ∀ s : State,
      (accept v trees s).1 ≠ VisitorResult.TRAVERSE_TERMINATE ∧
      (accept v trees s).2 = (visits v.eye trees).foldl (fun s x => runVisit v x s) s := by
  induction trees with
  | nil =>
    intro s
    simp [accept, visits]
  | cons c children next ihc ihn =>
    intro s
    cases children with
    | nil =>
      have h1 := visitLeaf_fst v c s
      have e1 : runVisit v (Visit.leaf c) s = (v.visitLeaf c s).2 := rfl
      rw [accept, visits, List.foldl_cons, e1]
      cases hv : v.visitLeaf c s with
      | mk r s1 =>
        rw [hv] at h1
        simp only at h1
        subst h1
        exact ihn s1
    | cons c1 ch1 nx1 =>
      have e1 : runVisit v (Visit.pre c) s = (v.visitPre c s).2 := rfl
      rw [accept, visits]
      by_cases ha : c.isInheritActive v.eye = true
      · have h1 := visitPre_fst_active v c s ha
        rw [if_pos ha, List.foldl_cons, List.foldl_append, List.foldl_cons, e1]
        cases hv : v.visitPre c s with
        | mk r s1 =>
          rw [hv] at h1
          simp only at h1
          subst h1
          obtain ⟨hc1, hc2⟩ := ihc s1
          simp only
          rw [← hc2]
          cases hacc : accept v (Compounds.cons c1 ch1 nx1) s1 with
          | mk r2 s2 =>
            rw [hacc] at hc1
            simp only at hc1
            have h3 := visitPost_fst v c s2
            have e3 : runVisit v (Visit.post c) s2 = (v.visitPost c s2).2 := rfl
            rw [e3]
            cases hp : v.visitPost c s2 with
            | mk r3 s3 =>
              rw [hp] at h3
              simp only at h3
              subst h3
              cases r2 with
              | TRAVERSE_TERMINATE => exact absurd rfl hc1
              | TRAVERSE_CONTINUE => exact ihn s3
              | TRAVERSE_PRUNE => exact ihn s3
      · have ha' : c.isInheritActive v.eye = false := by simpa using ha
        have h1 := visitPre_of_inactive v c s ha'
        rw [if_neg ha, List.foldl_cons, e1, h1]
        exact ihn s

theorem updateFrame_eq_frameVisits (v : ChannelUpdateVisitor) (trees : Compounds) (s : State) :
    updateFrame v trees s =
      (frameVisits trees).foldl (fun s ev => runVisit (v.setEye ev.1) ev.2 s) s := by
  unfold updateFrame frameVisits
  simp only [List.foldl_cons, List.foldl_nil, List.flatMap_cons, List.flatMap_nil,
    List.append_nil, List.foldl_append, List.foldl_map]
  rw [(accept_eq_visits (v.setEye Eye.CYCLOP) trees s).2,
    (accept_eq_visits (v.setEye Eye.LEFT) trees _).2,
    (accept_eq_visits (v.setEye Eye.RIGHT) trees _).2]
  rfl

theorem frameRun_finishView (v : ChannelUpdateVisitor) (evs : List (Eye × Visit)) :
    ∀ s : State,
      (evs.foldl (fun s ev => runVisit (v.setEye ev.1) ev.2 s) s).finishView =
        evs.foldl (fun p ev => finishStep (v.setEye ev.1) ev.2 p) s.finishView := by
  induction evs with
  | nil => intro s; rfl
  | cons ev rest ih =>
    intro s
    rw [List.foldl_cons, List.foldl_cons, ih, runVisit_finishView]

theorem finishAddrs_cons (ev : Eye × Visit) (rest : List (Eye × Visit)) :
    finishAddrs (ev :: rest) =
      (match ev.2.target with
       | none => []
       | some c => if c.finishesOn ev.1 then [c.addr] else []) ++ finishAddrs rest := by
  unfold finishAddrs
  rw [List.filterMap_cons]
  cases ht : ev.2.target with
  | none => simp
  | some c =>
    cases hf : c.finishesOn ev.1 <;> simp [hf]

/-- Once a last draw compound is recorded, visits of other compounds leave
the bookkeeping as it is. -/
theorem finishStep_foldl_recorded (v : ChannelUpdateVisitor) (a : Nat)
    (evs : List (Eye × Visit)) :
    ∀ fin : List Packet, a ∉ finishAddrs evs →
      evs.foldl (fun p ev => finishStep (v.setEye ev.1) ev.2 p) (some a, fin) = (some a, fin) := by
  induction evs with
  | nil => intro fin _; rfl
  | cons ev rest ih =>
    intro fin hna
    rw [finishAddrs_cons] at hna
    rw [List.foldl_cons]
    have hstep : finishStep (v.setEye ev.1) ev.2 (some a, fin) = (some a, fin) := by
      unfold finishStep
      cases ht : ev.2.target with
      | none => rfl
      | some c =>
        simp only
        rw [ht] at hna
        cases hf : c.finishesOn ev.1 with
        | false => simp [ChannelUpdateVisitor.setEye, hf]
        | true =>
          simp only [hf, if_true, List.singleton_append, List.mem_cons, not_or] at hna
          have : a ≠ c.addr := hna.1
          simp [ChannelUpdateVisitor.setEye, hf, this]
    rw [hstep]
    apply ih
    intro hmem
    exact hna (List.mem_append_right _ hmem)

theorem finishStep_start (v : ChannelUpdateVisitor) (e : Eye) (x : Visit)
    (fin : List Packet) :
    finishStep (v.setEye e) x (none, fin) =
      (match x.target with
       | none => (none, fin)
       | some c =>
         if c.finishesOn e then (some c.addr, fin ++ drawFinishCascade v) else (none, fin)) := by
  unfold finishStep
  cases x.target with
  | none => rfl
  | some c =>
    cases hf : c.finishesOn e with
    | false => simp [ChannelUpdateVisitor.setEye, hf]
    | true =>
      simp [ChannelUpdateVisitor.setEye, hf]
      rfl

/-- From a frame start, the bookkeeping fires once, at the first visit of a
compound on its last active eye, if no compound has two such visits. -/
theorem finishStep_foldl_start (v : ChannelUpdateVisitor) (evs : List (Eye × Visit)) :
    ∀ fin : List Packet, (finishAddrs evs).Nodup →
      evs.foldl (fun p ev => finishStep (v.setEye ev.1) ev.2 p) (none, fin) =
        (match finishAddrs evs with
         | [] => (none, fin)
         | a :: _ => (some a, fin ++ drawFinishCascade v)) := by
  induction evs with
  | nil => intro fin _; rfl
  | cons ev rest ih =>
    intro fin hnd
    rw [finishAddrs_cons] at hnd ⊢
    rw [List.foldl_cons, finishStep_start]
    cases ht : ev.2.target with
    | none =>
      rw [ht] at hnd
      simp only [List.nil_append] at hnd ⊢
      exact ih fin hnd
    | some c =>
      rw [ht] at hnd
      simp only at hnd ⊢
      cases hf : c.finishesOn ev.1 with
      | false =>
        rw [hf] at hnd
        simp only [Bool.false_eq_true, if_false, List.nil_append] at hnd ⊢
        exact ih fin hnd
      | true =>
        rw [hf] at hnd
        simp only [if_true, List.singleton_append] at hnd ⊢
        exact finishStep_foldl_recorded v c.addr rest _ (List.nodup_cons.mp hnd).1

theorem finishAddrs_append (l1 l2 : List (Eye × Visit)) :
    finishAddrs (l1 ++ l2) = finishAddrs l1 ++ finishAddrs l2 := by
  simp [finishAddrs, List.filterMap_append]

theorem finishAddrs_pass (e : Eye) (l : List Visit) :
    finishAddrs (l.map (fun x => (e, x))) =
      ((l.filterMap Visit.target).filter (fun c => c.finishesOn e)).map (fun c => c.addr) := by
  induction l with
  | nil => rfl
  | cons x rest ih =>
    rw [List.map_cons, finishAddrs_cons, ih, List.filterMap_cons]
    cases ht : x.target with
    | none => simp
    | some c =>
      cases hf : c.finishesOn e <;> simp [List.filter_cons, hf]

theorem finishAddrs_frameVisits (trees : Compounds) :
    finishAddrs (frameVisits trees) =
      ((visited Eye.CYCLOP trees).filter (fun c => c.finishesOn Eye.CYCLOP)).map (fun c => c.addr)
      ++ (((visited Eye.LEFT trees).filter (fun c => c.finishesOn Eye.LEFT)).map (fun c => c.addr)
      ++ ((visited Eye.RIGHT trees).filter (fun c => c.finishesOn Eye.RIGHT)).map
          (fun c => c.addr)) := by
  unfold frameVisits visited
  simp only [List.flatMap_cons, List.flatMap_nil, List.append_nil, finishAddrs_append,
    finishAddrs_pass]

theorem visited_sublist (e : Eye) (trees : Compounds) :
    (visited e trees).Sublist trees.toList := by
  unfold visited
  induction trees with
  | nil => simp [visits, Compounds.toList]
  | cons c children next ihc ihn =>
    cases children with
    | nil =>
      rw [visits, Compounds.toList, List.filterMap_cons]
      simp only [Visit.target, Compounds.toList, List.nil_append]
      exact ihn.cons₂ c
    | cons c1 ch1 nx1 =>
      rw [visits, Compounds.toList]
      by_cases ha : c.isInheritActive e = true
      · rw [if_pos ha, List.filterMap_cons]
        simp only [Visit.target, List.filterMap_append, List.filterMap_cons]
        exact (ihc.append ihn).cons₂ c
      · rw [if_neg ha, List.filterMap_cons]
        simp only [Visit.target]
        exact (ihn.trans (List.sublist_append_right _ _)).cons₂ c

theorem roots_subset_visited (e : Eye) (trees : Compounds) :
    ∀ r ∈ trees.roots, r ∈ visited e trees := by
  unfold visited
  induction trees with
  | nil => intro r hr; simp [Compounds.roots] at hr
  | cons c children next _ ihn =>
    intro r hr
    rw [Compounds.roots] at hr
    cases children with
    | nil =>
      rw [visits, List.filterMap_cons]
      simp only [Visit.target]
      rcases List.mem_cons.mp hr with rfl | hr
      · exact List.mem_cons_self _ _
      · exact List.mem_cons_of_mem _ (ihn r hr)
    | cons c1 ch1 nx1 =>
      rw [visits]
      by_cases ha : c.isInheritActive e = true
      · rw [if_pos ha, List.filterMap_cons]
        simp only [Visit.target, List.filterMap_append, List.filterMap_cons]
        rcases List.mem_cons.mp hr with rfl | hr
        · exact List.mem_cons_self _ _
        · exact List.mem_cons_of_mem _ (List.mem_append_right _ (ihn r hr))
      · rw [if_neg ha, List.filterMap_cons]
        simp only [Visit.target]
        rcases List.mem_cons.mp hr with rfl | hr
        · exact List.mem_cons_self _ _
        · exact List.mem_cons_of_mem _ (ihn r hr)

/-- A leaf visit of a compound active for the eye happens below a top-level
compound that is active for the eye. -/
theorem root_active_of_leaf_visit (e : Eye) (trees : Compounds) :
    ∀ c : Compound, Visit.leaf c ∈ visits e trees → c.isInheritActive e = true →
      ∃ r ∈ trees.roots, r.isInheritActive e = true := by
  induction trees with
  | nil => intro c hc; simp [visits] at hc
  | cons c0 children next _ ihn =>
    intro c hc hact
    cases children with
    | nil =>
      rw [visits] at hc
      rcases List.mem_cons.mp hc with h | h
      · cases h
        exact ⟨c0, by simp [Compounds.roots], hact⟩
      · obtain ⟨r, hr, hra⟩ := ihn c h hact
        exact ⟨r, by simp [Compounds.roots, hr], hra⟩
    | cons c1 ch1 nx1 =>
      rw [visits] at hc
      by_cases ha : c0.isInheritActive e = true
      · exact ⟨c0, by simp [Compounds.roots], ha⟩
      · rw [if_neg ha] at hc
        rcases List.mem_cons.mp hc with h | h
        · cases h
        · obtain ⟨r, hr, hra⟩ := ihn c h hact
          exact ⟨r, by simp [Compounds.roots, hr], hra⟩

theorem roots_subset_toList (trees : Compounds) : ∀ r ∈ trees.roots, r ∈ trees.toList := by
  induction trees with
  | nil => intro r hr; simp [Compounds.roots] at hr
  | cons c children next _ ihn =>
    intro r hr
    rw [Compounds.roots] at hr
    rw [Compounds.toList]
    rcases List.mem_cons.mp hr with rfl | hr
    · exact List.mem_cons_self _ _
    · exact List.mem_cons_of_mem _ (List.mem_append_right _ (ihn r hr))

theorem mem_finishAddrs_pass (e : Eye) (trees : Compounds) (a : Nat)
    (h : a ∈ ((visited e trees).filter (fun c => c.finishesOn e)).map (fun c => c.addr)) :
    ∃ c ∈ trees.toList, c.addr = a ∧ c.finishesOn e = true := by
  obtain ⟨c, hc, rfl⟩ := List.mem_map.mp h
  obtain ⟨hv, hf⟩ := List.mem_filter.mp hc
  exact ⟨c, (visited_sublist e trees).subset hv, rfl, hf⟩

theorem nodup_finishAddrs_pass (e : Eye) (trees : Compounds)
    (hAddr : (trees.toList.map (fun c => c.addr)).Nodup) :
    (((visited e trees).filter (fun c => c.finishesOn e)).map (fun c => c.addr)).Nodup :=
  hAddr.sublist (((List.filter_sublist _).trans (visited_sublist e trees)).map _)

theorem disjoint_finishAddrs_pass (e1 e2 : Eye) (hne : e1 ≠ e2) (trees : Compounds)
    (hAddr : (trees.toList.map (fun c => c.addr)).Nodup)
    (hLast1 : ∀ c ∈ trees.toList, ∀ e1 e2 : Eye,
      c.finishesOn e1 = true → c.finishesOn e2 = true → e1 = e2) :
    List.Disjoint
      (((visited e1 trees).filter (fun c => c.finishesOn e1)).map (fun c => c.addr))
      (((visited e2 trees).filter (fun c => c.finishesOn e2)).map (fun c => c.addr)) := by
  intro a h1 h2
  obtain ⟨c1, hc1, ha1, hf1⟩ := mem_finishAddrs_pass e1 trees a h1
  obtain ⟨c2, hc2, ha2, hf2⟩ := mem_finishAddrs_pass e2 trees a h2
  have heq : c1 = c2 := List.inj_on_of_nodup_map hAddr hc1 hc2 (ha1.trans ha2.symm)
  subst heq
  exact hne (hLast1 c1 hc1 e1 e2 hf1 hf2)

theorem nodup_finishAddrs_frameVisits (trees : Compounds)
    (hAddr : (trees.toList.map (fun c => c.addr)).Nodup)
    (hLast1 : ∀ c ∈ trees.toList, ∀ e1 e2 : Eye,
      c.finishesOn e1 = true → c.finishesOn e2 = true → e1 = e2) :
    (finishAddrs (frameVisits trees)).Nodup := by
  rw [finishAddrs_frameVisits]
  refine List.nodup_append.mpr ⟨nodup_finishAddrs_pass _ trees hAddr,
    List.nodup_append.mpr ⟨nodup_finishAddrs_pass _ trees hAddr,
      nodup_finishAddrs_pass _ trees hAddr,
      disjoint_finishAddrs_pass _ _ (by decide) trees hAddr hLast1⟩, ?_⟩
  rw [List.disjoint_append_right]
  exact ⟨disjoint_finishAddrs_pass _ _ (by decide) trees hAddr hLast1,
    disjoint_finishAddrs_pass _ _ (by decide) trees hAddr hLast1⟩

theorem frameRun_countP_isDraw (v : ChannelUpdateVisitor) (evs : List (Eye × Visit)) :
    ∀ s : State,
      (evs.foldl (fun s ev => runVisit (v.setEye ev.1) ev.2 s) s).sent.countP Packet.isDraw ≤
        s.sent.countP Packet.isDraw + evs.countP (fun ev => ev.2.drawsOn ev.1) := by
  induction evs with
  | nil => intro s; simp
  | cons ev rest ih =>
    intro s
    rw [List.foldl_cons, List.countP_cons]
    have h1 := ih (runVisit (v.setEye ev.1) ev.2 s)
    have h2 := runVisit_countP_isDraw (v.setEye ev.1) ev.2 s
    have h3 : (v.setEye ev.1).eye = ev.1 := rfl
    rw [h3] at h2
    omega

/-- When the frame sends a draw packet, some compound gets a pre or leaf visit
on its last active eye. -/
theorem finishAddrs_ne_nil_of_draw (v : ChannelUpdateVisitor) (trees : Compounds) (s : State)
    (hLast2 : ∀ c ∈ trees.toList, ∀ e : Eye, c.isInheritActive e = true →
      ∃ e' : Eye, c.isInheritActive e' = true ∧ c.isLastInheritEye e' = true)
    (hdraw : s.sent.countP Packet.isDraw < (updateFrame v trees s).sent.countP Packet.isDraw) :
    finishAddrs (frameVisits trees) ≠ [] := by
  rw [updateFrame_eq_frameVisits] at hdraw
  have hb := frameRun_countP_isDraw v (frameVisits trees) s
  have hpos : 0 < (frameVisits trees).countP (fun ev => ev.2.drawsOn ev.1) := by omega
  obtain ⟨ev, hev, hd⟩ := List.countP_pos_iff.mp hpos
  obtain ⟨e, x⟩ := ev
  have hx : x ∈ visits e trees := by
    unfold frameVisits at hev
    simp only [List.flatMap_cons, List.flatMap_nil, List.append_nil, List.mem_append,
      List.mem_map, Prod.mk.injEq] at hev
    rcases hev with ⟨y, hy, rfl, rfl⟩ | ⟨y, hy, rfl, rfl⟩ | ⟨y, hy, rfl, rfl⟩ <;> exact hy
  cases x with
  | pre c => simp [Visit.drawsOn] at hd
  | post c => simp [Visit.drawsOn] at hd
  | leaf c =>
    simp only [Visit.drawsOn] at hd
    obtain ⟨r, hr, hra⟩ := root_active_of_leaf_visit e trees c hx hd
    obtain ⟨e', ha', hl'⟩ := hLast2 r (roots_subset_toList trees r hr) e hra
    have hmem : r.addr ∈
        ((visited e' trees).filter (fun c => c.finishesOn e')).map (fun c => c.addr) := by
      refine List.mem_map.mpr ⟨r, List.mem_filter.mpr ⟨roots_subset_visited e' trees r hr, ?_⟩, rfl⟩
      simp [Compound.finishesOn, ha', hl']
    intro hnil
    rw [finishAddrs_frameVisits] at hnil
    have : r.addr ∈ ([] : List Nat) := by
      rw [← hnil]
      cases e' with
      | CYCLOP => exact List.mem_append_left _ hmem
      | LEFT => exact List.mem_append_right _ (List.mem_append_left _ hmem)
      | RIGHT => exact List.mem_append_right _ (List.mem_append_right _ hmem)
    simp at this

theorem countP_drawFinishCascade (v : ChannelUpdateVisitor) :
    (drawFinishCascade v).countP Packet.isChannelDrawFinish = 1 ∧
    (drawFinishCascade v).filter Packet.isChannelDrawFinish =
      [Packet.ChannelFrameDrawFinish v.channel.id v.frameNumber v.frameID] ∧
    (drawFinishCascade v).countP Packet.isWindowDrawFinish ≤ 1 ∧
    (drawFinishCascade v).countP Packet.isPipeDrawFinish ≤ 1 ∧
    (drawFinishCascade v).countP Packet.isNodeDrawFinish ≤ 1 := by
  unfold drawFinishCascade
  split_ifs <;>
    simp [Packet.isChannelDrawFinish, Packet.isWindowDrawFinish, Packet.isPipeDrawFinish,
      Packet.isNodeDrawFinish]

theorem filter_drawFinish_sub (p : Packet → Bool)
    (hp : ∀ q, p q = true → q.isDrawFinish = true) (l : List Packet) :
    (l.filter Packet.isDrawFinish).filter p = l.filter p := by
  rw [List.filter_filter]
  apply List.filter_congr
  intro q _
  cases h : p q
  · simp
  · simp [hp q h]

/-- The draw-finish packets of a frame: none, or one cascade. -/
theorem updateFrame_drawFinish (v : ChannelUpdateVisitor) (trees : Compounds) (maxFPS : ℚ)
    (hAddr : (trees.toList.map (fun c => c.addr)).Nodup)
    (hLast1 : ∀ c ∈ trees.toList, ∀ e1 e2 : Eye,
      c.finishesOn e1 = true → c.finishesOn e2 = true → e1 = e2) :
    (updateFrame v trees (State.frameStart maxFPS)).sent.filter Packet.isDrawFinish =
      (match finishAddrs (frameVisits trees) with
       | [] => []
       | _ :: _ => drawFinishCascade v) := by
  have h := frameRun_finishView v (frameVisits trees) (State.frameStart maxFPS)
  rw [← updateFrame_eq_frameVisits] at h
  have h0 : (State.frameStart maxFPS).finishView = (none, []) := rfl
  rw [h0, finishStep_foldl_start v _ [] (nodup_finishAddrs_frameVisits trees hAddr hLast1)] at h
  have h2 : (updateFrame v trees (State.frameStart maxFPS)).sent.filter Packet.isDrawFinish =
      (updateFrame v trees (State.frameStart maxFPS)).finishView.2 := rfl
  rw [h2, h]
  cases finishAddrs (frameVisits trees) <;> simp

/-- C2: in one frame, with the channel's last draw compound unset at the
start and the compound trees traversed once per eye, the visitor of a channel
emits at most one draw-finish packet of each kind, and when it sends a draw
packet it emits exactly one `ChannelFrameDrawFinish`, the one of the
channel. The compounds are distinct objects, and each compound has exactly
one last eye among the eyes it is active for. -/
theorem drawFinish_once_per_frame (v : ChannelUpdateVisitor) (trees : Compounds) (maxFPS : ℚ)
    (hAddr : (trees.toList.map (fun c => c.addr)).Nodup)
    (hLast1 : ∀ c ∈ trees.toList, ∀ e1 e2 : Eye,
      c.isInheritActive e1 = true → c.isLastInheritEye e1 = true →
      c.isInheritActive e2 = true → c.isLastInheritEye e2 = true → e1 = e2)
    (hLast2 : ∀ c ∈ trees.toList, ∀ e : Eye, c.isInheritActive e = true →
      ∃ e' : Eye, c.isInheritActive e' = true ∧ c.isLastInheritEye e' = true) :
    ((∃ p ∈ (updateFrame v trees (State.frameStart maxFPS)).sent, p.isDraw = true) →
      (updateFrame v trees (State.frameStart maxFPS)).sent.countP
        Packet.isChannelDrawFinish = 1 ∧
      (updateFrame v trees (State.frameStart maxFPS)).sent.filter Packet.isChannelDrawFinish =
        [Packet.ChannelFrameDrawFinish v.channel.id v.frameNumber v.frameID]) ∧
    (updateFrame v trees (State.frameStart maxFPS)).sent.countP
      Packet.isChannelDrawFinish ≤ 1 ∧
    (updateFrame v trees (State.frameStart maxFPS)).sent.countP
      Packet.isWindowDrawFinish ≤ 1 ∧
    (updateFrame v trees (State.frameStart maxFPS)).sent.countP
      Packet.isPipeDrawFinish ≤ 1 ∧
    (updateFrame v trees (State.frameStart maxFPS)).sent.countP
      Packet.isNodeDrawFinish ≤ 1 := by
  have hL : ∀ c ∈ trees.toList, ∀ e1 e2 : Eye,
      c.finishesOn e1 = true → c.finishesOn e2 = true → e1 = e2 := by
    intro c hc e1 e2 h1 h2
    simp only [Compound.finishesOn, Bool.and_eq_true] at h1 h2
    exact hLast1 c hc e1 e2 h1.1 h1.2 h2.1 h2.2
  have hfin := updateFrame_drawFinish v trees maxFPS hAddr hL
  have hC : (updateFrame v trees (State.frameStart maxFPS)).sent.filter
      Packet.isChannelDrawFinish =
      ((updateFrame v trees (State.frameStart maxFPS)).sent.filter
        Packet.isDrawFinish).filter Packet.isChannelDrawFinish :=
    (filter_drawFinish_sub _ (by intro q hq; cases q <;> simp_all [Packet.isChannelDrawFinish,
      Packet.isDrawFinish]) _).symm
  have hW : (updateFrame v trees (State.frameStart maxFPS)).sent.filter
      Packet.isWindowDrawFinish =
      ((updateFrame v trees (State.frameStart maxFPS)).sent.filter
        Packet.isDrawFinish).filter Packet.isWindowDrawFinish :=
    (filter_drawFinish_sub _ (by intro q hq; cases q <;> simp_all [Packet.isWindowDrawFinish,
      Packet.isDrawFinish]) _).symm
  have hP : (updateFrame v trees (State.frameStart maxFPS)).sent.filter
      Packet.isPipeDrawFinish =
      ((updateFrame v trees (State.frameStart maxFPS)).sent.filter
        Packet.isDrawFinish).filter Packet.isPipeDrawFinish :=
    (filter_drawFinish_sub _ (by intro q hq; cases q <;> simp_all [Packet.isPipeDrawFinish,
      Packet.isDrawFinish]) _).symm
  have hN : (updateFrame v trees (State.frameStart maxFPS)).sent.filter
      Packet.isNodeDrawFinish =
      ((updateFrame v trees (State.frameStart maxFPS)).sent.filter
        Packet.isDrawFinish).filter Packet.isNodeDrawFinish :=
    (filter_drawFinish_sub _ (by intro q hq; cases q <;> simp_all [Packet.isNodeDrawFinish,
      Packet.isDrawFinish]) _).symm
  obtain ⟨c1, c2, c3, c4, c5⟩ := countP_drawFinishCascade v
  simp only [List.countP_eq_length_filter] at c1 c3 c4 c5 ⊢
  rw [hC, hW, hP, hN, hfin]
  refine ⟨?_, ?_⟩
  · intro hdraw
    have hne : finishAddrs (frameVisits trees) ≠ [] := by
      apply finishAddrs_ne_nil_of_draw v trees (State.frameStart maxFPS) hLast2
      obtain ⟨p, hp, hpd⟩ := hdraw
      have : 0 < (updateFrame v trees (State.frameStart maxFPS)).sent.countP Packet.isDraw :=
        List.countP_pos_iff.mpr ⟨p, hp, hpd⟩
      simpa [State.frameStart] using this
    cases hfa : finishAddrs (frameVisits trees) with
    | nil => exact absurd hfa hne
    | cons a rest => exact ⟨c1, c2⟩
  · cases hfa : finishAddrs (frameVisits trees) with
    | nil => simp
    | cons a rest => exact ⟨le_of_eq c1, c3, c4, c5⟩

/-- Witness of C2: the sample trees, an inner compound above two leaves that
draw on the sample channel, all active for the cyclop eye only. -/
theorem drawFinish_once_per_frame_witness :
    (∃ p ∈ (updateFrame Sample.visitor Sample.trees (State.frameStart 60)).sent,
      p.isDraw = true) ∧
    (updateFrame Sample.visitor Sample.trees (State.frameStart 60)).sent.countP
      Packet.isChannelDrawFinish = 1 ∧
    (updateFrame Sample.visitor Sample.trees (State.frameStart 60)).sent.filter
      Packet.isChannelDrawFinish = [Packet.ChannelFrameDrawFinish 1 1 1] :=
  have hdraw : ∃ p ∈ (updateFrame Sample.visitor Sample.trees (State.frameStart 60)).sent,
      p.isDraw = true := by decide
  ⟨hdraw,
    (drawFinish_once_per_frame Sample.visitor Sample.trees 60 (by decide)
      (by
        intro c hc e1 e2
        simp [Sample.trees, Compounds.toList] at hc
        rcases hc with rfl | rfl | rfl <;> cases e1 <;> cases e2 <;> decide)
      (by
        intro c hc e
        simp [Sample.trees, Compounds.toList] at hc
        rcases hc with rfl | rfl | rfl <;> intro _ <;> exact ⟨Eye.CYCLOP, by decide, by decide⟩)).1
      hdraw⟩

namespace ChannelUpdateVisitor

/-- The context built for a visit carries the visitor's eye. -/
theorem setupRenderContext_eye (v : ChannelUpdateVisitor) (c : Compound) :
    (v._setupRenderContext c).eye = v.eye := rfl

end ChannelUpdateVisitor

namespace DataIStream

/-- On an old list without null entries the search has a result: the end of
the list, or the position of a child with the identifier. -/
theorem find_if_of_no_null (old : List (Option Child)) (id : Nat)
    (hnn : ∀ e ∈ old, e ≠ none) :
    ∃ j, find_if old id = some j ∧
      (j = old.length ∨ ∃ child, old.get? j = some (some child) ∧ child.id = id) := by
  induction old with
  | nil => exact ⟨0, rfl, Or.inl rfl⟩
  | cons e rest ih =>
    cases e with
    | none => exact absurd rfl (hnn none (List.mem_cons_self _ _))
    | some c =>
      by_cases hc : c.id = id
      · exact ⟨0, by simp [find_if, hc], Or.inr ⟨c, rfl, hc⟩⟩
      · obtain ⟨j, h1, h2⟩ := ih (fun e he => hnn e (List.mem_cons_of_mem _ he))
        refine ⟨j + 1, by simp [find_if, hc, h1], ?_⟩
        rcases h2 with h2 | ⟨child, h3, h4⟩
        · exact Or.inl (by simp [h2])
        · exact Or.inr ⟨child, by simpa using h3, h4⟩

/-- On an old list without null entries the rebuild loop completes and the
result gets one entry per serialized entry. -/
theorem rebuild_of_no_null (object : Owner) (versions : List ObjectVersion) :
    ∀ (old result : List (Option Child)) (t : Trace), (∀ e ∈ old, e ≠ none) →
      ∃ old' result' t', rebuild object versions old result t = some (old', result', t') ∧
        result'.length = result.length + versions.length ∧ (∀ e ∈ old', e ≠ none) := by
  induction versions with
  | nil =>
    intro old result t hnn
    exact ⟨old, result, t, rfl, by simp, hnn⟩
  | cons version versions ih =>
    intro old result t hnn
    rw [rebuild]
    by_cases hz : version.identifier = UUID_ZERO
    · rw [if_pos hz]
      obtain ⟨old', result', t', h1, h2, h3⟩ := ih old (result ++ [none]) t hnn
      exact ⟨old', result', t', h1, by rw [h2]; simp; omega, h3⟩
    · rw [if_neg hz]
      obtain ⟨j, hj, hcase⟩ := find_if_of_no_null old version.identifier hnn
      rw [hj]
      simp only
      by_cases hend : j = old.length
      · rw [if_pos hend]
        obtain ⟨old', result', t', h1, h2, h3⟩ :=
          ih old (result ++ [some (object.create t.created)])
            { calls := t.calls ++ [Call.create (object.create t.created).addr,
                Call.mapObject (object.create t.created).addr version]
              created := t.created + 1 } hnn
        exact ⟨old', result', t', h1, by rw [h2]; simp; omega, h3⟩
      · rw [if_neg hend]
        rcases hcase with hcase | ⟨child, hg, -⟩
        · exact absurd hcase hend
        · rw [hg]
          simp only
          obtain ⟨old', result', t', h1, h2, h3⟩ :=
            ih (old.eraseIdx j) (result ++ [some child])
              { t with calls := t.calls ++
                  [Call.sync child.addr
                    (if object.isMaster then SyncVersion.VERSION_HEAD
                     else SyncVersion.version version.version)] }
              (fun e he => hnn e ((List.eraseIdx_sublist old j).subset he))
          exact ⟨old', result', t', h1, by rw [h2]; simp; omega, h3⟩

theorem ids_cons_none (l : List (Option Child)) : ids (none :: l) = ids l := by
  simp [ids]

theorem ids_cons_some (c : Child) (l : List (Option Child)) :
    ids (some c :: l) = c.id :: ids l := by
  simp [ids]

theorem mem_ids_of_mem {old : List (Option Child)} {c : Child} (h : some c ∈ old) :
    c.id ∈ ids old := by
  simp only [ids, List.mem_map, List.mem_filterMap, id]
  exact ⟨c, ⟨some c, h, rfl⟩, rfl⟩

theorem ids_sublist {l1 l2 : List (Option Child)} (h : l1.Sublist l2) :
    (ids l1).Sublist (ids l2) :=
  (h.filterMap id).map _

/-- What a completed search says about the old list. -/
theorem find_if_some (old : List (Option Child)) (id : Nat) :
    ∀ j, find_if old id = some j →
      (j = old.length ∧ ∀ c, some c ∈ old → c.id ≠ id) ∨
      (∃ child, old.get? j = some (some child) ∧ child.id = id) := by
  induction old with
  | nil =>
    intro j h
    simp only [find_if, Option.some.injEq] at h
    subst h
    exact Or.inl ⟨rfl, by simp⟩
  | cons e rest ih =>
    intro j h
    cases e with
    | none => simp [find_if] at h
    | some c0 =>
      rw [find_if] at h
      by_cases hc : c0.id = id
      · rw [if_pos hc] at h
        simp only [Option.some.injEq] at h
        subst h
        exact Or.inr ⟨c0, rfl, hc⟩
      · rw [if_neg hc] at h
        cases hr : find_if rest id with
        | none => rw [hr] at h; simp at h
        | some k =>
          rw [hr] at h
          simp only [Option.map_some', Option.some.injEq] at h
          subst h
          rcases ih k hr with ⟨h1, h2⟩ | ⟨child, h1, h2⟩
          · refine Or.inl ⟨by simp [h1], ?_⟩
            intro c hmem
            rcases List.mem_cons.mp hmem with heq | hmem
            · cases heq
              exact hc
            · exact h2 c hmem
          · exact Or.inr ⟨child, by simpa using h1, h2⟩

/-- Erasing the matched child from an old list with distinct identifiers
removes exactly the children with its identifier. -/
theorem mem_eraseIdx_iff (old : List (Option Child)) (j : Nat) (child : Child)
    (hnd : (ids old).Nodup) (h : old.get? j = some (some child)) (c : Child) :
    some c ∈ old.eraseIdx j ↔ some c ∈ old ∧ c.id ≠ child.id := by
  induction old generalizing j with
  | nil => simp at h
  | cons e rest ih =>
    cases j with
    | zero =>
      simp only [List.get?_cons_zero, Option.some.injEq] at h
      subst h
      rw [ids_cons_some] at hnd
      obtain ⟨h0, -⟩ := List.nodup_cons.mp hnd
      simp only [List.eraseIdx_cons_zero, List.mem_cons, Option.some.injEq]
      constructor
      · intro hmem
        refine ⟨Or.inr hmem, ?_⟩
        intro heq
        exact h0 (heq ▸ mem_ids_of_mem hmem)
      · rintro ⟨hc | hmem, hne⟩
        · exact absurd (congrArg Child.id hc) hne
        · exact hmem
    | succ j =>
      simp only [List.get?_cons_succ] at h
      rw [List.eraseIdx_cons_succ]
      have hin : child.id ∈ ids rest := mem_ids_of_mem (List.get?_mem h)
      cases e with
      | none =>
        rw [ids_cons_none] at hnd
        simp only [List.mem_cons, reduceCtorEq, false_or]
        exact ih j hnd h
      | some c0 =>
        rw [ids_cons_some] at hnd
        obtain ⟨h0, hrest⟩ := List.nodup_cons.mp hnd
        simp only [List.mem_cons, Option.some.injEq]
        rw [ih j hrest h]
        constructor
        · rintro (hc | ⟨hmem, hne⟩)
          · subst hc
            refine ⟨Or.inl rfl, ?_⟩
            intro heq
            exact h0 (heq ▸ hin)
          · exact ⟨Or.inr hmem, hne⟩
        · rintro ⟨hc | hmem, hne⟩
          · exact Or.inl hc
          · exact Or.inr ⟨hmem, hne⟩

/-- With distinct identifiers in the old list, the children left after the
rebuild loop are the old children whose identifier no serialized non-zero
identifier equals. -/
theorem rebuild_left (object : Owner) (versions : List ObjectVersion) :
    ∀ (old result : List (Option Child)) (t : Trace)
      (old' result' : List (Option Child)) (t' : Trace),
      (ids old).Nodup →
      rebuild object versions old result t = some (old', result', t') →
      ∀ c, some c ∈ old' ↔
        (some c ∈ old ∧
          ∀ ver ∈ versions, ver.identifier ≠ UUID_ZERO → ver.identifier ≠ c.id) := by
  induction versions with
  | nil =>
    intro old result t old' result' t' _ h c
    simp only [rebuild, Option.some.injEq, Prod.mk.injEq] at h
    obtain ⟨rfl, -, -⟩ := h
    simp
  | cons version versions ih =>
    intro old result t old' result' t' hnd h c
    rw [rebuild] at h
    by_cases hz : version.identifier = UUID_ZERO
    · rw [if_pos hz] at h
      rw [ih _ _ _ _ _ _ hnd h c]
      simp [hz]
    · rw [if_neg hz] at h
      cases hf : find_if old version.identifier with
      | none => rw [hf] at h; simp at h
      | some j =>
        rw [hf] at h
        simp only at h
        rcases find_if_some old version.identifier j hf with ⟨hj, hno⟩ | ⟨child, hg, hid⟩
        · rw [if_pos hj] at h
          rw [ih _ _ _ _ _ _ hnd h c]
          constructor
          · rintro ⟨hmem, hall⟩
            refine ⟨hmem, ?_⟩
            intro ver hver hnz
            rcases List.mem_cons.mp hver with rfl | hver
            · exact fun heq => hno c hmem heq.symm
            · exact hall ver hver hnz
          · rintro ⟨hmem, hall⟩
            exact ⟨hmem, fun ver hver hnz => hall ver (List.mem_cons_of_mem _ hver) hnz⟩
        · have hlt : j ≠ old.length := by
            intro hj
            rw [hj] at hg
            simp at hg
          rw [if_neg hlt, hg] at h
          simp only at h
          have hnd' : (ids (old.eraseIdx j)).Nodup :=
            hnd.sublist (ids_sublist (List.eraseIdx_sublist old j))
          rw [ih _ _ _ _ _ _ hnd' h c, mem_eraseIdx_iff old j child hnd hg c]
          constructor
          · rintro ⟨⟨hmem, hne⟩, hall⟩
            refine ⟨hmem, ?_⟩
            intro ver hver hnz
            rcases List.mem_cons.mp hver with rfl | hver
            · rw [← hid]
              exact fun heq => hne heq.symm
            · exact hall ver hver hnz
          · rintro ⟨hmem, hall⟩
            refine ⟨⟨hmem, ?_⟩, fun ver hver hnz => hall ver (List.mem_cons_of_mem _ hver) hnz⟩
            intro heq
            exact hall version (List.mem_cons_self _ _) hz (hid.symm.trans heq.symm)

/-- C9: once the serialized list has been processed, the call continues with
the release pass over the old children left: taken from the back, every
non-null one is released once, after an unmap exactly if it is attached and
not a master; null entries are skipped. The rebuild loop itself only creates,
maps and syncs. With pairwise distinct old children no synced (matched) child
is released and every child left is released exactly once; with distinct
identifiers the children left are the old children that no serialized
non-zero identifier matches. -/
theorem deserializeChildren_releases_removed (object : Owner)
    (versions : List ObjectVersion) (old_ result : List (Option Child)) (t : Trace)
    (old' result' : List (Option Child)) (t' : Trace)
    (h : rebuild object versions old_ [] t = some (old', result', t')) :
    deserializeChildren object versions old_ result t =
      some (result', { calls := t'.calls ++ releasePlan old', created := t'.created }) ∧
    (∀ a, (releasePlan old').count (Call.release a) = (addrs old').count a) ∧
    (∀ a, (releasePlan old').count (Call.unmapObject a) =
      (addrs (old'.filter (fun entry =>
        match entry with
        | none => false
        | some child => child.isAttached && !child.isMaster))).count a) ∧
    (∀ call ∈ releasePlan old', call.isRebuild = false) ∧
    (∃ made, t'.calls = t.calls ++ made ∧ (∀ call ∈ made, call.isRebuild = true) ∧
      ((addrs old_).Nodup →
        ∀ a sv, Call.sync a sv ∈ made → Call.release a ∉ releasePlan old')) ∧
    ((addrs old_).Nodup →
      ∀ c, some c ∈ old' → (releasePlan old').count (Call.release c.addr) = 1) ∧
    ((ids old_).Nodup →
      ∀ c, some c ∈ old' ↔
        (some c ∈ old_ ∧
          ∀ ver ∈ versions, ver.identifier ≠ UUID_ZERO → ver.identifier ≠ c.id)) := by
  refine ⟨?_, ?_, ?_, ?_, ?_, ?_,
    fun hnd => rebuild_left object versions old_ [] t old' result' t' hnd h⟩
  rotate_right
  · intro hnd c hc
    obtain ⟨-, -, -, h3, -⟩ := rebuild_spec object versions old_ [] t old' result' t' h
    have hmem : c.addr ∈ addrs old' := by
      simp only [addrs, List.mem_map, List.mem_filterMap, id]
      exact ⟨c, ⟨some c, hc, rfl⟩, rfl⟩
    unfold releasePlan
    rw [count_release_flatMap, addrs_reverse, List.count_reverse]
    exact List.count_eq_one_of_mem (hnd.sublist h3) hmem
  · unfold deserializeChildren
    simp only [List.take_zero, h, releaseRemoved_eq]
  · intro a
    unfold releasePlan
    rw [count_release_flatMap, addrs_reverse, List.count_reverse]
  · intro a
    unfold releasePlan
    rw [count_unmap_flatMap, List.filter_reverse, addrs_reverse, List.count_reverse]
  · intro call hc
    unfold releasePlan at hc
    simp only [List.mem_flatMap, List.mem_reverse] at hc
    obtain ⟨e, -, he⟩ := hc
    cases e with
    | none => simp at he
    | some c =>
      simp only [List.mem_append, List.mem_singleton] at he
      rcases he with he | he
      · split_ifs at he
        · simp only [List.mem_singleton] at he
          subst he; rfl
        · simp at he
      · subst he; rfl
  · obtain ⟨made, h1, h2, -, h4⟩ := rebuild_spec object versions old_ [] t old' result' t' h
    refine ⟨made, h1, h2, ?_⟩
    intro hnd a sv hs hrel
    have hcount : (releasePlan old').count (Call.release a) = (addrs old').count a := by
      unfold releasePlan
      rw [count_release_flatMap, addrs_reverse, List.count_reverse]
    have hpos : 0 < (releasePlan old').count (Call.release a) := List.count_pos_iff.mpr hrel
    rw [hcount] at hpos
    exact h4 hnd a sv hs (List.count_pos_iff.mp hpos)

/-- Witness of C9: child five is matched; of the children left, eight is
unmapped and released, seven and six are released, the null entry is
skipped. -/
theorem deserializeChildren_releases_removed_witness :
    deserializeChildren slaveOwner [⟨5, 2⟩, ⟨0, 0⟩]
        [some childFive, none, some childSix, some childSeven, some childEight] [] ⟨[], 0⟩ =
      some ([some childFive, none],
        { calls := [Call.sync 1 (SyncVersion.version 2)] ++
            [Call.unmapObject 4, Call.release 4, Call.release 3, Call.release 2],
          created := 0 }) :=
  (deserializeChildren_releases_removed slaveOwner [⟨5, 2⟩, ⟨0, 0⟩]
    [some childFive, none, some childSix, some childSeven, some childEight] [] ⟨[], 0⟩
    [none, some childSix, some childSeven, some childEight] [some childFive, none]
    ⟨[Call.sync 1 (SyncVersion.version 2)], 0⟩ (by decide)).1

end DataIStream

namespace ChannelUpdateVisitor

theorem sent_updateFrameRate (c : Compound) (s : State) :
    (_updateFrameRate c s).sent = s.sent ∧
    (_updateFrameRate c s).lastDrawCompound = s.lastDrawCompound := by
  unfold _updateFrameRate
  dsimp only
  split_ifs <;> exact ⟨rfl, rfl⟩

theorem sent_updateViewStart (c : Compound) (context : RenderContext) (s : State) :
    (_updateViewStart c context s).sent = s.sent ++ viewStartPackets c context ∧
    (_updateViewStart c context s).lastDrawCompound = s.lastDrawCompound := by
  unfold _updateViewStart viewStartPackets
  cases h : c.testInheritTask TASK_VIEW <;> simp [State.send]

theorem sent_updateViewFinish (c : Compound) (context : RenderContext) (s : State) :
    (_updateViewFinish c context s).sent = s.sent ++ viewFinishPackets c context ∧
    (_updateViewFinish c context s).lastDrawCompound = s.lastDrawCompound := by
  unfold _updateViewFinish viewFinishPackets
  cases h : c.testInheritTask TASK_VIEW <;> simp [State.send]

theorem collect_assemble_frames (eye : Eye) (inputFrames : List Frame) :
    ∀ acc : List ObjectVersion,
      inputFrames.foldl
        (fun frameIDs frame =>
          if frame.hasData.get eye = false then frameIDs
          else frameIDs ++ [frame.objectVersion]) acc =
      acc ++ (inputFrames.filter (fun f => f.hasData.get eye)).map (fun f => f.objectVersion) := by
  induction inputFrames with
  | nil => intro acc; simp
  | cons f rest ih =>
    intro acc
    rw [List.foldl_cons, ih]
    cases h : f.hasData.get eye <;> simp [h, List.filter_cons]

theorem sent_updateAssemble (v : ChannelUpdateVisitor) (c : Compound)
    (context : RenderContext) (s : State) :
    (_updateAssemble v c context s).sent = s.sent ++ assemblePackets v c context ∧
    (_updateAssemble v c context s).lastDrawCompound = s.lastDrawCompound := by
  unfold _updateAssemble assemblePackets Compound.assembleFrames
  cases h : c.testInheritTask TASK_ASSEMBLE
  · simp
  · simp only [Bool.true_eq_false, if_false, collect_assemble_frames, List.nil_append,
      true_and]
    cases hf : c.inputFrames.filter (fun f => f.hasData.get v.eye) with
    | nil => simp
    | cons f rest => simp [State.send]

theorem transmitInputFrames_eq (v : ChannelUpdateVisitor) (context : RenderContext)
    (outputNodeID : Nat) (outputFrame : Frame) (inputFrames : List InputFrame) :
    ∀ (nodeIDs : List Nat) (s : State),
      _transmitInputFrames v context outputNodeID outputFrame inputFrames nodeIDs s =
        { s with sent := s.sent ++
            transmitInputPackets v context outputNodeID outputFrame inputFrames nodeIDs } := by
  induction inputFrames with
  | nil => intro nodeIDs s; simp [_transmitInputFrames, transmitInputPackets]
  | cons i rest ih =>
    intro nodeIDs s
    rw [_transmitInputFrames, transmitInputPackets]
    by_cases h : i.node.netNodeID = outputNodeID ∨ i.node.netNodeID ∈ nodeIDs
    · simp only [h, if_true]
      exact ih nodeIDs s
    · simp only [h, if_false]
      rw [ih]
      simp [State.send]

theorem transmitFrames_eq (v : ChannelUpdateVisitor) (context : RenderContext)
    (outputNodeID : Nat) (frames : List Frame) :
    ∀ s : State,
      _transmitFrames v context outputNodeID frames s =
        { s with sent := s.sent ++ transmitPackets v context outputNodeID frames } := by
  induction frames with
  | nil => intro s; simp [_transmitFrames, transmitPackets]
  | cons f rest ih =>
    intro s
    rw [_transmitFrames]
    simp only [transmitInputFrames_eq, ih, transmitPackets, List.flatMap_cons,
      List.append_assoc]

theorem sent_updateReadback (v : ChannelUpdateVisitor) (c : Compound)
    (context : RenderContext) (s : State) :
    (_updateReadback v c context s).sent = s.sent ++ readbackPackets v c context ∧
    (_updateReadback v c context s).lastDrawCompound = s.lastDrawCompound := by
  unfold _updateReadback readbackPackets Compound.readbackFrames
  cases h : c.testInheritTask TASK_READBACK
  · simp
  · simp only [Bool.true_eq_false, if_false, collect_readback_frames, List.nil_append,
      true_and]
    cases hf : c.outputFrames.filter (fun f => f.hasData.get v.eye) with
    | nil => simp
    | cons f rest => simp [State.send, transmitFrames_eq]

theorem sent_updatePostDraw (v : ChannelUpdateVisitor) (c : Compound)
    (context : RenderContext) (s : State) :
    (_updatePostDraw v c context s).sent =
      s.sent ++ (assemblePackets v c context ++ (readbackPackets v c context ++
        viewFinishPackets c context)) ∧
    (_updatePostDraw v c context s).lastDrawCompound = s.lastDrawCompound := by
  unfold _updatePostDraw
  rw [(sent_updateViewFinish _ _ _).1, (sent_updateViewFinish _ _ _).2,
    (sent_updateReadback _ _ _ _).1, (sent_updateReadback _ _ _ _).2,
    (sent_updateAssemble _ _ _ _).1, (sent_updateAssemble _ _ _ _).2]
  simp [List.append_assoc]

theorem sent_updateDrawFinish (v : ChannelUpdateVisitor) (c : Compound) (s : State) :
    (v._updateDrawFinish c s).sent = s.sent ++ drawFinishPackets v c s.lastDrawCompound := by
  rw [updateDrawFinish_eq]
  unfold drawFinishPackets
  split_ifs <;> simp

end ChannelUpdateVisitor

namespace ChannelUpdateVisitor

theorem active_of_not_skipped (v : ChannelUpdateVisitor) (c : Compound)
    (hskip : v._skipCompound c = false) : c.isInheritActive v.eye = true := by
  unfold _skipCompound at hskip
  simp only [Bool.or_eq_false_iff, Bool.not_eq_false'] at hskip
  exact hskip.1.2

/-- The packets of a leaf visit of a compound that is not skipped, in their
order. -/
theorem visitLeaf_sent (v : ChannelUpdateVisitor) (c : Compound) (s : State)
    (hskip : v._skipCompound c = false) :
    (v.visitLeaf c s).2.sent =
      s.sent ++ (viewStartPackets c (v._setupRenderContext c) ++
        (clearPackets c (v._setupRenderContext c) ++
        (drawPackets v c (v._setupRenderContext c) ++
        (drawFinishPackets v c s.lastDrawCompound ++
        (assemblePackets v c (v._setupRenderContext c) ++
        (readbackPackets v c (v._setupRenderContext c) ++
         viewFinishPackets c (v._setupRenderContext c))))))) := by
  have ha := active_of_not_skipped v c hskip
  unfold visitLeaf
  simp only [ha, hskip, Bool.true_eq_false, Bool.false_eq_true, if_false]
  rw [(sent_updatePostDraw _ _ _ _).1, sent_updateDrawFinish]
  unfold clearPackets drawPackets _sendClear
  cases hc : c.testInheritTask TASK_CLEAR <;> cases hd : c.testInheritTask TASK_DRAW <;>
    simp [State.send, (sent_updateViewStart _ _ _).1, (sent_updateViewStart _ _ _).2,
      (sent_updateFrameRate _ _).1, (sent_updateFrameRate _ _).2, List.append_assoc]

theorem drawFinishPackets_shape (v : ChannelUpdateVisitor) (c : Compound) (ld : Option Nat) :
    (drawFinishPackets v c ld = [] ∨ drawFinishPackets v c ld = drawFinishCascade v) ∧
    ∀ p ∈ drawFinishPackets v c ld, p.isDrawFinish = true := by
  unfold drawFinishPackets
  split_ifs
  · refine ⟨Or.inr rfl, ?_⟩
    intro p hp
    have h := filter_drawFinishCascade v
    rw [← h] at hp
    exact (List.mem_filter.mp hp).2
  · exact ⟨Or.inl rfl, by simp⟩

theorem transmitInputPackets_isTransmit (v : ChannelUpdateVisitor) (context : RenderContext)
    (outputNodeID : Nat) (outputFrame : Frame) (inputFrames : List InputFrame) :
    ∀ (nodeIDs : List Nat),
      ∀ p ∈ transmitInputPackets v context outputNodeID outputFrame inputFrames nodeIDs,
        p.isTransmit = true := by
  induction inputFrames with
  | nil => intro nodeIDs p hp; simp [transmitInputPackets] at hp
  | cons i rest ih =>
    intro nodeIDs p hp
    rw [transmitInputPackets] at hp
    split_ifs at hp
    · exact ih nodeIDs p hp
    · rcases List.mem_cons.mp hp with rfl | hp
      · rfl
      · exact ih _ p hp

theorem transmitPackets_isTransmit (v : ChannelUpdateVisitor) (context : RenderContext)
    (outputNodeID : Nat) (frames : List Frame) :
    ∀ p ∈ transmitPackets v context outputNodeID frames, p.isTransmit = true := by
  intro p hp
  unfold transmitPackets at hp
  obtain ⟨f, -, hf⟩ := List.mem_flatMap.mp hp
  exact transmitInputPackets_isTransmit v context outputNodeID f _ [] p hf

end ChannelUpdateVisitor

namespace ChannelUpdateVisitor

theorem assemblePackets_shape (v : ChannelUpdateVisitor) (c : Compound)
    (context : RenderContext) :
    (c.testInheritTask TASK_ASSEMBLE = false → assemblePackets v c context = []) ∧
    (assemblePackets v c context = [] ∨
      ∃ n frames, assemblePackets v c context =
        [Packet.ChannelFrameAssemble context n frames]) := by
  unfold assemblePackets
  constructor
  · intro h
    simp [h]
  · split_ifs
    · exact Or.inr ⟨_, _, rfl⟩
    · exact Or.inl rfl

theorem readbackPackets_shape (v : ChannelUpdateVisitor) (c : Compound)
    (context : RenderContext) :
    (c.testInheritTask TASK_READBACK = false → readbackPackets v c context = []) ∧
    (readbackPackets v c context = [] ∨
      ∃ n frames transmits, readbackPackets v c context =
        Packet.ChannelFrameReadback context n frames :: transmits ∧
        ∀ p ∈ transmits, p.isTransmit = true) := by
  unfold readbackPackets
  constructor
  · intro h
    simp [h]
  · split_ifs
    · exact Or.inr ⟨_, _, _, rfl, transmitPackets_isTransmit v context _ _⟩
    · exact Or.inl rfl

/-- C11: for a compound that is not skipped, `visitLeaf` returns
`TRAVERSE_CONTINUE` and sends, in this order: view start iff the inherited
tasks include VIEW, clear iff they include CLEAR, draw iff they include DRAW
with the finish flag telling whether the channel has listeners, the
draw-finish packets, the assemble packet, the readback packet followed by its
transmit packets, and view finish iff the tasks include VIEW. -/
theorem visitLeaf_task_order (v : ChannelUpdateVisitor) (c : Compound) (s : State)
    (hskip : v._skipCompound c = false) :
    (v.visitLeaf c s).1 = VisitorResult.TRAVERSE_CONTINUE ∧
    (v.visitLeaf c s).2.sent =
      s.sent ++
        ((if c.testInheritTask TASK_VIEW = true then
            [Packet.ChannelFrameViewStart (v._setupRenderContext c)] else []) ++
        ((if c.testInheritTask TASK_CLEAR = true then
            [Packet.ChannelFrameClear (v._setupRenderContext c)] else []) ++
        ((if c.testInheritTask TASK_DRAW = true then
            [Packet.ChannelFrameDraw (v._setupRenderContext c) v.channel.hasListeners]
          else []) ++
        (drawFinishPackets v c s.lastDrawCompound ++
        (assemblePackets v c (v._setupRenderContext c) ++
        (readbackPackets v c (v._setupRenderContext c) ++
         (if c.testInheritTask TASK_VIEW = true then
            [Packet.ChannelFrameViewFinish (v._setupRenderContext c)] else []))))))) ∧
    (∀ p ∈ drawFinishPackets v c s.lastDrawCompound, p.isDrawFinish = true) ∧
    (assemblePackets v c (v._setupRenderContext c) = [] ∨
      ∃ n frames, assemblePackets v c (v._setupRenderContext c) =
        [Packet.ChannelFrameAssemble (v._setupRenderContext c) n frames]) ∧
    (readbackPackets v c (v._setupRenderContext c) = [] ∨
      ∃ n frames transmits, readbackPackets v c (v._setupRenderContext c) =
        Packet.ChannelFrameReadback (v._setupRenderContext c) n frames :: transmits ∧
        ∀ p ∈ transmits, p.isTransmit = true) := by
  refine ⟨visitLeaf_fst v c s, ?_, (drawFinishPackets_shape v c _).2,
    (assemblePackets_shape v c _).2, (readbackPackets_shape v c _).2⟩
  rw [visitLeaf_sent v c s hskip]
  rfl

/-- Witness of C11: the sample compound with the tasks CLEAR and DRAW at the
start of a frame. -/
theorem visitLeaf_task_order_witness :
    (Sample.visitor.visitLeaf Sample.compound (State.frameStart 60)).1 =
      VisitorResult.TRAVERSE_CONTINUE :=
  (visitLeaf_task_order Sample.visitor Sample.compound (State.frameStart 60) (by decide)).1

end ChannelUpdateVisitor

namespace ChannelUpdateVisitor

theorem isPostDraw_of_isTransmit (p : Packet) (h : p.isTransmit = true) :
    p.isPostDraw = true := by
  cases p <;> simp_all [Packet.isTransmit, Packet.isPostDraw]

theorem postDraw_packets_isPostDraw (v : ChannelUpdateVisitor) (c : Compound)
    (context : RenderContext) :
    ∀ p ∈ assemblePackets v c context ++ (readbackPackets v c context ++
        viewFinishPackets c context), p.isPostDraw = true := by
  intro p hp
  rcases List.mem_append.mp hp with hp | hp
  · rcases (assemblePackets_shape v c context).2 with h | ⟨n, fr, h⟩
    · rw [h] at hp; simp at hp
    · rw [h] at hp
      simp only [List.mem_singleton] at hp
      subst hp; rfl
  · rcases List.mem_append.mp hp with hp | hp
    · rcases (readbackPackets_shape v c context).2 with h | ⟨n, fr, tr, h, htr⟩
      · rw [h] at hp; simp at hp
      · rw [h] at hp
        rcases List.mem_cons.mp hp with rfl | hp
        · rfl
        · exact isPostDraw_of_isTransmit p (htr p hp)
    · unfold viewFinishPackets at hp
      split_ifs at hp
      · simp only [List.mem_singleton] at hp
        subst hp; rfl
      · simp at hp

/-- C12: `visitPost` leaves everything as it is for a skipped compound. For
a compound that is not skipped it sends the assemble packet, the readback
packet with its transmit packets and the view finish packet, in this order
and each only if the task is among the inherited tasks; every packet it sends
is one of these, so no view start, clear, draw or draw-finish packet, and
the channel's last draw compound and the window's frame rate are kept. -/
theorem visitPost_post_draw_suite (v : ChannelUpdateVisitor) (c : Compound) (s : State) :
    (v._skipCompound c = true → v.visitPost c s = (VisitorResult.TRAVERSE_CONTINUE, s)) ∧
    (v._skipCompound c = false →
      (v.visitPost c s).1 = VisitorResult.TRAVERSE_CONTINUE ∧
      (v.visitPost c s).2.sent =
        s.sent ++ (assemblePackets v c (v._setupRenderContext c) ++
          (readbackPackets v c (v._setupRenderContext c) ++
           (if c.testInheritTask TASK_VIEW = true then
              [Packet.ChannelFrameViewFinish (v._setupRenderContext c)] else []))) ∧
      (v.visitPost c s).2.lastDrawCompound = s.lastDrawCompound) ∧
    (c.testInheritTask TASK_ASSEMBLE = false →
      assemblePackets v c (v._setupRenderContext c) = []) ∧
    (c.testInheritTask TASK_READBACK = false →
      readbackPackets v c (v._setupRenderContext c) = []) ∧
    (assemblePackets v c (v._setupRenderContext c) = [] ∨
      ∃ n frames, assemblePackets v c (v._setupRenderContext c) =
        [Packet.ChannelFrameAssemble (v._setupRenderContext c) n frames]) ∧
    (readbackPackets v c (v._setupRenderContext c) = [] ∨
      ∃ n frames transmits, readbackPackets v c (v._setupRenderContext c) =
        Packet.ChannelFrameReadback (v._setupRenderContext c) n frames :: transmits ∧
        ∀ p ∈ transmits, p.isTransmit = true) ∧
    (∀ p ∈ assemblePackets v c (v._setupRenderContext c) ++
        (readbackPackets v c (v._setupRenderContext c) ++
         (if c.testInheritTask TASK_VIEW = true then
            [Packet.ChannelFrameViewFinish (v._setupRenderContext c)] else [])),
      p.isPostDraw = true ∧ p.isDraw = false ∧ p.isDrawFinish = false) := by
  refine ⟨?_, ?_, (assemblePackets_shape v c _).1, (readbackPackets_shape v c _).1,
    (assemblePackets_shape v c _).2, (readbackPackets_shape v c _).2, ?_⟩
  · intro h
    simp [visitPost, h]
  · intro h
    refine ⟨visitPost_fst v c s, ?_, ?_⟩
    · simp only [visitPost, h, Bool.false_eq_true, if_false]
      rw [(sent_updatePostDraw v c _ s).1]
      rfl
    · simp only [visitPost, h, Bool.false_eq_true, if_false]
      exact (sent_updatePostDraw v c _ s).2
  · intro p hp
    have h := postDraw_packets_isPostDraw v c (v._setupRenderContext c) p hp
    refine ⟨h, ?_, ?_⟩ <;> cases p <;>
      simp_all [Packet.isPostDraw, Packet.isDraw, Packet.isDrawFinish]

/-- Witness of C12: the sample compound is not skipped by the sample visitor,
and a compound that is not active is skipped. -/
theorem visitPost_post_draw_suite_witness :
    Sample.visitor.visitPost Sample.inactiveCompound (State.frameStart 60) =
      (VisitorResult.TRAVERSE_CONTINUE, State.frameStart 60) ∧
    (Sample.visitor.visitPost Sample.readbackCompound (State.frameStart 60)).1 =
      VisitorResult.TRAVERSE_CONTINUE :=
  ⟨(visitPost_post_draw_suite Sample.visitor Sample.inactiveCompound
      (State.frameStart 60)).1 (by decide),
   ((visitPost_post_draw_suite Sample.visitor Sample.readbackCompound
      (State.frameStart 60)).2.1 (by decide)).1⟩

end ChannelUpdateVisitor

namespace ChannelUpdateVisitor

theorem visitLeaf_of_inactive (v : ChannelUpdateVisitor) (c : Compound) (s : State)
    (h : c.isInheritActive v.eye = false) :
    v.visitLeaf c s = (VisitorResult.TRAVERSE_CONTINUE, s) := by
  simp [visitLeaf, h]

/-- C13 (scenario S1): a leaf compound on the visited channel with the
inherited tasks CLEAR and DRAW only, active for the cyclop eye only, which is
its last eye; the channel is the last draw channel of its window, the window
the last draw window of its pipe, the pipe the last draw pipe of its node,
and no other compound is recorded as the channel's last draw compound. The
leaf visit of the cyclop pass sends clear, draw and the channel, window,
pipe and node draw-finish packets, in this order and nothing else; the leaf
visits of the other passes send nothing. -/
theorem visitLeaf_mono_clear_draw (v : ChannelUpdateVisitor) (c : Compound) (s : State)
    (hch : c.channel = some v.channel.addr)
    (htasks : c.inheritTasks = TASK_CLEAR ||| TASK_DRAW)
    (hact : c.isInheritActive Eye.CYCLOP = true)
    (hleft : c.isInheritActive Eye.LEFT = false)
    (hright : c.isInheritActive Eye.RIGHT = false)
    (hlast : c.isLastInheritEye Eye.CYCLOP = true)
    (hW : v.channel.window.lastDrawChannel = some v.channel.addr)
    (hP : v.channel.pipe.lastDrawWindow = some v.channel.window.addr)
    (hN : v.channel.node.lastDrawPipe = some v.channel.pipe.addr)
    (hld : s.lastDrawCompound = none ∨ s.lastDrawCompound = some c.addr) :
    ((v.setEye Eye.CYCLOP).visitLeaf c s).2.sent =
      s.sent ++
        [Packet.ChannelFrameClear ((v.setEye Eye.CYCLOP)._setupRenderContext c),
         Packet.ChannelFrameDraw ((v.setEye Eye.CYCLOP)._setupRenderContext c)
           v.channel.hasListeners,
         Packet.ChannelFrameDrawFinish v.channel.id v.frameNumber v.frameID,
         Packet.WindowFrameDrawFinish v.channel.window.id v.frameNumber v.frameID,
         Packet.PipeFrameDrawFinish v.channel.pipe.id v.frameNumber v.frameID,
         Packet.NodeFrameDrawFinish v.channel.node.id v.frameNumber v.frameID] ∧
    (v.setEye Eye.LEFT).visitLeaf c s = (VisitorResult.TRAVERSE_CONTINUE, s) ∧
    (v.setEye Eye.RIGHT).visitLeaf c s = (VisitorResult.TRAVERSE_CONTINUE, s) := by
  refine ⟨?_, visitLeaf_of_inactive _ c s hleft, visitLeaf_of_inactive _ c s hright⟩
  have hskip : (v.setEye Eye.CYCLOP)._skipCompound c = false := by
    simp [_skipCompound, setEye, hch, hact, htasks]
    decide
  have hview : c.testInheritTask TASK_VIEW = false := by
    simp only [Compound.testInheritTask, htasks]; decide
  have hclear : c.testInheritTask TASK_CLEAR = true := by
    simp only [Compound.testInheritTask, htasks]; decide
  have hdraw : c.testInheritTask TASK_DRAW = true := by
    simp only [Compound.testInheritTask, htasks]; decide
  have hasm : c.testInheritTask TASK_ASSEMBLE = false := by
    simp only [Compound.testInheritTask, htasks]; decide
  have hrb : c.testInheritTask TASK_READBACK = false := by
    simp only [Compound.testInheritTask, htasks]; decide
  rw [visitLeaf_sent _ c s hskip, (assemblePackets_shape _ c _).1 hasm,
    (readbackPackets_shape _ c _).1 hrb]
  have hfin : drawFinishPackets (v.setEye Eye.CYCLOP) c s.lastDrawCompound =
      [Packet.ChannelFrameDrawFinish v.channel.id v.frameNumber v.frameID,
       Packet.WindowFrameDrawFinish v.channel.window.id v.frameNumber v.frameID,
       Packet.PipeFrameDrawFinish v.channel.pipe.id v.frameNumber v.frameID,
       Packet.NodeFrameDrawFinish v.channel.node.id v.frameNumber v.frameID] := by
    unfold drawFinishPackets drawFinishCascade
    simp [setEye, hlast, hld, hW, hP, hN]
  rw [hfin]
  simp [viewStartPackets, clearPackets, drawPackets, viewFinishPackets, hview, hclear, hdraw,
    setEye]

/-- Witness of C13: the sample compound on the sample channel at the start of
a frame. -/
theorem visitLeaf_mono_clear_draw_witness :
    ((Sample.visitor.setEye Eye.CYCLOP).visitLeaf Sample.compound (State.frameStart 60)).2.sent =
      (State.frameStart 60).sent ++
        [Packet.ChannelFrameClear
           ((Sample.visitor.setEye Eye.CYCLOP)._setupRenderContext Sample.compound),
         Packet.ChannelFrameDraw
           ((Sample.visitor.setEye Eye.CYCLOP)._setupRenderContext Sample.compound)
           Sample.visitor.channel.hasListeners,
         Packet.ChannelFrameDrawFinish Sample.visitor.channel.id Sample.visitor.frameNumber
           Sample.visitor.frameID,
         Packet.WindowFrameDrawFinish Sample.visitor.channel.window.id
           Sample.visitor.frameNumber Sample.visitor.frameID,
         Packet.PipeFrameDrawFinish Sample.visitor.channel.pipe.id Sample.visitor.frameNumber
           Sample.visitor.frameID,
         Packet.NodeFrameDrawFinish Sample.visitor.channel.node.id Sample.visitor.frameNumber
           Sample.visitor.frameID] :=
  (visitLeaf_mono_clear_draw Sample.visitor Sample.compound (State.frameStart 60)
    (by decide) (by decide) (by decide) (by decide) (by decide) (by decide) (by decide)
    (by decide) (by decide) (Or.inl rfl)).1

end ChannelUpdateVisitor

namespace ChannelUpdateVisitor

/-- C14: the packets one call of `_updateDrawFinish` sends form a prefix of
the channel, window, pipe and node draw-finish packets, each with the object
id of its owner and the visitor's frame number and frame id. The window
packet is sent iff the channel packet is sent and the window's last draw
channel is the visited channel, the pipe packet iff moreover the pipe's last
draw window is that window, the node packet iff moreover the node's last draw
pipe is that pipe. -/
theorem updateDrawFinish_cascade_prefix (v : ChannelUpdateVisitor) (c : Compound) (s : State) :
    ∃ extra : List Packet,
      (v._updateDrawFinish c s).sent = s.sent ++ extra ∧
      extra <+:
        [Packet.ChannelFrameDrawFinish v.channel.id v.frameNumber v.frameID,
         Packet.WindowFrameDrawFinish v.channel.window.id v.frameNumber v.frameID,
         Packet.PipeFrameDrawFinish v.channel.pipe.id v.frameNumber v.frameID,
         Packet.NodeFrameDrawFinish v.channel.node.id v.frameNumber v.frameID] ∧
      (Packet.WindowFrameDrawFinish v.channel.window.id v.frameNumber v.frameID ∈ extra ↔
        Packet.ChannelFrameDrawFinish v.channel.id v.frameNumber v.frameID ∈ extra ∧
        v.channel.window.lastDrawChannel = some v.channel.addr) ∧
      (Packet.PipeFrameDrawFinish v.channel.pipe.id v.frameNumber v.frameID ∈ extra ↔
        Packet.ChannelFrameDrawFinish v.channel.id v.frameNumber v.frameID ∈ extra ∧
        v.channel.window.lastDrawChannel = some v.channel.addr ∧
        v.channel.pipe.lastDrawWindow = some v.channel.window.addr) ∧
      (Packet.NodeFrameDrawFinish v.channel.node.id v.frameNumber v.frameID ∈ extra ↔
        Packet.ChannelFrameDrawFinish v.channel.id v.frameNumber v.frameID ∈ extra ∧
        v.channel.window.lastDrawChannel = some v.channel.addr ∧
        v.channel.pipe.lastDrawWindow = some v.channel.window.addr ∧
        v.channel.node.lastDrawPipe = some v.channel.pipe.addr) := by
  refine ⟨drawFinishPackets v c s.lastDrawCompound, sent_updateDrawFinish v c s, ?_⟩
  unfold drawFinishPackets drawFinishCascade
  by_cases hfire : c.isLastInheritEye v.eye = true ∧
      (s.lastDrawCompound = none ∨ s.lastDrawCompound = some c.addr)
  · rw [if_pos hfire]
    by_cases hW : v.channel.window.lastDrawChannel = some v.channel.addr <;>
      by_cases hP : v.channel.pipe.lastDrawWindow = some v.channel.window.addr <;>
      by_cases hN : v.channel.node.lastDrawPipe = some v.channel.pipe.addr <;>
      simp [hW, hP, hN, List.prefix_cons_inj, List.nil_prefix]
  · rw [if_neg hfire]
    simp

end ChannelUpdateVisitor

namespace ChannelUpdateVisitor

/-- C15 (as stated, refuted): the channel has recorded another compound as
its last draw compound and `_updateDrawFinish` is called for the sample
compound on its last eye pass: nothing is sent and nothing changes. -/
theorem updateDrawFinish_other_compound_silent :
    Sample.recordedState.lastDrawCompound = some 999 ∧
    Sample.recordedState.lastDrawCompound ≠ some Sample.compound.addr ∧
    Sample.compound.isLastInheritEye Sample.visitor.eye = true ∧
    (Sample.visitor._updateDrawFinish Sample.compound Sample.recordedState).sent = [] ∧
    (Sample.visitor._updateDrawFinish Sample.compound Sample.recordedState).lastDrawCompound =
      some 999 := by
  refine ⟨by decide, by decide, by decide, rfl, by decide⟩

/-- C15 (amended): once the channel's last draw compound has been set,
`_updateDrawFinish` called for a different compound sends nothing and changes
nothing, whatever the eye; called for the recorded compound on that
compound's last eye pass it sends `ChannelFrameDrawFinish` first and keeps the
record. While no compound is recorded, a call on a compound's last eye pass
records that compound and sends `ChannelFrameDrawFinish`. -/
theorem updateDrawFinish_recorded (v : ChannelUpdateVisitor) (c : Compound) (s : State) :
    (∀ a, s.lastDrawCompound = some a → a ≠ c.addr → v._updateDrawFinish c s = s) ∧
    (c.isLastInheritEye v.eye = true →
      (s.lastDrawCompound = none ∨ s.lastDrawCompound = some c.addr) →
      (v._updateDrawFinish c s).lastDrawCompound = some c.addr ∧
      ∃ rest, (v._updateDrawFinish c s).sent =
        s.sent ++ Packet.ChannelFrameDrawFinish v.channel.id v.frameNumber v.frameID :: rest ∧
        ∀ p ∈ rest, p.isChannelDrawFinish = false) := by
  constructor
  · intro a ha hne
    rw [updateDrawFinish_eq, if_neg]
    rintro ⟨-, h | h⟩
    · rw [ha] at h
      cases h
    · rw [ha] at h
      exact hne (Option.some.inj h)
  · intro hlast hld
    rw [updateDrawFinish_eq, if_pos ⟨hlast, hld⟩]
    refine ⟨rfl, ?_⟩
    unfold drawFinishCascade
    refine ⟨_, rfl, ?_⟩
    split_ifs <;> simp [Packet.isChannelDrawFinish]

/-- Witness of C15 (amended): with another compound recorded the call for the
sample compound changes nothing; at the start of a frame it records the sample
compound. -/
theorem updateDrawFinish_recorded_witness :
    Sample.visitor._updateDrawFinish Sample.compound Sample.recordedState =
      Sample.recordedState ∧
    (Sample.visitor._updateDrawFinish Sample.compound (State.frameStart 60)).lastDrawCompound =
      some Sample.compound.addr :=
  ⟨(updateDrawFinish_recorded Sample.visitor Sample.compound Sample.recordedState).1 999 rfl
      (by decide),
   ((updateDrawFinish_recorded Sample.visitor Sample.compound (State.frameStart 60)).2
      (by decide) (Or.inl rfl)).1⟩

end ChannelUpdateVisitor

/-- A visit of a compound in a pass that is not the compound's last eye pass
leaves the draw-finish bookkeeping as it is. -/
theorem runVisit_finishView_not_last (v : ChannelUpdateVisitor) (x : Visit) (s : State)
    (h : ∀ c, x.target = some c → c.isLastInheritEye v.eye = false) :
    (runVisit v x s).finishView = s.finishView := by
  rw [runVisit_finishView]
  unfold finishStep
  cases ht : x.target with
  | none => rfl
  | some c =>
    have hl := h c ht
    simp [Compound.finishesOn, hl]

theorem foldl_runVisit_finishView_not_last (v : ChannelUpdateVisitor) (xs : List Visit) :
    ∀ s : State, (∀ x ∈ xs, ∀ c, x.target = some c → c.isLastInheritEye v.eye = false) →
      (xs.foldl (fun s x => runVisit v x s) s).finishView = s.finishView := by
  induction xs with
  | nil => intro s _; rfl
  | cons x rest ih =>
    intro s h
    rw [List.foldl_cons, ih _ (fun y hy => h y (List.mem_cons_of_mem _ hy)),
      runVisit_finishView_not_last v x s (h x (List.mem_cons_self _ _))]

namespace ChannelUpdateVisitor

/-- C16: when the eye is not the compound's last inherit eye,
`_updateDrawFinish` sends nothing and leaves the channel's last draw compound
(and the rest of the state) unchanged. Hence a pass, any sequence of pre, leaf
and post visits with one eye, over compounds for which this eye is not the
last, as the left pass of a frame whose compounds are active for both eyes,
sends no draw-finish packet and keeps the last draw compound. -/
theorem updateDrawFinish_last_eye_only (v : ChannelUpdateVisitor) :
    (∀ (c : Compound) (s : State), c.isLastInheritEye v.eye = false →
      v._updateDrawFinish c s = s) ∧
    (∀ (xs : List Visit) (s : State),
      (∀ x ∈ xs, ∀ c, x.target = some c → c.isLastInheritEye Eye.LEFT = false) →
      (xs.foldl (fun s x => runVisit (v.setEye Eye.LEFT) x s) s).lastDrawCompound =
        s.lastDrawCompound ∧
      (xs.foldl (fun s x => runVisit (v.setEye Eye.LEFT) x s) s).sent.filter
        Packet.isDrawFinish = s.sent.filter Packet.isDrawFinish ∧
      (xs.foldl (fun s x => runVisit (v.setEye Eye.LEFT) x s) s).sent.countP
        Packet.isChannelDrawFinish = s.sent.countP Packet.isChannelDrawFinish) := by
  constructor
  · intro c s h
    rw [updateDrawFinish_eq, if_neg]
    rintro ⟨h', -⟩
    rw [h] at h'
    cases h'
  · intro xs s h
    have hv := foldl_runVisit_finishView_not_last (v.setEye Eye.LEFT) xs s h
    have h1 : (xs.foldl (fun s x => runVisit (v.setEye Eye.LEFT) x s) s).lastDrawCompound =
        s.lastDrawCompound := congrArg Prod.fst hv
    have h2 : (xs.foldl (fun s x => runVisit (v.setEye Eye.LEFT) x s) s).sent.filter
        Packet.isDrawFinish = s.sent.filter Packet.isDrawFinish := congrArg Prod.snd hv
    refine ⟨h1, h2, ?_⟩
    have hsub : ∀ q : Packet, q.isChannelDrawFinish = true → q.isDrawFinish = true := by
      intro q hq
      cases q <;> simp_all [Packet.isChannelDrawFinish, Packet.isDrawFinish]
    rw [List.countP_eq_length_filter, List.countP_eq_length_filter,
      ← filter_drawFinish_sub _ hsub, h2, filter_drawFinish_sub _ hsub]

/-- Witness of C16: the leaf visit of the stereo sample compound in the left
pass. -/
theorem updateDrawFinish_last_eye_only_witness :
    (Sample.visitor.setEye Eye.LEFT)._updateDrawFinish Sample.stereoCompound
        (State.frameStart 60) = State.frameStart 60 ∧
    ([Visit.leaf Sample.stereoCompound].foldl
        (fun s x => runVisit (Sample.visitor.setEye Eye.LEFT) x s)
        (State.frameStart 60)).sent.countP Packet.isChannelDrawFinish =
      (State.frameStart 60).sent.countP Packet.isChannelDrawFinish :=
  ⟨(updateDrawFinish_last_eye_only (Sample.visitor.setEye Eye.LEFT)).1 Sample.stereoCompound
      (State.frameStart 60) (by decide),
   ((updateDrawFinish_last_eye_only Sample.visitor).2 [Visit.leaf Sample.stereoCompound]
      (State.frameStart 60)
      (by
        intro x hx c hc
        simp only [List.mem_singleton] at hx
        subst hx
        simp only [Visit.target, Option.some.injEq] at hc
        subst hc
        decide)).2.2⟩

end ChannelUpdateVisitor

namespace ChannelUpdateVisitor

/-- C17: `_getDrawBuffer` returns one of the four per-eye buffers
GL_FRONT_LEFT, GL_FRONT_RIGHT, GL_BACK_LEFT, GL_BACK_RIGHT exactly when the
inherited stereo mode is QUAD, the drawable config of the window is stereo
capable and the eye is LEFT or RIGHT; then it is the left or right buffer of
the eye, a back buffer if the drawable is double buffered and a front buffer
otherwise. In every other case it returns GL_BACK if the drawable is double
buffered and GL_FRONT otherwise. In particular a stereo, double buffered
drawable under QUAD gives GL_BACK_LEFT for LEFT and GL_BACK_RIGHT for RIGHT. -/
theorem getDrawBuffer_table (v : ChannelUpdateVisitor) (c : Compound) :
    ((v._getDrawBuffer c = GL_FRONT_LEFT ∨ v._getDrawBuffer c = GL_FRONT_RIGHT ∨
        v._getDrawBuffer c = GL_BACK_LEFT ∨ v._getDrawBuffer c = GL_BACK_RIGHT) ↔
      (c.inheritStereoMode = StereoMode.QUAD ∧
        v.channel.window.drawableConfig.stereo = true ∧
        (v.eye = Eye.LEFT ∨ v.eye = Eye.RIGHT))) ∧
    (c.inheritStereoMode = StereoMode.QUAD →
      v.channel.window.drawableConfig.stereo = true → v.eye = Eye.LEFT →
      v._getDrawBuffer c =
        if v.channel.window.drawableConfig.doublebuffered = true then GL_BACK_LEFT
        else GL_FRONT_LEFT) ∧
    (c.inheritStereoMode = StereoMode.QUAD →
      v.channel.window.drawableConfig.stereo = true → v.eye = Eye.RIGHT →
      v._getDrawBuffer c =
        if v.channel.window.drawableConfig.doublebuffered = true then GL_BACK_RIGHT
        else GL_FRONT_RIGHT) ∧
    (¬ (c.inheritStereoMode = StereoMode.QUAD ∧
        v.channel.window.drawableConfig.stereo = true ∧
        (v.eye = Eye.LEFT ∨ v.eye = Eye.RIGHT)) →
      v._getDrawBuffer c =
        if v.channel.window.drawableConfig.doublebuffered = true then GL_BACK
        else GL_FRONT) ∧
    (c.inheritStereoMode = StereoMode.QUAD →
      v.channel.window.drawableConfig = ⟨true, true⟩ →
      (v.eye = Eye.LEFT → v._getDrawBuffer c = GL_BACK_LEFT) ∧
      (v.eye = Eye.RIGHT → v._getDrawBuffer c = GL_BACK_RIGHT)) := by
  unfold _getDrawBuffer
  generalize c.inheritStereoMode = m
  generalize v.channel.window.drawableConfig = dc
  generalize v.eye = e
  obtain ⟨st, db⟩ := dc
  cases m <;> cases st <;> cases db <;> cases e <;> decide

/-- Witness of C17: the sample stereo compound (QUAD) on the sample window
(stereo, double buffered) in the left and in the right pass. -/
theorem getDrawBuffer_table_witness :
    (Sample.visitor.setEye Eye.LEFT)._getDrawBuffer Sample.stereoCompound = GL_BACK_LEFT ∧
    (Sample.visitor.setEye Eye.RIGHT)._getDrawBuffer Sample.stereoCompound = GL_BACK_RIGHT :=
  ⟨((getDrawBuffer_table (Sample.visitor.setEye Eye.LEFT) Sample.stereoCompound).2.2.2.2
      (by decide) (by decide)).1 (by decide),
   ((getDrawBuffer_table (Sample.visitor.setEye Eye.RIGHT) Sample.stereoCompound).2.2.2.2
      (by decide) (by decide)).2 (by decide)⟩

/-- C18: under ANAGLYPH stereo mode the draw buffer is GL_BACK for a double
buffered drawable and GL_FRONT otherwise, for every eye and whatever the
stereo capability of the drawable, and `_getDrawBufferMask` returns the mask
built from the inherited left anaglyph mask for LEFT, from the right anaglyph
mask for RIGHT, and `ColorMask::ALL` for CYCLOP. For every other stereo mode
the mask is `ColorMask::ALL` for every eye. -/
theorem anaglyph_buffer_and_mask (v : ChannelUpdateVisitor) (c : Compound) :
    (c.inheritStereoMode = StereoMode.ANAGLYPH →
      (∀ e : Eye, (v.setEye e)._getDrawBuffer c =
        if v.channel.window.drawableConfig.doublebuffered = true then GL_BACK
        else GL_FRONT) ∧
      (v.setEye Eye.LEFT)._getDrawBufferMask c =
        ColorMask.ofAttribute c.inheritAnaglyphLeftMask ∧
      (v.setEye Eye.RIGHT)._getDrawBufferMask c =
        ColorMask.ofAttribute c.inheritAnaglyphRightMask ∧
      (v.setEye Eye.CYCLOP)._getDrawBufferMask c = ColorMask.ALL) ∧
    (c.inheritStereoMode ≠ StereoMode.ANAGLYPH →
      ∀ e : Eye, (v.setEye e)._getDrawBufferMask c = ColorMask.ALL) := by
  constructor
  · intro h
    refine ⟨?_, ?_, ?_, ?_⟩
    · intro e
      simp only [_getDrawBuffer, setEye, h]
      generalize v.channel.window.drawableConfig = dc
      obtain ⟨st, db⟩ := dc
      cases st <;> cases db <;> cases e <;> decide
    · simp [_getDrawBufferMask, setEye, h]
    · simp [_getDrawBufferMask, setEye, h]
    · simp [_getDrawBufferMask, setEye, h]
  · intro h e
    simp [_getDrawBufferMask, h]

/-- Witness of C18: the sample anaglyph compound, whose masks are 1 and 6, and
the sample stereo compound, which is in QUAD mode. -/
theorem anaglyph_buffer_and_mask_witness :
    (∀ e : Eye, (Sample.visitor.setEye e)._getDrawBuffer Sample.anaglyphCompound = GL_BACK) ∧
    (Sample.visitor.setEye Eye.LEFT)._getDrawBufferMask Sample.anaglyphCompound =
      ColorMask.ofAttribute 1 ∧
    (Sample.visitor.setEye Eye.RIGHT)._getDrawBufferMask Sample.anaglyphCompound =
      ColorMask.ofAttribute 6 ∧
    (∀ e : Eye, (Sample.visitor.setEye e)._getDrawBufferMask Sample.stereoCompound =
      ColorMask.ALL) :=
  ⟨((anaglyph_buffer_and_mask Sample.visitor Sample.anaglyphCompound).1 (by decide)).1,
   ((anaglyph_buffer_and_mask Sample.visitor Sample.anaglyphCompound).1 (by decide)).2.1,
   ((anaglyph_buffer_and_mask Sample.visitor Sample.anaglyphCompound).1 (by decide)).2.2.1,
   (anaglyph_buffer_and_mask Sample.visitor Sample.stereoCompound).2 (by decide)⟩

end ChannelUpdateVisitor

/-- With pixel decomposition ALL and viewport FULL, `_computeFrustumCorners`
only sets the four corners, by the sign of `eye.z`. -/
theorem computeFrustumCorners_plain (v : ChannelUpdateVisitor) (c : Compound)
    (fd : FrustumData) (e : Vector3f)
    (hpix : c.inheritPixel = v.lib.pixelALL) (hvp : c.inheritViewport = v.lib.viewportFULL) :
    v._computeFrustumCorners c fd e false =
      if 0 < e.z then
        { left := (-(fd.width * (1 / 2)) - e.x) * (c.inheritChannel.frustum.near_plane / e.z)
          right := (fd.width * (1 / 2) - e.x) * (c.inheritChannel.frustum.near_plane / e.z)
          bottom := (-(fd.height * (1 / 2)) - e.y) * (c.inheritChannel.frustum.near_plane / e.z)
          top := (fd.height * (1 / 2) - e.y) * (c.inheritChannel.frustum.near_plane / e.z)
          near_plane := c.inheritChannel.frustum.near_plane
          far_plane := c.inheritChannel.frustum.far_plane }
      else
        { left := (fd.width * (1 / 2) - e.x) * (c.inheritChannel.frustum.near_plane / e.z)
          right := (-(fd.width * (1 / 2)) - e.x) * (c.inheritChannel.frustum.near_plane / e.z)
          bottom := (fd.height * (1 / 2) + e.y) * (c.inheritChannel.frustum.near_plane / e.z)
          top := (-(fd.height * (1 / 2)) + e.y) * (c.inheritChannel.frustum.near_plane / e.z)
          near_plane := c.inheritChannel.frustum.near_plane
          far_plane := c.inheritChannel.frustum.far_plane } := by
  unfold ChannelUpdateVisitor._computeFrustumCorners
  dsimp only
  rw [if_neg (fun h => h.1 hvp), if_neg (fun h => h.1 hpix)]
  by_cases hz : 0 < e.z
  · rw [if_pos hz, if_pos (Or.inl hz)]
    simp
  · rw [if_neg hz, if_neg (by simpa using hz)]
    simp

/-- The perspective frustum of the render context is the one computed by
`_computeFrustumCorners` for the eye in wall coordinates. -/
theorem setupRenderContext_frustum (v : ChannelUpdateVisitor) (c : Compound) :
    (v._setupRenderContext c).frustum =
      v._computeFrustumCorners c c.inheritFrustumData
        (v.lib.mulPoint c.inheritFrustumData.transform
          (ChannelUpdateVisitor._getEyePosition c v.eye)) false := by
  rfl

namespace ChannelUpdateVisitor

/-- C19 (frustum correctness): let the near plane n of the destination channel
be positive, the pixel decomposition ALL and the viewport FULL. For a wall of
width 2w and height 2h and the eye at wall coordinates (0, 0, n),
`_computeFrustumCorners` with ortho = false gives the frustum
(-w, w, -h, h, n, far), near and far being those of the destination channel.
So when the eye is at the world origin and the transform of the frustum data
maps the origin to (0, 0, n), this is the perspective frustum of the render
context. -/
theorem computeFrustumCorners_centred (v : ChannelUpdateVisitor) (c : Compound) (w h : ℚ)
    (hn : 0 < c.inheritChannel.frustum.near_plane)
    (hpix : c.inheritPixel = v.lib.pixelALL)
    (hvp : c.inheritViewport = v.lib.viewportFULL) :
    (∀ fd : FrustumData, fd.width = 2 * w → fd.height = 2 * h →
      v._computeFrustumCorners c fd ⟨0, 0, c.inheritChannel.frustum.near_plane⟩ false =
        ⟨-w, w, -h, h, c.inheritChannel.frustum.near_plane,
          c.inheritChannel.frustum.far_plane⟩) ∧
    (c.inheritFrustumData.width = 2 * w → c.inheritFrustumData.height = 2 * h →
      _getEyePosition c v.eye = Vector3f.ZERO →
      v.lib.mulPoint c.inheritFrustumData.transform Vector3f.ZERO =
        ⟨0, 0, c.inheritChannel.frustum.near_plane⟩ →
      (v._setupRenderContext c).frustum =
        ⟨-w, w, -h, h, c.inheritChannel.frustum.near_plane,
          c.inheritChannel.frustum.far_plane⟩) := by
  have key : ∀ fd : FrustumData, fd.width = 2 * w → fd.height = 2 * h →
      v._computeFrustumCorners c fd ⟨0, 0, c.inheritChannel.frustum.near_plane⟩ false =
        ⟨-w, w, -h, h, c.inheritChannel.frustum.near_plane,
          c.inheritChannel.frustum.far_plane⟩ := by
    intro fd hw hh
    rw [computeFrustumCorners_plain v c fd _ hpix hvp, if_pos hn, hw, hh,
      div_self (ne_of_gt hn)]
    simp only [mul_one, sub_zero, Frustumf.mk.injEq, and_true]
    refine ⟨?_, ?_, ?_, ?_⟩ <;> ring
  refine ⟨key, ?_⟩
  intro hw hh he hm
  rw [setupRenderContext_frustum, he, hm]
  exact key _ hw hh

/-- Witness of C19: the sample wall compound, whose wall is 4 wide and 2 high
at the near plane 1 of the sample channel, in the cyclop pass. -/
theorem computeFrustumCorners_centred_witness :
    (Sample.wallVisitor._setupRenderContext Sample.wallCompound).frustum =
      ⟨-2, 2, -1, 1, 1, 100⟩ :=
  (computeFrustumCorners_centred Sample.wallVisitor Sample.wallCompound 2 1
    (by decide) (by decide) (by decide)).2
    (by norm_num [Sample.wallCompound])
    (by norm_num [Sample.wallCompound])
    (by decide)
    (by norm_num [Sample.wallVisitor, Sample.wallCompound, Sample.mulPoint, Sample.wallTransform,
      Sample.compound, Sample.channel, Vector3f.ZERO])

end ChannelUpdateVisitor

namespace ChannelUpdateVisitor

/-- C20: perspective frustum corners. Let the pixel decomposition be ALL and
the viewport FULL, e the eye in wall coordinates, w and h the half width and
height of the wall and n the near plane of the destination channel. With
ortho = false, if e.z > 0 the corners are left = (-w - e.x) n/e.z,
right = (w - e.x) n/e.z, bottom = (-h - e.y) n/e.z, top = (h - e.y) n/e.z;
otherwise they are left = (w - e.x) n/e.z, right = (-w - e.x) n/e.z,
bottom = (h + e.y) n/e.z, top = (-h + e.y) n/e.z. Near and far are those of
the destination channel in both cases. -/
theorem computeFrustumCorners_perspective (v : ChannelUpdateVisitor) (c : Compound)
    (fd : FrustumData) (e : Vector3f) (w h : ℚ)
    (hw : fd.width = 2 * w) (hh : fd.height = 2 * h)
    (hpix : c.inheritPixel = v.lib.pixelALL)
    (hvp : c.inheritViewport = v.lib.viewportFULL) :
    (0 < e.z →
      v._computeFrustumCorners c fd e false =
        ⟨(-w - e.x) * (c.inheritChannel.frustum.near_plane / e.z),
         (w - e.x) * (c.inheritChannel.frustum.near_plane / e.z),
         (-h - e.y) * (c.inheritChannel.frustum.near_plane / e.z),
         (h - e.y) * (c.inheritChannel.frustum.near_plane / e.z),
         c.inheritChannel.frustum.near_plane, c.inheritChannel.frustum.far_plane⟩) ∧
    (¬ 0 < e.z →
      v._computeFrustumCorners c fd e false =
        ⟨(w - e.x) * (c.inheritChannel.frustum.near_plane / e.z),
         (-w - e.x) * (c.inheritChannel.frustum.near_plane / e.z),
         (h + e.y) * (c.inheritChannel.frustum.near_plane / e.z),
         (-h + e.y) * (c.inheritChannel.frustum.near_plane / e.z),
         c.inheritChannel.frustum.near_plane, c.inheritChannel.frustum.far_plane⟩) := by
  have ew : fd.width * (1 / 2) = w := by rw [hw]; ring
  have eh : fd.height * (1 / 2) = h := by rw [hh]; ring
  constructor
  · intro hz
    rw [computeFrustumCorners_plain v c fd e hpix hvp, if_pos hz, ew, eh]
  · intro hz
    rw [computeFrustumCorners_plain v c fd e hpix hvp, if_neg hz, ew, eh]

/-- Witness of C20: the sample wall compound, half extents 2 and 1 and near
plane 1, with the eye at (1, 0, 2) in front of the wall and at (1, 0, -2)
behind it. -/
theorem computeFrustumCorners_perspective_witness :
    Sample.wallVisitor._computeFrustumCorners Sample.wallCompound
        Sample.wallCompound.inheritFrustumData ⟨1, 0, 2⟩ false =
      ⟨(-2 - 1) * (Sample.wallCompound.inheritChannel.frustum.near_plane / 2),
       (2 - 1) * (Sample.wallCompound.inheritChannel.frustum.near_plane / 2),
       (-1 - 0) * (Sample.wallCompound.inheritChannel.frustum.near_plane / 2),
       (1 - 0) * (Sample.wallCompound.inheritChannel.frustum.near_plane / 2),
       Sample.wallCompound.inheritChannel.frustum.near_plane,
       Sample.wallCompound.inheritChannel.frustum.far_plane⟩ ∧
    Sample.wallVisitor._computeFrustumCorners Sample.wallCompound
        Sample.wallCompound.inheritFrustumData ⟨1, 0, -2⟩ false =
      ⟨(2 - 1) * (Sample.wallCompound.inheritChannel.frustum.near_plane / -2),
       (-2 - 1) * (Sample.wallCompound.inheritChannel.frustum.near_plane / -2),
       (1 + 0) * (Sample.wallCompound.inheritChannel.frustum.near_plane / -2),
       (-1 + 0) * (Sample.wallCompound.inheritChannel.frustum.near_plane / -2),
       Sample.wallCompound.inheritChannel.frustum.near_plane,
       Sample.wallCompound.inheritChannel.frustum.far_plane⟩ :=
  ⟨(computeFrustumCorners_perspective Sample.wallVisitor Sample.wallCompound
      Sample.wallCompound.inheritFrustumData ⟨1, 0, 2⟩ 2 1
      (by norm_num [Sample.wallCompound]) (by norm_num [Sample.wallCompound])
      (by decide) (by decide)).1 (by norm_num),
   (computeFrustumCorners_perspective Sample.wallVisitor Sample.wallCompound
      Sample.wallCompound.inheritFrustumData ⟨1, 0, -2⟩ 2 1
      (by norm_num [Sample.wallCompound]) (by norm_num [Sample.wallCompound])
      (by decide) (by decide)).2 (by norm_num)⟩

end ChannelUpdateVisitor

/-- The frustum corner computation is its three parts in sequence. -/
theorem computeFrustumCorners_stages (v : ChannelUpdateVisitor) (c : Compound)
    (fd : FrustumData) (e : Vector3f) (ortho : Bool) :
    v._computeFrustumCorners c fd e ortho =
      viewportStage v c (pixelStage v c (cornerStage c fd e ortho)) := rfl

/-- The mirror branch for an eye behind the wall gives the corners of the
first branch for the eye mirrored in x and z. -/
theorem cornerStage_mirror (c : Compound) (fd : FrustumData) (x y z : ℚ) (hz : 0 < z) :
    cornerStage c fd ⟨x, y, -z⟩ false = cornerStage c fd ⟨-x, y, z⟩ false := by
  unfold cornerStage
  dsimp only
  have h1 : ¬ (-z > 0 ∨ false = true) := by
    rintro (h | h)
    · linarith
    · cases h
  rw [if_neg h1, if_pos (Or.inl hz)]
  simp only [Bool.false_eq_true, if_false, Frustumf.mk.injEq, and_true, div_neg]
  refine ⟨?_, ?_, ?_, ?_⟩ <;> ring

namespace ChannelUpdateVisitor

/-- C21 (as stated, refuted): for the sample wall, half extents 2 and 1 and
near plane 1, the perspective frustum for the eye (0, 0, 1/2), computed by the
branch for `eye.z > 0`, and the one for the eye (0, 0, -1/2), computed by the
mirror branch, are the same frustum (-4, 4, -2, 2, 1, 100): they are not
distinct. -/
theorem computeFrustumCorners_mirror_not_distinct :
    (0 : ℚ) < 1 / 2 ∧
    Sample.wallCompound.inheritFrustumData.width = 2 * 2 ∧
    Sample.wallCompound.inheritFrustumData.height = 2 * 1 ∧
    Sample.wallCompound.inheritChannel.frustum.near_plane = 1 ∧
    Sample.wallVisitor._computeFrustumCorners Sample.wallCompound
        Sample.wallCompound.inheritFrustumData ⟨0, 0, 1 / 2⟩ false = ⟨-4, 4, -2, 2, 1, 100⟩ ∧
    Sample.wallVisitor._computeFrustumCorners Sample.wallCompound
        Sample.wallCompound.inheritFrustumData ⟨0, 0, -(1 / 2)⟩ false =
      ⟨-4, 4, -2, 2, 1, 100⟩ := by
  refine ⟨by norm_num, by norm_num [Sample.wallCompound], by norm_num [Sample.wallCompound],
    rfl, ?_, ?_⟩
  · rw [computeFrustumCorners_plain _ _ _ _ (by decide) (by decide)]
    norm_num [Sample.wallCompound, Sample.compound, Sample.channel]
  · rw [computeFrustumCorners_plain _ _ _ _ (by decide) (by decide)]
    norm_num [Sample.wallCompound, Sample.compound, Sample.channel]

/-- C21 (amended): for every positive depth z the perspective frustum for the
eye (x, y, -z), computed by the mirror branch, is the frustum for the eye
(-x, y, z), computed by the branch for `eye.z > 0`. So the frusta for
(0, 0, z) and (0, 0, -z) are the same, and with pixel decomposition ALL,
viewport FULL and a wall of width 2w and height 2h they are
(-w n/z, w n/z, -h n/z, h n/z, n, far), n and far being the near and far
plane of the destination channel; the divisor z is not zero. -/
theorem computeFrustumCorners_mirror_eye (v : ChannelUpdateVisitor) (c : Compound)
    (fd : FrustumData) (x y z : ℚ) (hz : 0 < z) :
    v._computeFrustumCorners c fd ⟨x, y, -z⟩ false =
      v._computeFrustumCorners c fd ⟨-x, y, z⟩ false ∧
    v._computeFrustumCorners c fd ⟨0, 0, -z⟩ false =
      v._computeFrustumCorners c fd ⟨0, 0, z⟩ false ∧
    (∀ w h : ℚ, fd.width = 2 * w → fd.height = 2 * h →
      c.inheritPixel = v.lib.pixelALL → c.inheritViewport = v.lib.viewportFULL →
      v._computeFrustumCorners c fd ⟨0, 0, z⟩ false =
        ⟨-w * (c.inheritChannel.frustum.near_plane / z),
         w * (c.inheritChannel.frustum.near_plane / z),
         -h * (c.inheritChannel.frustum.near_plane / z),
         h * (c.inheritChannel.frustum.near_plane / z),
         c.inheritChannel.frustum.near_plane, c.inheritChannel.frustum.far_plane⟩) := by
  refine ⟨?_, ?_, ?_⟩
  · rw [computeFrustumCorners_stages, computeFrustumCorners_stages, cornerStage_mirror c fd x y z hz]
  · rw [computeFrustumCorners_stages, computeFrustumCorners_stages,
      cornerStage_mirror c fd 0 0 z hz, neg_zero]
  · intro w h hw hh hpix hvp
    have ew : fd.width * (1 / 2) = w := by rw [hw]; ring
    have eh : fd.height * (1 / 2) = h := by rw [hh]; ring
    rw [computeFrustumCorners_plain v c fd _ hpix hvp, if_pos hz, ew, eh]
    simp only [sub_zero]

/-- Witness of C21 (amended): the sample wall with the eye at depth 1/2 in
front of and behind the wall. -/
theorem computeFrustumCorners_mirror_eye_witness :
    Sample.wallVisitor._computeFrustumCorners Sample.wallCompound
        Sample.wallCompound.inheritFrustumData ⟨0, 0, -(1 / 2)⟩ false =
      Sample.wallVisitor._computeFrustumCorners Sample.wallCompound
        Sample.wallCompound.inheritFrustumData ⟨0, 0, 1 / 2⟩ false :=
  (computeFrustumCorners_mirror_eye Sample.wallVisitor Sample.wallCompound
    Sample.wallCompound.inheritFrustumData 0 0 (1 / 2) (by norm_num)).2.1

end ChannelUpdateVisitor

theorem computeHeadTransform_array (result M : Matrix4f) (e : Vector3f) (j : Nat)
    (hj : j < 16) :
    (ChannelUpdateVisitor._computeHeadTransform result M e).array j =
      if j % 4 = 3 then M.array j else M.array j - e.at (j % 4) * M.array (j - j % 4 + 3) := by
  interval_cases j <;>
    simp [ChannelUpdateVisitor._computeHeadTransform,
      ChannelUpdateVisitor._computeHeadTransformGroup, Function.update]

theorem setupRenderContext_headTransform (v : ChannelUpdateVisitor) (c : Compound) :
    (v._setupRenderContext c).headTransform =
      if c.inheritFrustumData.type ≠ WallType.TYPE_FIXED then
        v.lib.mulMatrix
          (ChannelUpdateVisitor._computeHeadTransform v.lib.identity
            c.inheritFrustumData.transform
            (v.lib.mulPoint c.inheritFrustumData.transform
              (ChannelUpdateVisitor._getEyePosition c v.eye)))
          (v._getInverseHeadMatrix c)
      else
        ChannelUpdateVisitor._computeHeadTransform v.lib.identity
          c.inheritFrustumData.transform
          (v.lib.mulPoint c.inheritFrustumData.transform
            (ChannelUpdateVisitor._getEyePosition c v.eye)) := rfl

namespace ChannelUpdateVisitor

/-- C23: `_computeHeadTransform( result, M, e )` sets, in each of the four
groups i of four consecutive array elements, `result[4i+k]` to
`M[4i+k] - e[k] M[4i+3]` for k = 0, 1, 2 and `result[4i+3]` to `M[4i+3]`; for
e = 0 the sixteen elements of the result are those of M. For a fixed wall the
perspective head transform of the render context is this result for the
transform of the frustum data and the eye in wall coordinates; for a
head-mounted frustum it is this result multiplied by the inverse head matrix,
which is the one of the observer, and the identity when the destination
channel has no view or the view no observer. -/
theorem computeHeadTransform_rows (v : ChannelUpdateVisitor) (c : Compound)
    (result M : Matrix4f) (e : Vector3f) :
    (∀ i k : Nat, i < 4 → k < 3 →
      (_computeHeadTransform result M e).array (4 * i + k) =
        M.array (4 * i + k) - e.at k * M.array (4 * i + 3)) ∧
    (∀ i : Nat, i < 4 →
      (_computeHeadTransform result M e).array (4 * i + 3) = M.array (4 * i + 3)) ∧
    (∀ j : Nat, j < 16 → (_computeHeadTransform result M Vector3f.ZERO).array j = M.array j) ∧
    (c.inheritFrustumData.type = WallType.TYPE_FIXED →
      (v._setupRenderContext c).headTransform =
        _computeHeadTransform v.lib.identity c.inheritFrustumData.transform
          (v.lib.mulPoint c.inheritFrustumData.transform (_getEyePosition c v.eye))) ∧
    (c.inheritFrustumData.type ≠ WallType.TYPE_FIXED →
      (v._setupRenderContext c).headTransform =
        v.lib.mulMatrix
          (_computeHeadTransform v.lib.identity c.inheritFrustumData.transform
            (v.lib.mulPoint c.inheritFrustumData.transform (_getEyePosition c v.eye)))
          (v._getInverseHeadMatrix c)) ∧
    (∀ (view : ServerView) (o : Observer), c.inheritChannel.view = some view →
      view.observer = some o → v._getInverseHeadMatrix c = o.inverseHeadMatrix) ∧
    (c.inheritChannel.view = none → v._getInverseHeadMatrix c = v.lib.identity) ∧
    (∀ view : ServerView, c.inheritChannel.view = some view → view.observer = none →
      v._getInverseHeadMatrix c = v.lib.identity) := by
  refine ⟨?_, ?_, ?_, ?_, ?_, ?_, ?_, ?_⟩
  · intro i k hi hk
    rw [computeHeadTransform_array result M e _ (by omega)]
    interval_cases i <;> interval_cases k <;> simp
  · intro i hi
    rw [computeHeadTransform_array result M e _ (by omega)]
    interval_cases i <;> simp
  · intro j hj
    rw [computeHeadTransform_array result M _ _ hj]
    split_ifs
    · rfl
    · have h0 : Vector3f.ZERO.at (j % 4) = 0 := by
        unfold Vector3f.at Vector3f.ZERO
        split_ifs <;> rfl
      rw [h0]; ring
  · intro h
    rw [setupRenderContext_headTransform, if_neg (fun hne => hne h)]
  · intro h
    rw [setupRenderContext_headTransform, if_pos h]
  · intro view o hv ho
    simp [_getInverseHeadMatrix, hv, ho]
  · intro hv
    simp [_getInverseHeadMatrix, hv]
  · intro view hv ho
    simp [_getInverseHeadMatrix, hv, ho]

/-- Witness of C23: the sample wall as a fixed wall and as a head-mounted
frustum; the sample channel has no view. -/
theorem computeHeadTransform_rows_witness :
    (Sample.wallVisitor._setupRenderContext Sample.wallCompound).headTransform =
      _computeHeadTransform Sample.wallVisitor.lib.identity
        Sample.wallCompound.inheritFrustumData.transform
        (Sample.wallVisitor.lib.mulPoint Sample.wallCompound.inheritFrustumData.transform
          (_getEyePosition Sample.wallCompound Sample.wallVisitor.eye)) ∧
    (Sample.wallVisitor._setupRenderContext Sample.hmdCompound).headTransform =
      Sample.wallVisitor.lib.mulMatrix
        (_computeHeadTransform Sample.wallVisitor.lib.identity
          Sample.hmdCompound.inheritFrustumData.transform
          (Sample.wallVisitor.lib.mulPoint Sample.hmdCompound.inheritFrustumData.transform
            (_getEyePosition Sample.hmdCompound Sample.wallVisitor.eye)))
        (Sample.wallVisitor._getInverseHeadMatrix Sample.hmdCompound) ∧
    Sample.wallVisitor._getInverseHeadMatrix Sample.hmdCompound =
      Sample.wallVisitor.lib.identity ∧
    (_computeHeadTransform Sample.identity Sample.wallTransform ⟨1, 2, 3⟩).array (4 * 3 + 2) =
      Sample.wallTransform.array (4 * 3 + 2) -
        Vector3f.at ⟨1, 2, 3⟩ 2 * Sample.wallTransform.array (4 * 3 + 3) :=
  ⟨(computeHeadTransform_rows Sample.wallVisitor Sample.wallCompound Sample.identity
      Sample.identity Vector3f.ZERO).2.2.2.1 (by decide),
   (computeHeadTransform_rows Sample.wallVisitor Sample.hmdCompound Sample.identity
      Sample.identity Vector3f.ZERO).2.2.2.2.1 (by decide),
   (computeHeadTransform_rows Sample.wallVisitor Sample.hmdCompound Sample.identity
      Sample.identity Vector3f.ZERO).2.2.2.2.2.2.1 rfl,
   (computeHeadTransform_rows Sample.wallVisitor Sample.wallCompound Sample.identity
      Sample.wallTransform ⟨1, 2, 3⟩).1 3 2 (by decide) (by decide)⟩

end ChannelUpdateVisitor

namespace ChannelUpdateVisitor

/-- C26: `_getEyePosition` returns the observer's position of the eye when the
view of the destination channel has an observer and the inherited frustum type
is FIXED. Otherwise it returns (-b/2, 0, 0) for LEFT, (b/2, 0, 0) for RIGHT
and (0, 0, 0) for CYCLOP, where b is the eye base of the observer if there is
one and the eye base attribute of the config otherwise. -/
theorem getEyePosition_cases (c : Compound) :
    (∀ (view : ServerView) (o : Observer), c.inheritChannel.view = some view →
      view.observer = some o → c.inheritFrustumData.type = WallType.TYPE_FIXED →
      ∀ eye : Eye, _getEyePosition c eye = o.eyePosition.get eye) ∧
    (∀ (view : ServerView) (o : Observer), c.inheritChannel.view = some view →
      view.observer = some o → c.inheritFrustumData.type ≠ WallType.TYPE_FIXED →
      _getEyePosition c Eye.LEFT = ⟨-(o.eyeBase / 2), 0, 0⟩ ∧
      _getEyePosition c Eye.RIGHT = ⟨o.eyeBase / 2, 0, 0⟩ ∧
      _getEyePosition c Eye.CYCLOP = ⟨0, 0, 0⟩) ∧
    ((c.inheritChannel.view = none ∨
        ∃ view : ServerView, c.inheritChannel.view = some view ∧ view.observer = none) →
      _getEyePosition c Eye.LEFT = ⟨-(c.configEyeBase / 2), 0, 0⟩ ∧
      _getEyePosition c Eye.RIGHT = ⟨c.configEyeBase / 2, 0, 0⟩ ∧
      _getEyePosition c Eye.CYCLOP = ⟨0, 0, 0⟩) := by
  refine ⟨?_, ?_, ?_⟩
  · intro view o hv ho ht eye
    simp [_getEyePosition, hv, ho, ht]
  · intro view o hv ho ht
    cases htype : c.inheritFrustumData.type with
    | TYPE_FIXED => exact absurd htype ht
    | TYPE_HMD =>
      refine ⟨?_, ?_, ?_⟩ <;>
        simp [_getEyePosition, hv, ho, htype, Vector3f.ZERO, div_eq_inv_mul]
  · rintro (hv | ⟨view, hv, ho⟩)
    · refine ⟨?_, ?_, ?_⟩ <;>
        simp [_getEyePosition, hv, Vector3f.ZERO, div_eq_inv_mul]
    · refine ⟨?_, ?_, ?_⟩ <;>
        simp [_getEyePosition, hv, ho, Vector3f.ZERO, div_eq_inv_mul]

/-- Witness of C26: the observed sample compound with a fixed wall and with a
head-mounted frustum, and the sample compound, whose channel has no view. -/
theorem getEyePosition_cases_witness :
    (∀ eye : Eye, _getEyePosition Sample.observedCompound eye =
      Sample.observer.eyePosition.get eye) ∧
    _getEyePosition Sample.observedHmdCompound Eye.LEFT = ⟨-(Sample.observer.eyeBase / 2), 0, 0⟩ ∧
    _getEyePosition Sample.wallCompound Eye.RIGHT =
      ⟨Sample.wallCompound.configEyeBase / 2, 0, 0⟩ :=
  ⟨(getEyePosition_cases Sample.observedCompound).1 _ Sample.observer rfl rfl (by decide),
   ((getEyePosition_cases Sample.observedHmdCompound).2.1 _ Sample.observer rfl rfl
      (by decide)).1,
   ((getEyePosition_cases Sample.wallCompound).2.2 (Or.inl rfl)).2.1⟩

end ChannelUpdateVisitor

namespace ChannelUpdateVisitor

/-- C27 (as stated, refuted): the sample source compound is rendered on the
sample channel for another destination channel and is not skipped. The pixel
viewport of its render context has the position (0, 0) of the sample channel,
the offset is the inherited position (100, 50): the offset is not
`(pvp.x, pvp.y)` of the context's pixel viewport. -/
theorem setupRenderContext_offset_source_channel :
    Sample.visitor._skipCompound Sample.sourceCompound = false ∧
    Sample.visitor.channel.addr ≠ Sample.sourceCompound.inheritChannel.addr ∧
    (Sample.visitor._setupRenderContext Sample.sourceCompound).pvp = ⟨0, 0, 400, 300⟩ ∧
    (Sample.visitor._setupRenderContext Sample.sourceCompound).offset = ⟨100, 50⟩ ∧
    (Sample.visitor._setupRenderContext Sample.sourceCompound).offset ≠
      ⟨(Sample.visitor._setupRenderContext Sample.sourceCompound).pvp.x,
       (Sample.visitor._setupRenderContext Sample.sourceCompound).pvp.y⟩ := by
  refine ⟨by decide, by decide, by decide, by decide, by decide⟩

/-- C27 (amended): in the render context built by `_setupRenderContext` the
offset is `(x, y)` of the compound's inherited pixel viewport. The pixel
viewport of the context is the inherited one, with x and y replaced by those
of the visited channel's pixel viewport when the visited channel is not the
destination channel; so the offset is `(pvp.x, pvp.y)` of the context's pixel
viewport when the visited channel is the destination channel. The fields
overdraw, range, pixel, subpixel, zoom, period, phase and task id are the
compound's inherited values, the eye is the visitor's eye and the frame id the
visitor's frame id. -/
theorem setupRenderContext_fields (v : ChannelUpdateVisitor) (c : Compound) :
    (v._setupRenderContext c).offset = ⟨c.inheritPixelViewport.x, c.inheritPixelViewport.y⟩ ∧
    (v._setupRenderContext c).pvp =
      (if v.channel.addr ≠ c.inheritChannel.addr then
        ⟨v.channel.pixelViewport.x, v.channel.pixelViewport.y,
          c.inheritPixelViewport.w, c.inheritPixelViewport.h⟩
       else c.inheritPixelViewport) ∧
    (v.channel.addr = c.inheritChannel.addr →
      (v._setupRenderContext c).offset =
        ⟨(v._setupRenderContext c).pvp.x, (v._setupRenderContext c).pvp.y⟩) ∧
    (v._setupRenderContext c).overdraw = c.inheritOverdraw ∧
    (v._setupRenderContext c).range = c.inheritRange ∧
    (v._setupRenderContext c).pixel = c.inheritPixel ∧
    (v._setupRenderContext c).subpixel = c.inheritSubPixel ∧
    (v._setupRenderContext c).zoom = c.inheritZoom ∧
    (v._setupRenderContext c).period = c.inheritPeriod ∧
    (v._setupRenderContext c).phase = c.inheritPhase ∧
    (v._setupRenderContext c).taskID = c.taskID ∧
    (v._setupRenderContext c).eye = v.eye ∧
    (v._setupRenderContext c).frameID = v.frameID := by
  have hpvp : (v._setupRenderContext c).pvp =
      (if v.channel.addr ≠ c.inheritChannel.addr then
        ⟨v.channel.pixelViewport.x, v.channel.pixelViewport.y,
          c.inheritPixelViewport.w, c.inheritPixelViewport.h⟩
       else c.inheritPixelViewport) := rfl
  refine ⟨rfl, hpvp, ?_, rfl, rfl, rfl, rfl, rfl, rfl, rfl, rfl, rfl, rfl⟩
  intro h
  rw [hpvp, if_neg (fun hne => hne h)]
  rfl

/-- Witness of C27 (amended): the sample compound, whose destination channel
is the sample channel. -/
theorem setupRenderContext_fields_witness :
    (Sample.visitor._setupRenderContext Sample.compound).offset =
      ⟨(Sample.visitor._setupRenderContext Sample.compound).pvp.x,
       (Sample.visitor._setupRenderContext Sample.compound).pvp.y⟩ :=
  (setupRenderContext_fields Sample.visitor Sample.compound).2.2.1 rfl

end ChannelUpdateVisitor

namespace ChannelUpdateVisitor

theorem maxFPS_updateFrameRate (c : Compound) (s : State) :
    (ChannelUpdateVisitor._updateFrameRate c s).maxFPS = min s.maxFPS c.inheritMaxFPS := by
  unfold ChannelUpdateVisitor._updateFrameRate
  dsimp only
  split_ifs with h
  · exact (min_eq_right (le_of_lt h)).symm
  · exact (min_eq_left (not_lt.mp h)).symm

theorem maxFPS_updateDrawFinish (v : ChannelUpdateVisitor) (c : Compound) (s : State) :
    (v._updateDrawFinish c s).maxFPS = s.maxFPS := by
  rw [updateDrawFinish_eq]
  split_ifs <;> rfl

theorem maxFPS_updateViewStart (c : Compound) (context : RenderContext) (s : State) :
    (ChannelUpdateVisitor._updateViewStart c context s).maxFPS = s.maxFPS := by
  unfold ChannelUpdateVisitor._updateViewStart
  split_ifs <;> rfl

theorem maxFPS_updateViewFinish (c : Compound) (context : RenderContext) (s : State) :
    (ChannelUpdateVisitor._updateViewFinish c context s).maxFPS = s.maxFPS := by
  unfold ChannelUpdateVisitor._updateViewFinish
  split_ifs <;> rfl

theorem maxFPS_updateAssemble (v : ChannelUpdateVisitor) (c : Compound)
    (context : RenderContext) (s : State) :
    (v._updateAssemble c context s).maxFPS = s.maxFPS := by
  unfold ChannelUpdateVisitor._updateAssemble
  dsimp only
  split_ifs <;> rfl

theorem maxFPS_updateReadback (v : ChannelUpdateVisitor) (c : Compound)
    (context : RenderContext) (s : State) :
    (v._updateReadback c context s).maxFPS = s.maxFPS := by
  unfold ChannelUpdateVisitor._updateReadback
  dsimp only
  split_ifs
  · rfl
  · rfl
  · rw [transmitFrames_eq]
    rfl

theorem maxFPS_updatePostDraw (v : ChannelUpdateVisitor) (c : Compound)
    (context : RenderContext) (s : State) :
    (v._updatePostDraw c context s).maxFPS = s.maxFPS := by
  unfold ChannelUpdateVisitor._updatePostDraw
  rw [maxFPS_updateViewFinish, maxFPS_updateReadback, maxFPS_updateAssemble]

theorem maxFPS_visitPost (v : ChannelUpdateVisitor) (c : Compound) (s : State) :
    (v.visitPost c s).2.maxFPS = s.maxFPS := by
  unfold ChannelUpdateVisitor.visitPost
  split_ifs
  · rfl
  · exact maxFPS_updatePostDraw v c _ s

theorem maxFPS_visitLeaf (v : ChannelUpdateVisitor) (c : Compound) (s : State) :
    (v.visitLeaf c s).2.maxFPS =
      if v._skipCompound c = false then min s.maxFPS c.inheritMaxFPS else s.maxFPS := by
  unfold ChannelUpdateVisitor.visitLeaf
  by_cases ha : c.isInheritActive v.eye = false
  · have hs : v._skipCompound c = true := by simp [ChannelUpdateVisitor._skipCompound, ha]
    simp [ha, hs]
  · rw [if_neg ha]
    cases hs : v._skipCompound c
    · simp only [Bool.false_eq_true, if_false, if_true]
      rw [maxFPS_updatePostDraw, maxFPS_updateDrawFinish]
      unfold ChannelUpdateVisitor._sendClear
      cases hc : c.testInheritTask TASK_CLEAR <;> cases hd : c.testInheritTask TASK_DRAW <;>
        simp [State.send, maxFPS_updateViewStart, maxFPS_updateFrameRate]
    · simp [maxFPS_updateDrawFinish]

theorem maxFPS_visitPre (v : ChannelUpdateVisitor) (c : Compound) (s : State) :
    (v.visitPre c s).2.maxFPS =
      if v._skipCompound c = false then min s.maxFPS c.inheritMaxFPS else s.maxFPS := by
  unfold ChannelUpdateVisitor.visitPre
  by_cases ha : c.isInheritActive v.eye = false
  · have hs : v._skipCompound c = true := by simp [ChannelUpdateVisitor._skipCompound, ha]
    simp [ha, hs]
  · rw [if_neg ha]
    cases hs : v._skipCompound c
    · simp only [Bool.false_eq_true, if_false, if_true]
      unfold ChannelUpdateVisitor._sendClear
      cases hc : c.testInheritTask TASK_CLEAR <;>
        simp [State.send, maxFPS_updateViewStart, maxFPS_updateFrameRate,
          maxFPS_updateDrawFinish]
    · simp [maxFPS_updateDrawFinish]

theorem maxFPS_runVisit_le (v : ChannelUpdateVisitor) (x : Visit) (s : State) :
    (runVisit v x s).maxFPS ≤ s.maxFPS := by
  cases x with
  | pre c =>
    show (v.visitPre c s).2.maxFPS ≤ s.maxFPS
    rw [maxFPS_visitPre]
    split_ifs
    · exact min_le_left _ _
    · exact le_refl _
  | leaf c =>
    show (v.visitLeaf c s).2.maxFPS ≤ s.maxFPS
    rw [maxFPS_visitLeaf]
    split_ifs
    · exact min_le_left _ _
    · exact le_refl _
  | post c =>
    show (v.visitPost c s).2.maxFPS ≤ s.maxFPS
    rw [maxFPS_visitPost]

end ChannelUpdateVisitor

theorem target_eq_some_compound (x : Visit) (c : Compound) (h : x.target = some c) :
    x.compound = c := by
  cases x <;> simp_all [Visit.target, Visit.compound]

theorem maxFPS_runVisit (v : ChannelUpdateVisitor) (x : Visit) (s : State)
    (hskip : v._skipCompound x.compound = false) :
    (runVisit v x s).maxFPS =
      match x.target with
      | some c => min s.maxFPS c.inheritMaxFPS
      | none => s.maxFPS := by
  cases x with
  | pre c =>
    show (v.visitPre c s).2.maxFPS = _
    have hskip2 : v._skipCompound c = false := hskip
    rw [ChannelUpdateVisitor.maxFPS_visitPre, if_pos hskip2]
    rfl
  | leaf c =>
    show (v.visitLeaf c s).2.maxFPS = _
    have hskip2 : v._skipCompound c = false := hskip
    rw [ChannelUpdateVisitor.maxFPS_visitLeaf, if_pos hskip2]
    rfl
  | post c =>
    show (v.visitPost c s).2.maxFPS = _
    rw [ChannelUpdateVisitor.maxFPS_visitPost]
    rfl

theorem maxFPS_foldl_runVisit (v : ChannelUpdateVisitor) (xs : List Visit) :
    ∀ s : State, (∀ x ∈ xs, v._skipCompound x.compound = false) →
      (xs.foldl (fun s x => runVisit v x s) s).maxFPS =
        (xs.filterMap Visit.target).foldl (fun m c => min m c.inheritMaxFPS) s.maxFPS := by
  induction xs with
  | nil => intro s _; rfl
  | cons x rest ih =>
    intro s h
    rw [List.foldl_cons, ih _ (fun y hy => h y (List.mem_cons_of_mem _ hy)),
      maxFPS_runVisit v x s (h x (List.mem_cons_self _ _))]
    cases ht : x.target with
    | none => simp [List.filterMap_cons, ht]
    | some c => simp [List.filterMap_cons, ht]

theorem foldl_min_maxFPS (l : List Compound) :
    ∀ m0 : ℚ,
      l.foldl (fun m c => min m c.inheritMaxFPS) m0 ≤ m0 ∧
      (∀ c ∈ l, l.foldl (fun m c => min m c.inheritMaxFPS) m0 ≤ c.inheritMaxFPS) ∧
      (l.foldl (fun m c => min m c.inheritMaxFPS) m0 = m0 ∨
        ∃ c ∈ l, l.foldl (fun m c => min m c.inheritMaxFPS) m0 = c.inheritMaxFPS) := by
  induction l with
  | nil => intro m0; simp
  | cons c rest ih =>
    intro m0
    rw [List.foldl_cons]
    obtain ⟨h1, h2, h3⟩ := ih (min m0 c.inheritMaxFPS)
    refine ⟨le_trans h1 (min_le_left _ _), ?_, ?_⟩
    · intro c' hc'
      rcases List.mem_cons.mp hc' with rfl | hc'
      · exact le_trans h1 (min_le_right _ _)
      · exact h2 c' hc'
    · rcases h3 with h3 | ⟨c', hc', h3⟩
      · rcases min_choice m0 c.inheritMaxFPS with hm | hm
        · left; rw [h3, hm]
        · right; exact ⟨c, List.mem_cons_self _ _, by rw [h3, hm]⟩
      · right; exact ⟨c', List.mem_cons_of_mem _ hc', h3⟩

theorem foldl_visitLeaf_eq_runVisit (v : ChannelUpdateVisitor) (cs : List Compound) :
    ∀ s : State, cs.foldl (fun s c => (v.visitLeaf c s).2) s =
      (cs.map Visit.leaf).foldl (fun s x => runVisit v x s) s := by
  induction cs with
  | nil => intro s; rfl
  | cons c rest ih => intro s; simp only [List.foldl_cons, List.map_cons, ih]; rfl

namespace ChannelUpdateVisitor

/-- C28: frame-rate coalescing. After `_updateFrameRate( compound )` the
window's maximum frame rate is the minimum of its previous value and the
compound's inherited maximum frame rate. No visit raises it. After the leaf
visits of a sequence of compounds that are not skipped it is the minimum of
its initial value and their inherited rates, folded in order; and after any
sequence of pre, leaf and post visits of compounds that are not skipped, each
post visit with the pre visit of its compound in the sequence, it is at most
the initial value and every visited compound's inherited rate and is one of
these values. -/
theorem updateFrameRate_min (v : ChannelUpdateVisitor) :
    (∀ (c : Compound) (s : State),
      (_updateFrameRate c s).maxFPS = min s.maxFPS c.inheritMaxFPS) ∧
    (∀ (x : Visit) (s : State), (runVisit v x s).maxFPS ≤ s.maxFPS) ∧
    (∀ (cs : List Compound) (s : State), (∀ c ∈ cs, v._skipCompound c = false) →
      (cs.foldl (fun s c => (v.visitLeaf c s).2) s).maxFPS =
        cs.foldl (fun m c => min m c.inheritMaxFPS) s.maxFPS) ∧
    (∀ (xs : List Visit) (s : State),
      (∀ x ∈ xs, v._skipCompound x.compound = false) →
      (∀ c, Visit.post c ∈ xs → Visit.pre c ∈ xs) →
      (xs.foldl (fun s x => runVisit v x s) s).maxFPS ≤ s.maxFPS ∧
      (∀ x ∈ xs, (xs.foldl (fun s x => runVisit v x s) s).maxFPS ≤
        x.compound.inheritMaxFPS) ∧
      ((xs.foldl (fun s x => runVisit v x s) s).maxFPS = s.maxFPS ∨
        ∃ x ∈ xs, (xs.foldl (fun s x => runVisit v x s) s).maxFPS =
          x.compound.inheritMaxFPS)) := by
  refine ⟨maxFPS_updateFrameRate, maxFPS_runVisit_le v, ?_, ?_⟩
  · intro cs s h
    rw [foldl_visitLeaf_eq_runVisit, maxFPS_foldl_runVisit v _ s (by
      intro x hx
      obtain ⟨c, hc, rfl⟩ := List.mem_map.mp hx
      exact h c hc)]
    congr 1
    induction cs with
    | nil => rfl
    | cons c rest ih =>
      simp only [List.map_cons, List.filterMap_cons, Visit.target]
      rw [ih (fun c hc => h c (List.mem_cons_of_mem _ hc))]
  · intro xs s hskip hpost
    rw [maxFPS_foldl_runVisit v xs s hskip]
    obtain ⟨h1, h2, h3⟩ := foldl_min_maxFPS (xs.filterMap Visit.target) s.maxFPS
    refine ⟨h1, ?_, ?_⟩
    · intro x hx
      cases x with
      | pre c => exact h2 c (List.mem_filterMap.mpr ⟨Visit.pre c, hx, rfl⟩)
      | leaf c => exact h2 c (List.mem_filterMap.mpr ⟨Visit.leaf c, hx, rfl⟩)
      | post c => exact h2 c (List.mem_filterMap.mpr ⟨Visit.pre c, hpost c hx, rfl⟩)
    · rcases h3 with h3 | ⟨c, hc, h3⟩
      · exact Or.inl h3
      · obtain ⟨x, hx, hxt⟩ := List.mem_filterMap.mp hc
        exact Or.inr ⟨x, hx, by rw [target_eq_some_compound x c hxt]; exact h3⟩

/-- Witness of C28: the leaf visits of the sample compound, limited to 60
frames per second, and of the slow sample compound, limited to 30, starting
from a window limit of 60. -/
theorem updateFrameRate_min_witness :
    ([Sample.compound, Sample.slowCompound].foldl
        (fun s c => (Sample.visitor.visitLeaf c s).2) (State.frameStart 60)).maxFPS =
      [Sample.compound, Sample.slowCompound].foldl (fun m c => min m c.inheritMaxFPS)
        (State.frameStart 60).maxFPS :=
  (updateFrameRate_min Sample.visitor).2.2.1 [Sample.compound, Sample.slowCompound]
    (State.frameStart 60)
    (by
      intro c hc
      simp only [List.mem_cons, List.mem_singleton, List.not_mem_nil, or_false] at hc
      rcases hc with rfl | rfl <;> decide)

end ChannelUpdateVisitor

namespace ChannelUpdateVisitor

theorem updateReadback_of_no_data (v : ChannelUpdateVisitor) (c : Compound)
    (context : RenderContext) (s : State)
    (h : c.testInheritTask TASK_READBACK = false ∨
      ∀ f ∈ c.outputFrames, f.hasData.get v.eye = false) :
    v._updateReadback c context s = s := by
  unfold _updateReadback
  by_cases ht : c.testInheritTask TASK_READBACK = false
  · rw [if_pos ht]
  · rw [if_neg ht]
    rcases h with h | h
    · exact absurd h ht
    · have hnil : c.outputFrames.filter (fun f => f.hasData.get v.eye) = [] := by
        rw [List.filter_eq_nil_iff]
        intro f hf
        simp [h f hf]
      simp only [collect_readback_frames, List.nil_append, hnil, List.isEmpty_nil, if_true]

theorem updateAssemble_of_no_data (v : ChannelUpdateVisitor) (c : Compound)
    (context : RenderContext) (s : State)
    (h : c.testInheritTask TASK_ASSEMBLE = false ∨
      ∀ f ∈ c.inputFrames, f.hasData.get v.eye = false) :
    v._updateAssemble c context s = s := by
  unfold _updateAssemble
  by_cases ht : c.testInheritTask TASK_ASSEMBLE = false
  · rw [if_pos ht]
  · rw [if_neg ht]
    rcases h with h | h
    · exact absurd h ht
    · have hnil : c.inputFrames.filter (fun f => f.hasData.get v.eye) = [] := by
        rw [List.filter_eq_nil_iff]
        intro f hf
        simp [h f hf]
      simp only [collect_assemble_frames, List.nil_append, hnil, List.map_nil,
        List.isEmpty_nil, if_true]

theorem filter_ne_nil_of_data (eye : Eye) (frames : List Frame)
    (h : ∃ f ∈ frames, f.hasData.get eye = true) :
    frames.filter (fun f => f.hasData.get eye) ≠ [] := by
  obtain ⟨f, hf, hd⟩ := h
  intro hnil
  have : f ∈ frames.filter (fun f => f.hasData.get eye) := List.mem_filter.mpr ⟨hf, hd⟩
  rw [hnil] at this
  cases this

end ChannelUpdateVisitor

namespace ChannelUpdateVisitor

/-- C29: readback planning. `_updateReadback` changes nothing when the
inherited tasks lack READBACK or when no output frame of the compound has data
for the visitor's eye: no readback and no transmit packet is sent. Otherwise
it sends one `ChannelFrameReadback`, followed by transmit packets only, whose
frame list is the object versions of the output frames with data for that eye
in output-frame order; `nFrames` is the 32-bit value of the list length, the
length itself below 2^32. -/
theorem updateReadback_plan (v : ChannelUpdateVisitor) (c : Compound)
    (context : RenderContext) (s : State) :
    (c.testInheritTask TASK_READBACK = false → v._updateReadback c context s = s) ∧
    ((∀ f ∈ c.outputFrames, f.hasData.get v.eye = false) →
      v._updateReadback c context s = s) ∧
    (c.testInheritTask TASK_READBACK = true →
      (∃ f ∈ c.outputFrames, f.hasData.get v.eye = true) →
      ∃ (n : Nat) (transmits : List Packet),
        (v._updateReadback c context s).sent =
          s.sent ++ Packet.ChannelFrameReadback context n
            ((c.outputFrames.filter (fun f => f.hasData.get v.eye)).map
              (fun f => f.objectVersion)) :: transmits ∧
        n = ((c.outputFrames.filter (fun f => f.hasData.get v.eye)).map
          (fun f => f.objectVersion)).length % 4294967296 ∧
        (((c.outputFrames.filter (fun f => f.hasData.get v.eye)).map
            (fun f => f.objectVersion)).length < 4294967296 →
          n = ((c.outputFrames.filter (fun f => f.hasData.get v.eye)).map
            (fun f => f.objectVersion)).length) ∧
        ∀ p ∈ transmits, p.isTransmit = true ∧ p.isReadback = false) := by
  refine ⟨fun h => updateReadback_of_no_data v c context s (Or.inl h),
    fun h => updateReadback_of_no_data v c context s (Or.inr h), ?_⟩
  intro ht hd
  have hne := filter_ne_nil_of_data v.eye c.outputFrames hd
  refine ⟨_, transmitPackets v context v.channel.node.netNodeID (c.readbackFrames v.eye),
    ?_, rfl, ?_, ?_⟩
  · rw [(sent_updateReadback v c context s).1]
    unfold readbackPackets Compound.readbackFrames
    rw [if_pos ⟨ht, hne⟩, List.length_map]
  · intro h
    exact Nat.mod_eq_of_lt h
  · intro p hp
    have h := transmitPackets_isTransmit v context _ _ p hp
    refine ⟨h, ?_⟩
    cases p <;> simp_all [Packet.isTransmit, Packet.isReadback]

/-- Witness of C29: the sample readback compound, both of whose output frames
have data for the cyclop eye. -/
theorem updateReadback_plan_witness :
    ∃ (n : Nat) (transmits : List Packet),
      (Sample.visitor._updateReadback Sample.readbackCompound
          (Sample.visitor._setupRenderContext Sample.readbackCompound)
          (State.frameStart 60)).sent =
        (State.frameStart 60).sent ++
          Packet.ChannelFrameReadback
            (Sample.visitor._setupRenderContext Sample.readbackCompound) n
            ((Sample.readbackCompound.outputFrames.filter
              (fun f => f.hasData.get Sample.visitor.eye)).map
                (fun f => f.objectVersion)) :: transmits ∧
      n = ((Sample.readbackCompound.outputFrames.filter
        (fun f => f.hasData.get Sample.visitor.eye)).map
          (fun f => f.objectVersion)).length % 4294967296 ∧
      (((Sample.readbackCompound.outputFrames.filter
          (fun f => f.hasData.get Sample.visitor.eye)).map
            (fun f => f.objectVersion)).length < 4294967296 →
        n = ((Sample.readbackCompound.outputFrames.filter
          (fun f => f.hasData.get Sample.visitor.eye)).map
            (fun f => f.objectVersion)).length) ∧
      ∀ p ∈ transmits, p.isTransmit = true ∧ p.isReadback = false :=
  (updateReadback_plan Sample.visitor Sample.readbackCompound
    (Sample.visitor._setupRenderContext Sample.readbackCompound) (State.frameStart 60)).2.2
    (by decide) (by decide)

/-- C30: assemble planning. `_updateAssemble` changes nothing when the
inherited tasks lack ASSEMBLE or when no input frame has data for the
visitor's eye. Otherwise it sends exactly one `ChannelFrameAssemble` whose
frame list is the object versions of the input frames with data for that eye
in input-frame order; `nFrames` is the 32-bit value of the list length, the
length itself below 2^32. -/
theorem updateAssemble_plan (v : ChannelUpdateVisitor) (c : Compound)
    (context : RenderContext) (s : State) :
    (c.testInheritTask TASK_ASSEMBLE = false → v._updateAssemble c context s = s) ∧
    ((∀ f ∈ c.inputFrames, f.hasData.get v.eye = false) →
      v._updateAssemble c context s = s) ∧
    (c.testInheritTask TASK_ASSEMBLE = true →
      (∃ f ∈ c.inputFrames, f.hasData.get v.eye = true) →
      ∃ n : Nat,
        (v._updateAssemble c context s).sent =
          s.sent ++ [Packet.ChannelFrameAssemble context n
            ((c.inputFrames.filter (fun f => f.hasData.get v.eye)).map
              (fun f => f.objectVersion))] ∧
        n = ((c.inputFrames.filter (fun f => f.hasData.get v.eye)).map
          (fun f => f.objectVersion)).length % 4294967296 ∧
        (((c.inputFrames.filter (fun f => f.hasData.get v.eye)).map
            (fun f => f.objectVersion)).length < 4294967296 →
          n = ((c.inputFrames.filter (fun f => f.hasData.get v.eye)).map
            (fun f => f.objectVersion)).length)) := by
  refine ⟨fun h => updateAssemble_of_no_data v c context s (Or.inl h),
    fun h => updateAssemble_of_no_data v c context s (Or.inr h), ?_⟩
  intro ht hd
  have hne := filter_ne_nil_of_data v.eye c.inputFrames hd
  refine ⟨_, ?_, rfl, fun h => Nat.mod_eq_of_lt h⟩
  rw [(sent_updateAssemble v c context s).1]
  unfold assemblePackets Compound.assembleFrames
  rw [if_pos ⟨ht, hne⟩, List.length_map]

/-- Witness of C30: the sample assemble compound in the cyclop pass; its
first and third input frame have data for the cyclop eye. -/
theorem updateAssemble_plan_witness :
    ∃ n : Nat,
      (Sample.visitor._updateAssemble Sample.assembleCompound
          (Sample.visitor._setupRenderContext Sample.assembleCompound)
          (State.frameStart 60)).sent =
        (State.frameStart 60).sent ++
          [Packet.ChannelFrameAssemble
            (Sample.visitor._setupRenderContext Sample.assembleCompound) n
            ((Sample.assembleCompound.inputFrames.filter
              (fun f => f.hasData.get Sample.visitor.eye)).map
                (fun f => f.objectVersion))] ∧
      n = ((Sample.assembleCompound.inputFrames.filter
        (fun f => f.hasData.get Sample.visitor.eye)).map
          (fun f => f.objectVersion)).length % 4294967296 ∧
      (((Sample.assembleCompound.inputFrames.filter
          (fun f => f.hasData.get Sample.visitor.eye)).map
            (fun f => f.objectVersion)).length < 4294967296 →
        n = ((Sample.assembleCompound.inputFrames.filter
          (fun f => f.hasData.get Sample.visitor.eye)).map
            (fun f => f.objectVersion)).length) :=
  (updateAssemble_plan Sample.visitor Sample.assembleCompound
    (Sample.visitor._setupRenderContext Sample.assembleCompound) (State.frameStart 60)).2.2
    (by decide) (by decide)

end ChannelUpdateVisitor

namespace Texture

/-- C31 (code defect): the arms of the switch in `Texture::writeTexture` have
no `break`, so every format ends in the `default` arm: the selected pixel
type is GL_UNSIGNED_BYTE for every format, also for GL_RGBA32F and
GL_RGBA16F, where the table gives GL_FLOAT and GL_HALF_FLOAT. The switch of
`Texture::setFormat` in the same file ends every arm with `break` and selects
GL_FLOAT and GL_HALF_FLOAT for these formats. -/
theorem writeTexture_type_falls_through :
    (∀ format : Nat, writeTextureType format = some GL_UNSIGNED_BYTE) ∧
    writeTextureType GL_RGBA32F ≠ some GL_FLOAT ∧
    writeTextureType GL_RGBA16F ≠ some GL_HALF_FLOAT ∧
    (∀ (t : Formats) (textureInteger : Bool), t._internalFormat ≠ GL_RGBA32F →
      (setFormat t textureInteger GL_RGBA32F)._type = GL_FLOAT) ∧
    (∀ (t : Formats) (textureInteger : Bool), t._internalFormat ≠ GL_RGBA16F →
      (setFormat t textureInteger GL_RGBA16F)._type = GL_HALF_FLOAT) := by
  refine ⟨?_, by decide, by decide, ?_, ?_⟩
  · intro format
    unfold writeTextureType writeTextureFloat writeTextureHalfFloat writeTextureDefault
    dsimp only
    split_ifs <;> rfl
  · intro t ti h
    unfold setFormat
    rw [if_neg h]
    simp [GL_RGBA32F, GL_DEPTH_COMPONENT, GL_RGBA8, GL_RGBA16, GL_BGRA, GL_RGBA16F]
  · intro t ti h
    unfold setFormat
    rw [if_neg h]
    simp [GL_RGBA16F, GL_DEPTH_COMPONENT, GL_RGBA8, GL_RGBA16, GL_BGRA]

/-- Witness of C31: a texture without format is given the format
GL_RGBA32F. -/
theorem writeTexture_type_falls_through_witness :
    (setFormat ⟨0, 0, 0, false⟩ false GL_RGBA32F)._type = GL_FLOAT :=
  writeTexture_type_falls_through.2.2.2.1 ⟨0, 0, 0, false⟩ false (by decide)

theorem and_pred_eq_zero_iff (n : Nat) (hn : 0 < n) :
    n &&& (n - 1) = 0 ↔ ∃ a, n = 2 ^ a := by
  constructor
  · induction n using Nat.strong_induction_on with
    | _ n ih =>
      intro h
      by_cases h1 : n = 1
      · exact ⟨0, by simp [h1]⟩
      · have hdiv : (n &&& (n - 1)) / 2 = 0 := by rw [h]
        rw [Nat.and_div_two] at hdiv
        rcases Nat.mod_two_eq_zero_or_one n with hpar | hpar
        · have e : (n - 1) / 2 = n / 2 - 1 := by omega
          rw [e] at hdiv
          obtain ⟨a, ha⟩ := ih (n / 2) (by omega) (by omega) hdiv
          refine ⟨a + 1, ?_⟩
          rw [pow_succ, ← ha]
          omega
        · have e : (n - 1) / 2 = n / 2 := by omega
          rw [e, Nat.and_self] at hdiv
          omega
  · rintro ⟨a, rfl⟩
    rw [Nat.and_pow_two_sub_one_eq_mod, Nat.mod_self]

theorem two_pow_lt_iff (a : Nat) : 2 ^ a < 4294967296 ↔ a < 32 := by
  have e : (4294967296 : Nat) = 2 ^ 32 := by norm_num
  rw [e]
  exact Nat.pow_lt_pow_iff_right (by norm_num)

theorem pot_test_iff (n : Nat) (hn : n < 4294967296) :
    (decide (n > 0) && (n &&& ((n + 4294967295) % 4294967296) == 0)) = true ↔
      ∃ a, a < 32 ∧ n = 2 ^ a := by
  by_cases h0 : n = 0
  · subst h0
    simp only [gt_iff_lt, lt_self_iff_false, decide_False, Bool.false_and, Bool.false_eq_true,
      false_iff]
    rintro ⟨a, -, h⟩
    exact absurd h.symm (by positivity)
  · have hpos : 0 < n := Nat.pos_of_ne_zero h0
    have e : (n + 4294967295) % 4294967296 = n - 1 := by omega
    rw [e]
    simp only [gt_iff_lt, hpos, decide_True, Bool.true_and, beq_iff_eq]
    rw [and_pred_eq_zero_iff n hpos]
    constructor
    · rintro ⟨a, rfl⟩
      exact ⟨a, (two_pow_lt_iff a).mp hn, rfl⟩
    · rintro ⟨a, -, h⟩
      exact ⟨a, h⟩

end Texture

namespace Texture

/-- C36: for 32-bit values `Texture::_isDimPOT( width, height )` is true if
and only if both are powers of two, that is `width = 2^a` and `height = 2^b`
for some a, b in 0..31; it is false whenever width or height is 0. -/
theorem isDimPOT_iff (width height : Nat) (hw : width < 4294967296)
    (hh : height < 4294967296) :
    (_isDimPOT width height = true ↔
      ∃ a b, a < 32 ∧ b < 32 ∧ width = 2 ^ a ∧ height = 2 ^ b) ∧
    (width = 0 ∨ height = 0 → _isDimPOT width height = false) := by
  have key : _isDimPOT width height = true ↔
      ∃ a b, a < 32 ∧ b < 32 ∧ width = 2 ^ a ∧ height = 2 ^ b := by
    have e : _isDimPOT width height = true ↔
        (decide (width > 0) && (width &&& ((width + 4294967295) % 4294967296) == 0)) = true ∧
        (decide (height > 0) && (height &&& ((height + 4294967295) % 4294967296) == 0)) =
          true := by
      unfold _isDimPOT
      simp only [Bool.and_eq_true]
      tauto
    rw [e, pot_test_iff width hw, pot_test_iff height hh]
    constructor
    · rintro ⟨⟨a, ha, h1⟩, ⟨b, hb, h2⟩⟩
      exact ⟨a, b, ha, hb, h1, h2⟩
    · rintro ⟨a, b, ha, hb, h1, h2⟩
      exact ⟨⟨a, ha, h1⟩, ⟨b, hb, h2⟩⟩
  refine ⟨key, ?_⟩
  intro h0
  cases hres : _isDimPOT width height
  · rfl
  · obtain ⟨a, b, -, -, h1, h2⟩ := key.mp hres
    rcases h0 with h0 | h0
    · rw [h0] at h1
      exact absurd h1.symm (by positivity)
    · rw [h0] at h2
      exact absurd h2.symm (by positivity)

/-- Witness of C36: 256 by 64 is accepted, as 2^8 by 2^6. -/
theorem isDimPOT_iff_witness :
    _isDimPOT 256 64 = true ↔ ∃ a b, a < 32 ∧ b < 32 ∧ 256 = 2 ^ a ∧ 64 = 2 ^ b :=
  (isDimPOT_iff 256 64 (by decide) (by decide)).1

end Texture

namespace DFRLoadBalancer

theorem EQ_MIN_eq_min (a b : ℚ) : EQ_MIN a b = min a b := by
  unfold EQ_MIN
  split_ifs with h
  · exact (min_eq_left (le_of_lt h)).symm
  · exact (min_eq_right (not_lt.mp h)).symm

theorem EQ_MAX_eq_max (a b : ℚ) : EQ_MAX a b = max a b := by
  unfold EQ_MAX
  split_ifs with h
  · exact (max_eq_left (le_of_lt h)).symm
  · exact (max_eq_right (not_lt.mp h)).symm

theorem update_of_ready (lib : Lib) (lb : DFR) (frameNumber : Nat)
    (pvp channelPVP : PixelViewport)
    (hfrozen : lb.isFrozen = false) (hready : lb._newValueReady = true)
    (hparent : lb.parentPVP = some pvp) (hchannel : lb.channelPVP = some channelPVP) :
    update lib lb frameNumber =
      some { lb with
        _newValueReady := false
        zoom :=
          ⟨min (max (lb.zoom.x *
                ((lib.sqrtf (lb._fpsLastFrame / lb.frameRate) - 1) * lb.damping + 1))
              (128 / min (pvp.h : ℚ) (pvp.w : ℚ)))
            (min ((channelPVP.w : ℚ) / (pvp.w : ℚ)) ((channelPVP.h : ℚ) / (pvp.h : ℚ))),
           min (max (lb.zoom.x *
                ((lib.sqrtf (lb._fpsLastFrame / lb.frameRate) - 1) * lb.damping + 1))
              (128 / min (pvp.h : ℚ) (pvp.w : ℚ)))
            (min ((channelPVP.w : ℚ) / (pvp.w : ℚ)) ((channelPVP.h : ℚ) / (pvp.h : ℚ)))⟩ } := by
  unfold update
  simp only [hfrozen, hready, hparent, hchannel, Bool.false_eq_true, if_false, Bool.not_true,
    EQ_MIN_eq_min, EQ_MAX_eq_max]

end DFRLoadBalancer

namespace DFRLoadBalancer

/-- C32 (as stated, refuted): the channel and the parent compound are both
100 by 100 pixels, the load balancer is not frozen and a new value is ready.
The lower bound 128 / min( 100, 100 ) is 1.28, the upper bound
min( 100 / 100, 100 / 100 ) is 1; the zoom set on the compound is (1, 1),
below the lower bound. -/
theorem update_zoom_below_min :
    smallChannel.isFrozen = false ∧ smallChannel._newValueReady = true ∧
    smallChannel.parentPVP = some ⟨0, 0, 100, 100⟩ ∧
    smallChannel.channelPVP = some ⟨0, 0, 100, 100⟩ ∧
    (update sampleLib smallChannel 1).map (fun lb => lb.zoom) = some ⟨1, 1⟩ ∧
    (1 : ℚ) < 128 / min (((100 : Int) : ℚ)) (((100 : Int) : ℚ)) := by
  refine ⟨rfl, rfl, rfl, rfl, ?_, by norm_num⟩
  rw [update_of_ready sampleLib smallChannel 1 ⟨0, 0, 100, 100⟩ ⟨0, 0, 100, 100⟩ rfl rfl rfl rfl]
  norm_num [smallChannel, sampleLib, sampleSqrt]

/-- C32 (amended): when `update` computes a new zoom (the load balancer is
not frozen and a new value is ready), the zoom set on the compound has
`zoom.x = min( max( z, minZoom ), maxZoom )` and `zoom.y = zoom.x`, where z is
the previous `zoom.x` times the adaptation factor,
`minZoom = 128 / min( pvp.h, pvp.w )` and
`maxZoom = min( channelPVP.w / pvp.w, channelPVP.h / pvp.h )` for the
inherited pixel viewport pvp of the parent compound. So `zoom.x <= maxZoom`
always; `zoom.x >= minZoom` when `minZoom <= maxZoom`, and `zoom.x = maxZoom`
otherwise. -/
theorem update_zoom_clip (lib : Lib) (lb : DFR) (frameNumber : Nat)
    (pvp channelPVP : PixelViewport)
    (hfrozen : lb.isFrozen = false) (hready : lb._newValueReady = true)
    (hparent : lb.parentPVP = some pvp) (hchannel : lb.channelPVP = some channelPVP) :
    ∃ lb' : DFR, update lib lb frameNumber = some lb' ∧
      lb'.zoom.x =
        min (max (lb.zoom.x *
              ((lib.sqrtf (lb._fpsLastFrame / lb.frameRate) - 1) * lb.damping + 1))
            (128 / min (pvp.h : ℚ) (pvp.w : ℚ)))
          (min ((channelPVP.w : ℚ) / (pvp.w : ℚ)) ((channelPVP.h : ℚ) / (pvp.h : ℚ))) ∧
      lb'.zoom.y = lb'.zoom.x ∧
      lb'.zoom.x ≤ min ((channelPVP.w : ℚ) / (pvp.w : ℚ)) ((channelPVP.h : ℚ) / (pvp.h : ℚ)) ∧
      (128 / min (pvp.h : ℚ) (pvp.w : ℚ) ≤
          min ((channelPVP.w : ℚ) / (pvp.w : ℚ)) ((channelPVP.h : ℚ) / (pvp.h : ℚ)) →
        128 / min (pvp.h : ℚ) (pvp.w : ℚ) ≤ lb'.zoom.x) ∧
      (min ((channelPVP.w : ℚ) / (pvp.w : ℚ)) ((channelPVP.h : ℚ) / (pvp.h : ℚ)) <
          128 / min (pvp.h : ℚ) (pvp.w : ℚ) →
        lb'.zoom.x =
          min ((channelPVP.w : ℚ) / (pvp.w : ℚ)) ((channelPVP.h : ℚ) / (pvp.h : ℚ))) ∧
      lb'._newValueReady = false := by
  refine ⟨_, update_of_ready lib lb frameNumber pvp channelPVP hfrozen hready hparent hchannel,
    rfl, rfl, min_le_right _ _, ?_, ?_, rfl⟩
  · intro h
    exact le_min (le_max_right _ _) h
  · intro h
    exact min_eq_right (le_trans (le_of_lt h) (le_max_right _ _))

/-- Witness of C32 (amended): a channel of 1024 by 768 pixels and a parent
compound of 512 by 256 pixels, with the bounds 0.5 and 2. -/
theorem update_zoom_clip_witness :
    ∃ lb' : DFR, update sampleLib largeChannel 1 = some lb' ∧
      lb'.zoom.x =
        min (max (largeChannel.zoom.x *
              ((sampleLib.sqrtf (largeChannel._fpsLastFrame / largeChannel.frameRate) - 1) *
                largeChannel.damping + 1))
            (128 / min (((256 : Int) : ℚ)) (((512 : Int) : ℚ))))
          (min ((((1024 : Int) : ℚ)) / (((512 : Int) : ℚ)))
            ((((768 : Int) : ℚ)) / (((256 : Int) : ℚ)))) ∧
      lb'.zoom.y = lb'.zoom.x ∧
      lb'.zoom.x ≤ min ((((1024 : Int) : ℚ)) / (((512 : Int) : ℚ)))
        ((((768 : Int) : ℚ)) / (((256 : Int) : ℚ))) ∧
      (128 / min (((256 : Int) : ℚ)) (((512 : Int) : ℚ)) ≤
          min ((((1024 : Int) : ℚ)) / (((512 : Int) : ℚ)))
            ((((768 : Int) : ℚ)) / (((256 : Int) : ℚ))) →
        128 / min (((256 : Int) : ℚ)) (((512 : Int) : ℚ)) ≤ lb'.zoom.x) ∧
      (min ((((1024 : Int) : ℚ)) / (((512 : Int) : ℚ)))
            ((((768 : Int) : ℚ)) / (((256 : Int) : ℚ))) <
          128 / min (((256 : Int) : ℚ)) (((512 : Int) : ℚ)) →
        lb'.zoom.x =
          min ((((1024 : Int) : ℚ)) / (((512 : Int) : ℚ)))
            ((((768 : Int) : ℚ)) / (((256 : Int) : ℚ)))) ∧
      lb'._newValueReady = false :=
  update_zoom_clip sampleLib largeChannel 1 ⟨0, 0, 512, 256⟩ ⟨0, 0, 1024, 768⟩ rfl rfl rfl rfl

end DFRLoadBalancer

namespace DataIStream

theorem elements_append (w : Nat) :
    ∀ (n : Nat) (l1 l2 : List Nat), n * w ≤ l1.length →
      elements w n (l1 ++ l2) = elements w n l1 := by
  intro n
  induction n with
  | zero => intro l1 l2 _; rfl
  | succ n ih =>
    intro l1 l2 h
    have hw : w ≤ l1.length := by
      have : w ≤ (n + 1) * w := Nat.le_mul_of_pos_left w (Nat.succ_pos n)
      omega
    have hrest : n * w ≤ (l1.drop w).length := by
      rw [List.length_drop, Nat.succ_mul] at *
      omega
    simp only [elements]
    rw [List.take_append_of_le_length hw, List.drop_append_of_le_length hw, ih _ _ hrest]

theorem length_elements (w : Nat) :
    ∀ (n : Nat) (l : List Nat), (elements w n l).length = n := by
  intro n
  induction n with
  | zero => intro l; rfl
  | succ n ih => intro l; simp [elements, ih]

theorem readElements_eq (w : Nat) :
    ∀ (n : Nat) (is : List Nat),
      readElements w n is =
        if is.length < n * w then none else some (elements w n is, is.drop (n * w)) := by
  intro n
  induction n with
  | zero => intro is; simp [readElements, elements]
  | succ n ih =>
    intro is
    rw [readElements, readPlain, read]
    by_cases hw : is.length < w
    · have h2 : is.length < (n + 1) * w := by
        have : w ≤ (n + 1) * w := Nat.le_mul_of_pos_left w (Nat.succ_pos n)
        omega
      simp [hw, h2]
    · rw [if_neg hw]
      simp only
      rw [ih]
      by_cases h2 : is.length < (n + 1) * w
      · have h3 : (is.drop w).length < n * w := by
          rw [List.length_drop, Nat.succ_mul] at *
          omega
        rw [if_pos h3, if_pos h2]
      · have h3 : ¬ (is.drop w).length < n * w := by
          rw [List.length_drop, Nat.succ_mul] at *
          omega
        rw [if_neg h3, if_neg h2]
        simp only [elements, List.drop_drop, Option.some.injEq, Prod.mk.injEq, true_and]
        congr 1
        rw [Nat.succ_mul]
        omega

theorem readU64_length (is : List Nat) (n : Nat) (rest : List Nat)
    (h : Stream.readU64 is = some (n, rest)) : is.length = 8 + rest.length := by
  match is, h with
  | b0 :: b1 :: b2 :: b3 :: b4 :: b5 :: b6 :: b7 :: tail, h =>
    simp only [Stream.readU64, Option.some.injEq, Prod.mk.injEq] at h
    obtain ⟨-, rfl⟩ := h
    simp only [List.length_cons]
    omega

theorem readFlatVector_of_count (w : Nat) (is : List Nat) (n : Nat) (rest : List Nat)
    (hcount : Stream.readU64 is = some (n, rest)) (hfit : n * w < 18446744073709551616) :
    _readFlatVector w is =
      if rest.length < n * w then none else some (elements w n rest, rest.drop (n * w)) := by
  unfold _readFlatVector
  rw [hcount]
  simp only
  rw [Nat.mod_eq_of_lt hfit]
  by_cases h0 : n > 0
  · rw [if_pos h0, read]
    by_cases hl : rest.length < n * w
    · simp [hl]
    · rw [if_neg hl, if_neg hl]
      simp only
      have hlen : (rest.take (n * w)).length = n * w := by
        rw [List.length_take]
        omega
      rw [hlen, List.drop_eq_nil_of_le (by simp), List.append_nil]
      have h1 := elements_append w n (rest.take (n * w)) (rest.drop (n * w)) (by omega)
      rw [List.take_append_drop] at h1
      rw [h1]
  · have hn : n = 0 := by omega
    subst hn
    simp [elements]

end DataIStream

namespace DataIStream

/-- C34: for items of `width` bytes the flat reader `_readFlatVector` (the
count, then one read of count times width bytes) and the generic vector reader
(the count, then count reads of width bytes) have the same result on every
stream whose byte count `count * width` is a 64-bit value: the same vector
and the same remaining stream, or both none when the stream is too short. On
a well-formed stream, the count followed by at least count times width bytes,
the vector has count elements and 8 + count * width bytes are consumed; the
count 0 gives the empty vector and consumes exactly 8 bytes. -/
theorem readFlatVector_refines (width : Nat) (is : List Nat)
    (hfit : ∀ n rest, Stream.readU64 is = some (n, rest) →
      n * width < 18446744073709551616) :
    _readFlatVector width is = readVector width is ∧
    (∀ n rest, Stream.readU64 is = some (n, rest) → n * width ≤ rest.length →
      _readFlatVector width is = some (elements width n rest, rest.drop (n * width)) ∧
      readVector width is = some (elements width n rest, rest.drop (n * width)) ∧
      (elements width n rest).length = n ∧
      is.length = 8 + n * width + (rest.drop (n * width)).length) ∧
    (∀ rest, Stream.readU64 is = some (0, rest) →
      _readFlatVector width is = some ([], rest) ∧
      readVector width is = some ([], rest) ∧
      is.length = 8 + rest.length) := by
  have hgen : ∀ n rest, Stream.readU64 is = some (n, rest) →
      readVector width is =
        if rest.length < n * width then none
        else some (elements width n rest, rest.drop (n * width)) := by
    intro n rest h
    unfold readVector
    rw [h]
    exact readElements_eq width n rest
  refine ⟨?_, ?_, ?_⟩
  · cases h : Stream.readU64 is with
    | none => simp [_readFlatVector, readVector, h]
    | some p =>
      obtain ⟨n, rest⟩ := p
      rw [readFlatVector_of_count width is n rest h (hfit n rest h), hgen n rest h]
  · intro n rest h hlen
    have hnot : ¬ rest.length < n * width := by omega
    refine ⟨?_, ?_, length_elements width n rest, ?_⟩
    · rw [readFlatVector_of_count width is n rest h (hfit n rest h), if_neg hnot]
    · rw [hgen n rest h, if_neg hnot]
    · rw [readU64_length is n rest h, List.length_drop]
      omega
  · intro rest h
    refine ⟨?_, ?_, readU64_length is 0 rest h⟩
    · rw [readFlatVector_of_count width is 0 rest h (hfit 0 rest h)]
      simp [elements]
    · rw [hgen 0 rest h]
      simp [elements]

/-- Witness of C34: a stream with the count 2, two items of two bytes and one
more byte. -/
theorem readFlatVector_refines_witness :
    _readFlatVector 2 [2, 0, 0, 0, 0, 0, 0, 0, 1, 2, 3, 4, 9] =
      readVector 2 [2, 0, 0, 0, 0, 0, 0, 0, 1, 2, 3, 4, 9] :=
  (readFlatVector_refines 2 [2, 0, 0, 0, 0, 0, 0, 0, 1, 2, 3, 4, 9] (by
    intro n rest h
    simp only [Stream.readU64, Option.some.injEq, Prod.mk.injEq] at h
    obtain ⟨rfl, -⟩ := h
    decide)).1

end DataIStream

theorem firstPerNode_filter (a : Nat) (l : List InputFrame) :
    firstPerNode (l.filter (fun x => x.node.netNodeID != a)) =
      (firstPerNode l).filter (fun x => x.node.netNodeID != a) := by
  induction l with
  | nil => rfl
  | cons j rest ih =>
    by_cases hj : j.node.netNodeID = a
    · rw [List.filter_cons_of_neg (by simp [hj]), ih, firstPerNode,
        List.filter_cons_of_neg (by simp [hj]), List.filter_filter]
      apply List.filter_congr
      intro x _
      by_cases hx : x.node.netNodeID = a
      · simp [hx]
      · simp [hx, hj]
    · rw [List.filter_cons_of_pos (by simp [hj]), firstPerNode, ih, firstPerNode,
        List.filter_cons_of_pos (by simp [hj]), List.filter_filter, List.filter_filter]
      congr 1
      apply List.filter_congr
      intro x _
      exact Bool.and_comm _ _

theorem firstPerNode_sublist (l : List InputFrame) : (firstPerNode l).Sublist l := by
  induction l with
  | nil => exact List.Sublist.refl _
  | cons i rest ih =>
    rw [firstPerNode]
    exact List.Sublist.cons₂ i ((List.filter_sublist _).trans ih)

theorem mem_firstPerNode_map (l : List InputFrame) (x : Nat) :
    x ∈ (firstPerNode l).map (fun i => i.node.netNodeID) ↔
      x ∈ l.map (fun i => i.node.netNodeID) := by
  induction l with
  | nil => simp [firstPerNode]
  | cons i rest ih =>
    rw [firstPerNode, List.map_cons, List.map_cons, List.mem_cons, List.mem_cons, ← ih]
    by_cases hx : x = i.node.netNodeID
    · simp [hx]
    · simp only [hx, false_or, List.mem_map, List.mem_filter, bne_iff_ne, ne_eq]
      constructor
      · rintro ⟨j, ⟨hj, -⟩, rfl⟩
        exact ⟨j, hj, rfl⟩
      · rintro ⟨j, hj, rfl⟩
        exact ⟨j, ⟨hj, hx⟩, rfl⟩

theorem nodup_firstPerNode_map (l : List InputFrame) :
    ((firstPerNode l).map (fun i => i.node.netNodeID)).Nodup := by
  induction l with
  | nil => simp [firstPerNode]
  | cons i rest ih =>
    rw [firstPerNode, List.map_cons, List.nodup_cons]
    constructor
    · simp only [List.mem_map, List.mem_filter, bne_iff_ne, ne_eq, not_exists, not_and]
      intro j hj heq
      exact hj.2 heq
    · exact ih.sublist ((List.filter_sublist _).map _)

namespace ChannelUpdateVisitor

theorem transmitInputPackets_eq_first (v : ChannelUpdateVisitor) (context : RenderContext)
    (outputNodeID : Nat) (outputFrame : Frame) (inputFrames : List InputFrame) :
    ∀ nodeIDs : List Nat,
      transmitInputPackets v context outputNodeID outputFrame inputFrames nodeIDs =
        (firstPerNode (inputFrames.filter (fun i =>
          decide (i.node.netNodeID ≠ outputNodeID ∧ i.node.netNodeID ∉ nodeIDs)))).map
          (transmitPacket v context outputFrame) := by
  induction inputFrames with
  | nil => intro nodeIDs; rfl
  | cons i rest ih =>
    intro nodeIDs
    rw [transmitInputPackets]
    by_cases h : i.node.netNodeID = outputNodeID ∨ i.node.netNodeID ∈ nodeIDs
    · rw [if_pos h, ih nodeIDs, List.filter_cons_of_neg]
      simp only [decide_eq_true_eq, not_and, not_not]
      intro hne
      exact h.resolve_left hne
    · rw [if_neg h, ih (i.node.netNodeID :: nodeIDs)]
      push_neg at h
      rw [List.filter_cons_of_pos (by simpa using h), firstPerNode, List.map_cons,
        ← firstPerNode_filter, List.filter_filter]
      congr 3
      apply List.filter_congr
      intro x _
      by_cases hx : x.node.netNodeID = i.node.netNodeID
      · simp [hx]
      · simp [hx]

end ChannelUpdateVisitor

namespace ChannelUpdateVisitor

theorem transmitPackets_eq_first (v : ChannelUpdateVisitor) (context : RenderContext)
    (hctx : context.eye = v.eye) (frames : List Frame) :
    transmitPackets v context v.channel.node.netNodeID frames =
      frames.flatMap (fun f =>
        (firstPerNode ((f.inputFrames.get v.eye).filter
          (fun i => i.node.netNodeID != v.channel.node.netNodeID))).map
          (transmitPacket v context f)) := by
  unfold transmitPackets
  congr 1
  funext f
  rw [transmitInputPackets_eq_first, hctx]
  congr 2
  apply List.filter_congr
  intro x _
  by_cases hx : x.node.netNodeID = v.channel.node.netNodeID <;> simp [hx]

/-- C33: per output frame, transmits are deduplicated by destination. A
readback sends, after the readback packet and for each output frame with data
for the visitor's eye in turn, one `ChannelFrameTransmit` for each input
frame of that output frame on this eye that is the first on its network node,
the input frames on the producing channel's own node left out: the distinct
destinations other than the own node, in the order of their first occurrence.
Each packet carries the render context, the output frame's data version for
the visitor's eye, the network node identifier and the object identifier of
the consuming node. Among the destinations of one output frame no identifier
occurs twice, the own identifier does not occur, and every other identifier
of an input frame occurs. -/
theorem updateReadback_transmits_per_frame (v : ChannelUpdateVisitor) (c : Compound)
    (context : RenderContext) (s : State) (hctx : context.eye = v.eye)
    (hrb : c.testInheritTask TASK_READBACK = true)
    (hdata : ∃ f ∈ c.outputFrames, f.hasData.get v.eye = true) :
    (∃ n : Nat,
      (v._updateReadback c context s).sent =
        s.sent ++ Packet.ChannelFrameReadback context n
            ((c.outputFrames.filter (fun f => f.hasData.get v.eye)).map
              (fun f => f.objectVersion)) ::
          (c.outputFrames.filter (fun f => f.hasData.get v.eye)).flatMap (fun f =>
            (firstPerNode ((f.inputFrames.get v.eye).filter
              (fun i => i.node.netNodeID != v.channel.node.netNodeID))).map
              (fun i => Packet.ChannelFrameTransmit context (f.dataVersion.get v.eye)
                i.node.netNodeID i.node.id))) ∧
    (∀ (inputFrames : List InputFrame) (own : Nat),
      ((firstPerNode (inputFrames.filter (fun i => i.node.netNodeID != own))).map
        (fun i => i.node.netNodeID)).Nodup ∧
      own ∉ (firstPerNode (inputFrames.filter (fun i => i.node.netNodeID != own))).map
        (fun i => i.node.netNodeID) ∧
      (∀ x, x ∈ (firstPerNode (inputFrames.filter (fun i => i.node.netNodeID != own))).map
          (fun i => i.node.netNodeID) ↔
        x ∈ inputFrames.map (fun i => i.node.netNodeID) ∧ x ≠ own) ∧
      (firstPerNode (inputFrames.filter (fun i => i.node.netNodeID != own))).Sublist
        inputFrames) := by
  constructor
  · have hne := filter_ne_nil_of_data v.eye c.outputFrames hdata
    refine ⟨(c.outputFrames.filter (fun f => f.hasData.get v.eye)).length % 4294967296, ?_⟩
    rw [(sent_updateReadback v c context s).1]
    unfold readbackPackets Compound.readbackFrames
    rw [if_pos ⟨hrb, hne⟩, transmitPackets_eq_first v context hctx]
    rfl
  · intro inputFrames own
    have hmem : ∀ x, x ∈ (firstPerNode (inputFrames.filter
          (fun i => i.node.netNodeID != own))).map (fun i => i.node.netNodeID) ↔
        x ∈ inputFrames.map (fun i => i.node.netNodeID) ∧ x ≠ own := by
      intro x
      rw [mem_firstPerNode_map]
      simp only [List.mem_map, List.mem_filter, bne_iff_ne, ne_eq]
      constructor
      · rintro ⟨i, ⟨hi, hne⟩, rfl⟩
        exact ⟨⟨i, hi, rfl⟩, hne⟩
      · rintro ⟨⟨i, hi, rfl⟩, hne⟩
        exact ⟨i, ⟨hi, hne⟩, rfl⟩
    refine ⟨nodup_firstPerNode_map _, ?_, hmem, ?_⟩
    · intro h
      exact ((hmem own).mp h).2 rfl
    · exact (firstPerNode_sublist _).trans (List.filter_sublist _)

/-- Witness of C33: the sample readback compound, whose two output frames
have one consumer each, on the remote node. -/
theorem updateReadback_transmits_per_frame_witness :
    ∃ n : Nat,
      (Sample.visitor._updateReadback Sample.readbackCompound
          (Sample.visitor._setupRenderContext Sample.readbackCompound)
          (State.frameStart 60)).sent =
        (State.frameStart 60).sent ++ Packet.ChannelFrameReadback
            (Sample.visitor._setupRenderContext Sample.readbackCompound) n
            ((Sample.readbackCompound.outputFrames.filter
              (fun f => f.hasData.get Sample.visitor.eye)).map (fun f => f.objectVersion)) ::
          (Sample.readbackCompound.outputFrames.filter
            (fun f => f.hasData.get Sample.visitor.eye)).flatMap (fun f =>
            (firstPerNode ((f.inputFrames.get Sample.visitor.eye).filter
              (fun i => i.node.netNodeID != Sample.visitor.channel.node.netNodeID))).map
              (fun i => Packet.ChannelFrameTransmit
                (Sample.visitor._setupRenderContext Sample.readbackCompound)
                (f.dataVersion.get Sample.visitor.eye) i.node.netNodeID i.node.id)) :=
  (updateReadback_transmits_per_frame Sample.visitor Sample.readbackCompound
    (Sample.visitor._setupRenderContext Sample.readbackCompound) (State.frameStart 60)
    rfl (by decide) (by decide)).1

end ChannelUpdateVisitor

namespace DataIStream

theorem eq_of_id_eq {l : List (Option Child)} (hnd : (ids l).Nodup) {c c' : Child}
    (h1 : some c ∈ l) (h2 : some c' ∈ l) (h : c.id = c'.id) : c = c' := by
  have m1 : c ∈ l.filterMap id := List.mem_filterMap.mpr ⟨some c, h1, rfl⟩
  have m2 : c' ∈ l.filterMap id := List.mem_filterMap.mpr ⟨some c', h2, rfl⟩
  exact List.inj_on_of_nodup_map hnd m1 m2 h

theorem eq_of_addr_eq {l : List (Option Child)} (hnd : (addrs l).Nodup) {c c' : Child}
    (h1 : some c ∈ l) (h2 : some c' ∈ l) (h : c.addr = c'.addr) : c = c' := by
  have m1 : c ∈ l.filterMap id := List.mem_filterMap.mpr ⟨some c, h1, rfl⟩
  have m2 : c' ∈ l.filterMap id := List.mem_filterMap.mpr ⟨some c', h2, rfl⟩
  exact List.inj_on_of_nodup_map hnd m1 m2 h

theorem mem_addrs_iff (l : List (Option Child)) (a : Nat) :
    a ∈ addrs l ↔ ∃ c, some c ∈ l ∧ c.addr = a := by
  simp only [addrs, List.mem_map, List.mem_filterMap, id]
  constructor
  · rintro ⟨c, ⟨e, he, rfl⟩, rfl⟩
    exact ⟨c, he, rfl⟩
  · rintro ⟨c, hc, rfl⟩
    exact ⟨c, ⟨some c, hc, rfl⟩, rfl⟩

/-- Where the entries of the rebuilt vector come from, for an old list with
distinct identifiers: they are entries already in the result, null entries,
old children taken out of the old list, or children created by this call;
and every old child taken out of the old list is in the result. -/
theorem rebuild_result (object : Owner) (versions : List ObjectVersion) :
    ∀ (old result : List (Option Child)) (t : Trace)
      (old' result' : List (Option Child)) (t' : Trace),
      (ids old).Nodup →
      rebuild object versions old result t = some (old', result', t') →
      t.created ≤ t'.created ∧
      (∀ e ∈ result', e ∈ result ∨ e = none ∨
        (∃ c, e = some c ∧ some c ∈ old ∧ some c ∉ old') ∨
        ∃ k, t.created ≤ k ∧ k < t'.created ∧ e = some (object.create k)) ∧
      (∀ e ∈ result, e ∈ result') ∧
      (∀ c, some c ∈ old → some c ∉ old' → some c ∈ result') := by
  induction versions with
  | nil =>
    intro old result t old' result' t' _ h
    simp only [rebuild, Option.some.injEq, Prod.mk.injEq] at h
    obtain ⟨rfl, rfl, rfl⟩ := h
    exact ⟨le_refl _, fun e he => Or.inl he, fun e he => he, fun c h1 h2 => absurd h1 h2⟩
  | cons version versions ih =>
    intro old result t old' result' t' hnd h
    rw [rebuild] at h
    by_cases hz : version.identifier = UUID_ZERO
    · rw [if_pos hz] at h
      obtain ⟨h1, h2, h3, h4⟩ := ih _ _ _ _ _ _ hnd h
      refine ⟨h1, ?_, fun e he => h3 e (List.mem_append_left _ he), h4⟩
      intro e he
      rcases h2 e he with hm | hm | hm | hm
      · rcases List.mem_append.mp hm with hm | hm
        · exact Or.inl hm
        · exact Or.inr (Or.inl (List.mem_singleton.mp hm))
      · exact Or.inr (Or.inl hm)
      · exact Or.inr (Or.inr (Or.inl hm))
      · exact Or.inr (Or.inr (Or.inr hm))
    · rw [if_neg hz] at h
      cases hf : find_if old version.identifier with
      | none => rw [hf] at h; simp at h
      | some j =>
        rw [hf] at h
        simp only at h
        rcases find_if_some old version.identifier j hf with ⟨hj, -⟩ | ⟨child, hg, -⟩
        · rw [if_pos hj] at h
          obtain ⟨h1, h2, h3, h4⟩ := ih _ _ _ _ _ _ hnd h
          simp only at h1
          refine ⟨by omega, ?_, fun e he => h3 e (List.mem_append_left _ he), h4⟩
          intro e he
          rcases h2 e he with hm | hm | hm | ⟨k, hk1, hk2, hk3⟩
          · rcases List.mem_append.mp hm with hm | hm
            · exact Or.inl hm
            · exact Or.inr (Or.inr (Or.inr ⟨t.created, le_refl _, by omega,
                List.mem_singleton.mp hm⟩))
          · exact Or.inr (Or.inl hm)
          · exact Or.inr (Or.inr (Or.inl hm))
          · simp only at hk1
            exact Or.inr (Or.inr (Or.inr ⟨k, by omega, hk2, hk3⟩))
        · have hlt : j ≠ old.length := by
            intro hj
            rw [hj] at hg
            simp at hg
          rw [if_neg hlt, hg] at h
          simp only at h
          have hsub := List.eraseIdx_sublist old j
          have hnd' : (ids (old.eraseIdx j)).Nodup := hnd.sublist (ids_sublist hsub)
          obtain ⟨h1, h2, h3, h4⟩ := ih _ _ _ _ _ _ hnd' h
          have hleft := rebuild_left object versions _ _ _ _ _ _ hnd' h
          have hchild : some child ∈ old := List.get?_mem hg
          have hgone : some child ∉ old' := by
            intro hmem
            have := ((hleft child).mp hmem).1
            exact ((mem_eraseIdx_iff old j child hnd hg child).mp this).2 rfl
          refine ⟨h1, ?_, fun e he => h3 e (List.mem_append_left _ he), ?_⟩
          · intro e he
            rcases h2 e he with hm | hm | ⟨c, hc1, hc2, hc3⟩ | hm
            · rcases List.mem_append.mp hm with hm | hm
              · exact Or.inl hm
              · exact Or.inr (Or.inr (Or.inl ⟨child, List.mem_singleton.mp hm, hchild, hgone⟩))
            · exact Or.inr (Or.inl hm)
            · exact Or.inr (Or.inr (Or.inl ⟨c, hc1, hsub.subset hc2, hc3⟩))
            · exact Or.inr (Or.inr (Or.inr hm))
          · intro c hc hnot
            by_cases hc2 : some c ∈ old.eraseIdx j
            · exact h4 c hc2 hnot
            · have hid : c.id = child.id := by
                by_contra hne
                exact hc2 ((mem_eraseIdx_iff old j child hnd hg c).mpr ⟨hc, hne⟩)
              have heq : c = child := eq_of_id_eq hnd hc hchild hid
              rw [heq]
              exact h3 _ (List.mem_append_right _ (List.mem_singleton.mpr rfl))

end DataIStream

namespace DataIStream

theorem count_release_releasePlan (old : List (Option Child)) (a : Nat) :
    (releasePlan old).count (Call.release a) = (addrs old).count a := by
  unfold releasePlan
  rw [count_release_flatMap, addrs_reverse, List.count_reverse]

/-- C35: child-list reconciliation partitions the old children. Let the old
list have no null entries, pairwise distinct identifiers and pairwise distinct
objects, and let `create` hand out objects that are not old children. Then
`deserializeChildren` returns; its calls are the rebuild calls (create, map,
sync) followed by the release pass. Each old child either is in the result
and is not released, or is not in the result and is released exactly once. The
released children are the old children whose identifier no serialized
identifier other than the zero identifier equals; the zero identifier stands
for a null entry, and when no old child has it these are the old children
whose identifier does not occur in the serialized list. Every entry of the
result is null, an old child, or a child created by this call, and the result
has one entry per serialized entry. -/
theorem deserializeChildren_partition (object : Owner) (versions : List ObjectVersion)
    (old result : List (Option Child)) (t : Trace)
    (hnn : ∀ e ∈ old, e ≠ none) (hids : (ids old).Nodup) (haddrs : (addrs old).Nodup)
    (hfresh : ∀ k c, some c ∈ old → object.create k ≠ c) :
    ∃ (result' : List (Option Child)) (t' : Trace) (made released : List Call),
      deserializeChildren object versions old result t = some (result', t') ∧
      t'.calls = t.calls ++ made ++ released ∧
      (∀ call ∈ made, call.isRebuild = true) ∧
      (∀ c, some c ∈ old →
        (some c ∈ result' ∧ released.count (Call.release c.addr) = 0) ∨
        (some c ∉ result' ∧ released.count (Call.release c.addr) = 1)) ∧
      (∀ c, some c ∈ old →
        (Call.release c.addr ∈ released ↔
          ∀ ver ∈ versions, ver.identifier ≠ UUID_ZERO → ver.identifier ≠ c.id)) ∧
      ((∀ c, some c ∈ old → c.id ≠ UUID_ZERO) →
        ∀ c, some c ∈ old →
          (Call.release c.addr ∈ released ↔ ∀ ver ∈ versions, ver.identifier ≠ c.id)) ∧
      (∀ e ∈ result', e = none ∨ (∃ c, e = some c ∧ some c ∈ old) ∨
        ∃ k, t.created ≤ k ∧ k < t'.created ∧ e = some (object.create k)) ∧
      result'.length = versions.length := by
  obtain ⟨old', result', t', hreb, hlen, -⟩ := rebuild_of_no_null object versions old [] t hnn
  obtain ⟨made, hm1, hm2, hsub, -⟩ := rebuild_spec object versions old [] t old' result' t' hreb
  have hleft := rebuild_left object versions old [] t old' result' t' hids hreb
  obtain ⟨-, hc2, -, hc4⟩ := rebuild_result object versions old [] t old' result' t' hids hreb
  have haddrs' : (addrs old').Nodup := haddrs.sublist hsub
  have hmemaddr : ∀ c, some c ∈ old → (c.addr ∈ addrs old' ↔ some c ∈ old') := by
    intro c hc
    constructor
    · intro h
      obtain ⟨c2, hc2', haddr⟩ := (mem_addrs_iff old' c.addr).mp h
      have hc2old : some c2 ∈ old := ((hleft c2).mp hc2').1
      have heq : c2 = c := eq_of_addr_eq haddrs hc2old hc haddr
      rw [← heq]
      exact hc2'
    · intro h
      exact (mem_addrs_iff old' c.addr).mpr ⟨c, h, rfl⟩
  have hrel : ∀ c, some c ∈ old →
      (Call.release c.addr ∈ releasePlan old' ↔ some c ∈ old') := by
    intro c hc
    rw [← hmemaddr c hc, ← List.count_pos_iff, ← List.count_pos_iff,
      count_release_releasePlan]
  refine ⟨result', { calls := t'.calls ++ releasePlan old', created := t'.created }, made,
    releasePlan old', ?_, ?_, hm2, ?_, ?_, ?_, ?_, ?_⟩
  · unfold deserializeChildren
    simp only [List.take_zero, hreb, releaseRemoved_eq]
  · simp only [hm1]
  · intro c hc
    by_cases hin : some c ∈ old'
    · right
      constructor
      · intro hres
        rcases hc2 _ hres with h | h | ⟨c2, e, -, hnot⟩ | ⟨k, -, -, e⟩
        · simp at h
        · simp at h
        · simp only [Option.some.injEq] at e
          rw [← e] at hnot
          exact hnot hin
        · simp only [Option.some.injEq] at e
          exact hfresh k c hc e.symm
      · rw [count_release_releasePlan]
        exact List.count_eq_one_of_mem haddrs' ((hmemaddr c hc).mpr hin)
    · left
      refine ⟨hc4 c hc hin, ?_⟩
      rw [count_release_releasePlan, List.count_eq_zero]
      exact fun h => hin ((hmemaddr c hc).mp h)
  · intro c hc
    rw [hrel c hc, hleft c]
    exact ⟨fun h => h.2, fun h => ⟨hc, h⟩⟩
  · intro hzero c hc
    rw [hrel c hc, hleft c]
    constructor
    · rintro ⟨-, h⟩ ver hver
      by_cases hz : ver.identifier = UUID_ZERO
      · rw [hz]
        exact fun heq => hzero c hc heq.symm
      · exact h ver hver hz
    · intro h
      exact ⟨hc, fun ver hver _ => h ver hver⟩
  · intro e he
    rcases hc2 e he with h | h | ⟨c, h1, h2, -⟩ | h
    · simp at h
    · exact Or.inl h
    · exact Or.inr (Or.inl ⟨c, h1, h2⟩)
    · exact Or.inr (Or.inr h)
  · simpa using hlen

/-- Witness of C35: children five and six are old; the serialized list names
five and an unknown child with identifier 9. -/
theorem deserializeChildren_partition_witness :
    ∃ (result' : List (Option Child)) (t' : Trace) (made released : List Call),
      deserializeChildren slaveOwner [⟨5, 2⟩, ⟨9, 1⟩] [some childFive, some childSix] []
        ⟨[], 0⟩ = some (result', t') ∧
      t'.calls = ([] : List Call) ++ made ++ released ∧
      (∀ call ∈ made, call.isRebuild = true) ∧
      (∀ c, some c ∈ [some childFive, some childSix] →
        (some c ∈ result' ∧ released.count (Call.release c.addr) = 0) ∨
        (some c ∉ result' ∧ released.count (Call.release c.addr) = 1)) ∧
      (∀ c, some c ∈ [some childFive, some childSix] →
        (Call.release c.addr ∈ released ↔
          ∀ ver ∈ [(⟨5, 2⟩ : ObjectVersion), ⟨9, 1⟩],
            ver.identifier ≠ UUID_ZERO → ver.identifier ≠ c.id)) ∧
      ((∀ c, some c ∈ [some childFive, some childSix] → c.id ≠ UUID_ZERO) →
        ∀ c, some c ∈ [some childFive, some childSix] →
          (Call.release c.addr ∈ released ↔
            ∀ ver ∈ [(⟨5, 2⟩ : ObjectVersion), ⟨9, 1⟩], ver.identifier ≠ c.id)) ∧
      (∀ e ∈ result', e = none ∨ (∃ c, e = some c ∧ some c ∈ [some childFive, some childSix]) ∨
        ∃ k, (0 : Nat) ≤ k ∧ k < t'.created ∧ e = some (slaveOwner.create k)) ∧
      result'.length = [(⟨5, 2⟩ : ObjectVersion), ⟨9, 1⟩].length :=
  deserializeChildren_partition slaveOwner [⟨5, 2⟩, ⟨9, 1⟩] [some childFive, some childSix] []
    ⟨[], 0⟩ (by decide) (by decide) (by decide)
    (by
      intro k c hc heq
      have haddr : 100 + k = c.addr := congrArg Child.addr heq
      simp only [List.mem_cons, Option.some.injEq, List.mem_singleton, List.not_mem_nil,
        or_false] at hc
      rcases hc with rfl | rfl
      · have : 100 + k = 1 := haddr
        omega
      · have : 100 + k = 2 := haddr
        omega)

end DataIStream

namespace Numeric

/-- The corner computation is its three parts in sequence, in every
arithmetic. -/
theorem corners_stages {α : Type} (A : Arith α) (inp : CornerInput α)
    (eye : Vector3Of α) (ortho : Bool) :
    _computeFrustumCorners A inp eye ortho =
      viewportStage A inp (pixelStage A inp (cornerStage A inp eye ortho)) := rfl

theorem cornerStage_exact (v : ChannelUpdateVisitor) (c : Compound) (fd : FrustumData)
    (e : Vector3f) (ortho : Bool) :
    toFrustumf (cornerStage exact (inputOf v c fd) ⟨e.x, e.y, e.z⟩ ortho) =
      Equalizer.cornerStage c fd e ortho := by
  unfold cornerStage Equalizer.cornerStage
  dsimp only [exact, inputOf]
  by_cases h : e.z > 0 ∨ ortho = true
  · rw [if_pos h, if_pos (by simpa using h)]
    rfl
  · rw [if_neg h, if_neg (by simpa using h)]
    rfl

theorem pixelStage_exact (v : ChannelUpdateVisitor) (c : Compound) (fd : FrustumData)
    (F : FrustumOf ℚ) :
    toFrustumf (pixelStage exact (inputOf v c fd) F) =
      Equalizer.pixelStage v c (toFrustumf F) := by
  unfold pixelStage Equalizer.pixelStage
  dsimp only [exact, inputOf]
  by_cases h : c.inheritPixel ≠ v.lib.pixelALL ∧ v.lib.pixelIsValid c.inheritPixel = true
  · rw [if_pos h, if_pos (by simpa using h)]
    by_cases hw : c.inheritPixel.w > 1 <;> by_cases hh : c.inheritPixel.h > 1 <;>
      simp only [hw, hh, if_true, if_false] <;> rfl
  · rw [if_neg h, if_neg (by simpa using h)]

theorem viewportStage_exact (v : ChannelUpdateVisitor) (c : Compound) (fd : FrustumData)
    (F : FrustumOf ℚ) :
    toFrustumf (viewportStage exact (inputOf v c fd) F) =
      Equalizer.viewportStage v c (toFrustumf F) := by
  unfold viewportStage Equalizer.viewportStage
  dsimp only [exact, inputOf]
  by_cases h : c.inheritViewport ≠ v.lib.viewportFULL ∧
      v.lib.viewportIsValid c.inheritViewport = true
  · rw [if_pos h, if_pos (by simpa using h)]
    rfl
  · rw [if_neg h, if_neg (by simpa using h)]

/-- The rational embedding of `_computeFrustumCorners` is the corner
computation over the exact arithmetic. -/
theorem corners_exact (v : ChannelUpdateVisitor) (c : Compound) (fd : FrustumData)
    (e : Vector3f) (ortho : Bool) :
    v._computeFrustumCorners c fd e ortho =
      toFrustumf (_computeFrustumCorners exact (inputOf v c fd) ⟨e.x, e.y, e.z⟩ ortho) := by
  rw [corners_stages, viewportStage_exact, pixelStage_exact, cornerStage_exact]
  rfl

end Numeric

set_option maxRecDepth 100000

namespace Binary32

theorem ofInt_zero : ofInt 0 = finite false 0 (-149) := by decide

theorem gt_zero_zero (sz : Bool) (ez : Int) : gt (finite sz 0 ez) (ofInt 0) = false := by
  rw [ofInt_zero]
  simp [gt]

theorem div_zero (s sz : Bool) (m : Nat) (e ez : Int) :
    div (finite s m e) (finite sz 0 ez) = if m = 0 then nan else inf (s != sz) := by
  simp [div]

/-- C22 (as stated, refuted): for a wall 4 wide and 2 high, the near plane 1
and the eye (0, 0, 0) the perspective corner computation does not fail. The
test `eye.z > 0` is false, the mirror branch runs, the quotient `near / eye.z`
is evaluated with the divisor zero and is +inf in binary32, and the frustum
(+inf, -inf, +inf, -inf, 1, 100) is returned. -/
theorem computeFrustumCorners_zero_depth_infinite :
    gt (ofInt 0) (ofInt 0) = false ∧
    div wall.frustum.near_plane (ofInt 0) = inf false ∧
    Numeric._computeFrustumCorners arith wall ⟨ofInt 0, ofInt 0, ofInt 0⟩ false =
      ⟨inf false, inf true, inf false, inf true, ofInt 1, ofInt 100⟩ := by
  refine ⟨by decide, by decide, by decide⟩

/-- C22 (amended): `_computeFrustumCorners` has no check of `eye.z` and no
failure path. With ortho = false and an `eye.z` for which `eye.z > 0` is
false, as for `eye.z == 0`, the mirror branch runs with the quotient
`near / eye.z`, whatever the divisor, and the frustum of the mirror formulas,
moved by the pixel decomposition and adjusted to the viewport as for any
other eye, is returned with the near and far plane of the destination. In
binary32 `eye.z > 0` is false for a zero `eye.z` of either sign, and the
quotient by a zero `eye.z` is an infinity for a finite non-zero near plane and
NaN for a zero near plane. -/
theorem computeFrustumCorners_zero_depth {α : Type} (A : Numeric.Arith α)
    (inp : Numeric.CornerInput α) (eye : Numeric.Vector3Of α)
    (hz : A.gt eye.z (A.ofInt 0) = false) :
    Numeric._computeFrustumCorners A inp eye false =
      Numeric.viewportStage A inp (Numeric.pixelStage A inp
        ⟨A.mul (A.sub (A.mul inp.width A.half) eye.x) (A.div inp.frustum.near_plane eye.z),
         A.mul (A.sub (A.neg (A.mul inp.width A.half)) eye.x)
           (A.div inp.frustum.near_plane eye.z),
         A.mul (A.add (A.mul inp.height A.half) eye.y) (A.div inp.frustum.near_plane eye.z),
         A.mul (A.add (A.neg (A.mul inp.height A.half)) eye.y)
           (A.div inp.frustum.near_plane eye.z),
         inp.frustum.near_plane, inp.frustum.far_plane⟩) ∧
    (inp.pixelDecomposed = false → inp.vpDecomposed = false →
      Numeric._computeFrustumCorners A inp eye false =
        ⟨A.mul (A.sub (A.mul inp.width A.half) eye.x) (A.div inp.frustum.near_plane eye.z),
         A.mul (A.sub (A.neg (A.mul inp.width A.half)) eye.x)
           (A.div inp.frustum.near_plane eye.z),
         A.mul (A.add (A.mul inp.height A.half) eye.y) (A.div inp.frustum.near_plane eye.z),
         A.mul (A.add (A.neg (A.mul inp.height A.half)) eye.y)
           (A.div inp.frustum.near_plane eye.z),
         inp.frustum.near_plane, inp.frustum.far_plane⟩) ∧
    (∀ (sz : Bool) (ez : Int), arith.gt (finite sz 0 ez) (arith.ofInt 0) = false) ∧
    (∀ (s sz : Bool) (m : Nat) (e ez : Int), m ≠ 0 →
      arith.div (finite s m e) (finite sz 0 ez) = inf (s != sz)) ∧
    (∀ (s sz : Bool) (e ez : Int), arith.div (finite s 0 e) (finite sz 0 ez) = nan) := by
  have hcorner : Numeric.cornerStage A inp eye false =
      ⟨A.mul (A.sub (A.mul inp.width A.half) eye.x) (A.div inp.frustum.near_plane eye.z),
       A.mul (A.sub (A.neg (A.mul inp.width A.half)) eye.x)
         (A.div inp.frustum.near_plane eye.z),
       A.mul (A.add (A.mul inp.height A.half) eye.y) (A.div inp.frustum.near_plane eye.z),
       A.mul (A.add (A.neg (A.mul inp.height A.half)) eye.y)
         (A.div inp.frustum.near_plane eye.z),
       inp.frustum.near_plane, inp.frustum.far_plane⟩ := by
    unfold Numeric.cornerStage
    dsimp only
    rw [if_neg (by simp [hz])]
    simp
  refine ⟨?_, ?_, gt_zero_zero, ?_, ?_⟩
  · rw [Numeric.corners_stages, hcorner]
  · intro hp hv
    rw [Numeric.corners_stages, hcorner]
    unfold Numeric.viewportStage Numeric.pixelStage
    simp [hp, hv]
  · intro s sz m e ez hm
    show div (finite s m e) (finite sz 0 ez) = inf (s != sz)
    rw [div_zero, if_neg hm]
  · intro s sz e ez
    show div (finite s 0 e) (finite sz 0 ez) = nan
    rw [div_zero, if_pos rfl]

/-- Witness of C22 (amended): the binary32 wall with the eye (1, 0, 0): the
mirror formulas with the quotient 1 / 0 = +inf give
(+inf, -inf, +inf, -inf, 1, 100). -/
theorem computeFrustumCorners_zero_depth_witness :
    arith.gt (ofInt 0) (arith.ofInt 0) = false ∧
    Numeric._computeFrustumCorners arith wall ⟨ofInt 1, ofInt 0, ofInt 0⟩ false =
      ⟨inf false, inf true, inf false, inf true, ofInt 1, ofInt 100⟩ :=
  ⟨by decide,
   ((computeFrustumCorners_zero_depth arith wall ⟨ofInt 1, ofInt 0, ofInt 0⟩
      (by decide)).2.1 rfl rfl).trans (by decide)⟩

end Binary32

namespace Numeric

theorem viewportStage_of_decomposed {α : Type} (A : Arith α) (inp : CornerInput α)
    (F : FrustumOf α) (h : inp.vpDecomposed = true) :
    viewportStage A inp F =
      ⟨A.add F.left (A.mul (A.sub F.right F.left) inp.vp.x),
       A.add (A.add F.left (A.mul (A.sub F.right F.left) inp.vp.x))
         (A.mul (A.sub F.right F.left) inp.vp.w),
       A.add F.bottom (A.mul (A.sub F.top F.bottom) inp.vp.y),
       A.add (A.add F.bottom (A.mul (A.sub F.top F.bottom) inp.vp.y))
         (A.mul (A.sub F.top F.bottom) inp.vp.h),
       F.near_plane, F.far_plane⟩ := by
  unfold viewportStage
  dsimp only
  rw [if_pos h]

theorem viewportStage_of_full {α : Type} (A : Arith α) (inp : CornerInput α)
    (F : FrustumOf α) (h : inp.vpDecomposed = false) : viewportStage A inp F = F := by
  unfold viewportStage
  dsimp only
  rw [if_neg (by simp [h])]

end Numeric

namespace Binary32

theorem bitLength_le (fuel : Nat) : ∀ n b : Nat, n < 2 ^ b → bitLength fuel n ≤ b := by
  induction fuel with
  | zero => intro n b _; simp [bitLength]
  | succ fuel ih =>
    intro n b h
    unfold bitLength
    by_cases hn : n = 0
    · simp [hn]
    · rw [if_neg hn]
      cases b with
      | zero => simp at h; exact absurd h hn
      | succ b =>
        have : n / 2 < 2 ^ b := by
          rw [pow_succ] at h
          omega
        have := ih (n / 2) b this
        omega

theorem lt_pow_bitLength (fuel : Nat) : ∀ n : Nat, n < 2 ^ fuel → n < 2 ^ bitLength fuel n := by
  induction fuel with
  | zero => intro n h; simpa [bitLength] using h
  | succ fuel ih =>
    intro n h
    unfold bitLength
    by_cases hn : n = 0
    · simp [hn]
    · rw [if_neg hn]
      have h2 : n / 2 < 2 ^ fuel := by
        rw [pow_succ] at h
        omega
      have := ih (n / 2) h2
      rw [pow_succ]
      omega

theorem bitLength_eq (fuel n b : Nat) (hf : b + 1 ≤ fuel) (hlo : 2 ^ b ≤ n)
    (hhi : n < 2 ^ (b + 1)) : bitLength fuel n = b + 1 := by
  have hf : n < 2 ^ fuel := lt_of_lt_of_le hhi (Nat.pow_le_pow_right (by decide) hf)
  have h1 := bitLength_le fuel n (b + 1) hhi
  have h2 := lt_pow_bitLength fuel n hf
  have h3 : 2 ^ b < 2 ^ bitLength fuel n := lt_of_le_of_lt hlo h2
  have h4 : b < bitLength fuel n := (Nat.pow_lt_pow_iff_right (by norm_num)).1 h3
  omega



theorem round_regular (s : Bool) (m k : Nat) (e : Int) (hm : m ≠ 0) (hk : k ≤ 1024)
    (h : (8388608 ≤ m ∧ m < 16777216 ∧ -149 ≤ e ∧ e ≤ 104) ∨ (m < 8388608 ∧ e = -149)) :
    round s (m * 2 ^ k) (e - k) false = finite s m e := by
  have hpos : 0 < 2 ^ k := Nat.two_pow_pos _
  have hM : m * 2 ^ k ≠ 0 := by positivity
  have hq : m * 2 ^ k / 2 ^ k = m := Nat.mul_div_cancel _ hpos
  have hr : m * 2 ^ k % 2 ^ k = 0 := Nat.mul_mod_left _ _
  have hhalf : 0 < 2 ^ (k - 1) := Nat.two_pow_pos _
  have hup : (decide (m * 2 ^ k % 2 ^ k > 2 ^ (k - 1)) ||
      (decide (m * 2 ^ k % 2 ^ k = 2 ^ (k - 1)) &&
        (false || decide (m * 2 ^ k / 2 ^ k % 2 = 1)))) = false := by
    rw [hr]
    have : ¬ (0 = 2 ^ (k - 1)) := by omega
    simp [this]
  have hm2 : ¬ (m = 16777216) := by omega
  have hexp : max (e - (k : Int) + ((bitLength 4096 (m * 2 ^ k) : Nat) : Int) - 24) (-149) = e := by
    rcases h with ⟨h1, h2, h3, h4⟩ | ⟨h1, h2⟩
    · have hb : bitLength 4096 (m * 2 ^ k) = 23 + k + 1 := by
        apply bitLength_eq
        · omega
        · rw [pow_add]
          exact Nat.mul_le_mul_right _ (by norm_num; exact h1)
        · have : 23 + k + 1 = 24 + k := by omega
          rw [this, pow_add]
          apply Nat.mul_lt_mul_of_pos_right _ hpos
          norm_num; exact h2
      rw [hb]
      push_cast
      omega
    · have hb : bitLength 4096 (m * 2 ^ k) ≤ 23 + k := by
        apply bitLength_le
        rw [pow_add]
        apply Nat.mul_lt_mul_of_pos_right _ hpos
        norm_num; exact h1
      omega
  have he104 : e ≤ 104 := by
    rcases h with h | h <;> omega
  unfold round
  rw [if_neg hM]
  simp only [hexp]
  by_cases hk0 : k = 0
  · subst hk0
    simp
  · have hlt : ¬ (e ≤ e - (k : Int)) := by omega
    rw [if_neg hlt]
    have hsh : (e - (e - (k : Int))).toNat = k := by omega
    simp only [hsh]
    rw [hup, hq]
    simp only [Bool.false_eq_true, if_false, hm2]
    rw [if_neg (by omega)]

theorem mul_zero_finite (s : Bool) (m : Nat) (e : Int) :
    mul (finite s m e) (ofInt 0) = finite s 0 (-149) := by
  rw [ofInt_zero]
  simp [mul, round]

theorem add_mul_zero (x y : Binary32) (hx : regular x = true) (hy : isFinite y = true) :
    add x (mul y (ofInt 0)) = x := by
  cases y with
  | inf s => simp [isFinite] at hy
  | nan => simp [isFinite] at hy
  | finite s' m' e' =>
    rw [mul_zero_finite]
    cases x with
    | inf s => simp [regular] at hx
    | nan => simp [regular] at hx
    | finite s m e =>
      simp only [regular, Bool.or_eq_true, Bool.and_eq_true, decide_eq_true_eq,
        Bool.not_eq_true'] at hx
      have he : -149 ≤ e := by
        rcases hx with h | h
        · exact h.1.2
        · omega
      unfold add
      have hE : min e (-149) = -149 := min_eq_right he
      simp only [hE, sub_self, Int.toNat_zero, pow_zero, mul_one, Nat.cast_zero, mul_zero,
        zero_mul, add_zero]
      by_cases hm : m = 0
      · subst hm
        rcases hx with h | h
        · omega
        · rcases h.2 with h3 | h3
          · exact absurd rfl h3
          · subst h3
            have := h.1.2
            subst this
            simp
      · have hne : ((if s = true then (-1 : Int) else 1) *
            ((m * 2 ^ (e - (-149)).toNat : Nat) : Int)) ≠ 0 := by
          have : (m * 2 ^ (e - (-149)).toNat : Nat) ≠ 0 := by positivity
          cases s <;> simp <;> omega
        rw [if_neg hne]
        have hsign : decide ((if s = true then (-1 : Int) else 1) *
            ((m * 2 ^ (e - (-149)).toNat : Nat) : Int) < 0) = s := by
          have : 0 < ((m * 2 ^ (e - (-149)).toNat : Nat) : Int) := by positivity
          cases s
          · simp
          · simp
            omega
        have habs : ((if s = true then (-1 : Int) else 1) *
            ((m * 2 ^ (e - (-149)).toNat : Nat) : Int)).natAbs =
            m * 2 ^ (e - (-149)).toNat := by
          cases s
          · rw [if_neg (by decide), one_mul]
            exact Int.natAbs_ofNat _
          · rw [if_pos rfl, neg_one_mul, Int.natAbs_neg]
            exact Int.natAbs_ofNat _
        rw [hsign, habs]
        obtain ⟨k, hk⟩ : ∃ k : Nat, e = (k : Int) - 149 := ⟨(e + 149).toNat, by omega⟩
        have hk2 : (e - (-149)).toNat = k := by omega
        have he2 : (-149 : Int) = e - (k : Int) := by omega
        rw [hk2, he2]
        apply round_regular s m k e hm (by rcases hx with h | h <;> omega)
        rcases hx with h | h
        · exact Or.inl ⟨h.1.1.1, h.1.1.2, h.1.2, h.2⟩
        · exact Or.inr ⟨h.1.1, h.1.2⟩

theorem ofInt_one : ofInt 1 = finite false 8388608 (-23) := by decide

theorem mul_one_regular (x : Binary32) (hx : regular x = true) : mul x (ofInt 1) = x := by
  cases x with
  | inf s => simp [regular] at hx
  | nan => simp [regular] at hx
  | finite s m e =>
    simp only [regular, Bool.or_eq_true, Bool.and_eq_true, decide_eq_true_eq,
      Bool.not_eq_true'] at hx
    rw [ofInt_one]
    have hs : (s != false) = s := by cases s <;> rfl
    show round (s != false) (m * 8388608) (e + (-23)) false = finite s m e
    rw [hs]
    by_cases hm : m = 0
    · subst hm
      rcases hx with h | h
      · omega
      · rcases h.2 with h3 | h3
        · exact absurd rfl h3
        · have := h.1.2
          subst this
          simp [round]
    · have h23 : (8388608 : Nat) = 2 ^ 23 := by norm_num
      have he : e + (-23 : Int) = e - ((23 : Nat) : Int) := by push_cast; ring
      rw [h23, he]
      apply round_regular s m 23 e hm (by norm_num)
      rcases hx with h | h
      · exact Or.inl ⟨h.1.1.1, h.1.1.2, h.1.2, h.2⟩
      · exact Or.inr ⟨h.1.1, h.1.2⟩

theorem isFinite_of_regular (x : Binary32) (h : regular x = true) : isFinite x = true := by
  cases x <;> simp_all [regular, isFinite]

/-- C24 (as stated, refuted): in binary32 the second half does not end at R
and the halves do not keep T. For the wall 4 wide and 2 high and the eye
(0.1f, 0.1f, 1) the frustum before the adjustment has R = 15938355 * 2^-23
(1.899999976), and for the viewport (0.5, 0, 0.5, 1) the right edge is
15938356 * 2^-23 (1.900000095). For the wall 3 wide and 2 high and the eye
(0.3f, 0.2f, 1) the frustum before the adjustment has T = 13421773 * 2^-24
(0.800000012), and for both halves the top is 13421772 * 2^-24
(0.799999952). -/
theorem computeFrustumCorners_halves_rounded :
    (Numeric.pixelStage arith (rightHalf wall)
      (Numeric.cornerStage arith (rightHalf wall)
        ⟨ofFraction 1 10, ofFraction 1 10, ofInt 1⟩ false)).right =
      finite false 15938355 (-23) ∧
    (Numeric._computeFrustumCorners arith (rightHalf wall)
      ⟨ofFraction 1 10, ofFraction 1 10, ofInt 1⟩ false).right =
      finite false 15938356 (-23) ∧
    (Numeric.pixelStage arith (leftHalf wall3)
      (Numeric.cornerStage arith (leftHalf wall3)
        ⟨ofFraction 3 10, ofFraction 2 10, ofInt 1⟩ false)).top =
      finite false 13421773 (-24) ∧
    (Numeric._computeFrustumCorners arith (leftHalf wall3)
      ⟨ofFraction 3 10, ofFraction 2 10, ofInt 1⟩ false).top =
      finite false 13421772 (-24) ∧
    (Numeric._computeFrustumCorners arith (rightHalf wall3)
      ⟨ofFraction 3 10, ofFraction 2 10, ofInt 1⟩ false).top =
      finite false 13421772 (-24) := by
  refine ⟨by decide, by decide, by decide, by decide, by decide⟩

/-- C24 (amended): viewport decomposition of the frustum in binary32, every
operation rounding once. For an inherited viewport vp that passes the test
`vp != Viewport::FULL && vp.isValid()` and the frustum (L, R, B, T) before the
adjustment, `_computeFrustumCorners` yields left = L + (R-L) vp.x,
right = left + (R-L) vp.w, bottom = B + (T-B) vp.y,
top = bottom + (T-B) vp.h, near and far unchanged. For two inputs with the
same eye and frustum data and the viewports (0, 0, 0.5, 1) and
(0.5, 0, 0.5, 1): when L is finite and not the negative zero and R-L is
finite, the first frustum starts at L, its right edge is the left edge of the
second, L + (R-L) 0.5, and the second ends at
(L + (R-L) 0.5) + (R-L) 0.5; when B and T-B are finite and not the negative
zero, both keep B and both have the top B + (T-B). The sums are rounded: the
second need not end at R and the tops need not be T. -/
theorem computeFrustumCorners_viewport_rounded (inp : Numeric.CornerInput Binary32)
    (eye : Numeric.Vector3Of Binary32) (ortho : Bool) (F : Numeric.FrustumOf Binary32)
    (hF : F = Numeric.pixelStage arith inp (Numeric.cornerStage arith inp eye ortho)) :
    (inp.vpDecomposed = true →
      (Numeric._computeFrustumCorners arith inp eye ortho).left =
        add F.left (mul (sub F.right F.left) inp.vp.x) ∧
      (Numeric._computeFrustumCorners arith inp eye ortho).right =
        add (Numeric._computeFrustumCorners arith inp eye ortho).left
          (mul (sub F.right F.left) inp.vp.w) ∧
      (Numeric._computeFrustumCorners arith inp eye ortho).bottom =
        add F.bottom (mul (sub F.top F.bottom) inp.vp.y) ∧
      (Numeric._computeFrustumCorners arith inp eye ortho).top =
        add (Numeric._computeFrustumCorners arith inp eye ortho).bottom
          (mul (sub F.top F.bottom) inp.vp.h) ∧
      (Numeric._computeFrustumCorners arith inp eye ortho).near_plane = F.near_plane ∧
      (Numeric._computeFrustumCorners arith inp eye ortho).far_plane = F.far_plane) ∧
    (regular F.left = true → isFinite (sub F.right F.left) = true →
      (Numeric._computeFrustumCorners arith (leftHalf inp) eye ortho).left = F.left ∧
      (Numeric._computeFrustumCorners arith (leftHalf inp) eye ortho).right =
        (Numeric._computeFrustumCorners arith (rightHalf inp) eye ortho).left ∧
      (Numeric._computeFrustumCorners arith (rightHalf inp) eye ortho).left =
        add F.left (mul (sub F.right F.left) (ofFraction 1 2)) ∧
      (Numeric._computeFrustumCorners arith (rightHalf inp) eye ortho).right =
        add (add F.left (mul (sub F.right F.left) (ofFraction 1 2)))
          (mul (sub F.right F.left) (ofFraction 1 2))) ∧
    (regular F.bottom = true → regular (sub F.top F.bottom) = true →
      (Numeric._computeFrustumCorners arith (leftHalf inp) eye ortho).bottom = F.bottom ∧
      (Numeric._computeFrustumCorners arith (rightHalf inp) eye ortho).bottom = F.bottom ∧
      (Numeric._computeFrustumCorners arith (leftHalf inp) eye ortho).top =
        add F.bottom (sub F.top F.bottom) ∧
      (Numeric._computeFrustumCorners arith (rightHalf inp) eye ortho).top =
        add F.bottom (sub F.top F.bottom)) := by
  have e1 : Numeric._computeFrustumCorners arith (leftHalf inp) eye ortho =
      ⟨add F.left (mul (sub F.right F.left) (ofInt 0)),
       add (add F.left (mul (sub F.right F.left) (ofInt 0)))
         (mul (sub F.right F.left) (ofFraction 1 2)),
       add F.bottom (mul (sub F.top F.bottom) (ofInt 0)),
       add (add F.bottom (mul (sub F.top F.bottom) (ofInt 0)))
         (mul (sub F.top F.bottom) (ofInt 1)),
       F.near_plane, F.far_plane⟩ := by
    rw [Numeric.corners_stages, hF]
    exact Numeric.viewportStage_of_decomposed arith (leftHalf inp) _ rfl
  have e2 : Numeric._computeFrustumCorners arith (rightHalf inp) eye ortho =
      ⟨add F.left (mul (sub F.right F.left) (ofFraction 1 2)),
       add (add F.left (mul (sub F.right F.left) (ofFraction 1 2)))
         (mul (sub F.right F.left) (ofFraction 1 2)),
       add F.bottom (mul (sub F.top F.bottom) (ofInt 0)),
       add (add F.bottom (mul (sub F.top F.bottom) (ofInt 0)))
         (mul (sub F.top F.bottom) (ofInt 1)),
       F.near_plane, F.far_plane⟩ := by
    rw [Numeric.corners_stages, hF]
    exact Numeric.viewportStage_of_decomposed arith (rightHalf inp) _ rfl
  refine ⟨?_, ?_, ?_⟩
  · intro h
    rw [Numeric.corners_stages, ← hF, Numeric.viewportStage_of_decomposed arith inp F h]
    exact ⟨rfl, rfl, rfl, rfl, rfl, rfl⟩
  · intro hL hW
    rw [e1, e2]
    dsimp only
    rw [add_mul_zero F.left _ hL hW]
    exact ⟨rfl, rfl, rfl, rfl⟩
  · intro hB hH
    rw [e1, e2]
    dsimp only
    rw [add_mul_zero F.bottom _ hB (isFinite_of_regular _ hH), mul_one_regular _ hH]
    exact ⟨rfl, rfl, rfl, rfl⟩

/-- Witness of C24 (amended): the binary32 wall 4 wide and 2 high seen from
(0.1f, 0.1f, 1): the left half ends where the right half starts, and both
halves have the top B + (T-B). -/
theorem computeFrustumCorners_viewport_rounded_witness :
    (Numeric._computeFrustumCorners arith (leftHalf wall)
        ⟨ofFraction 1 10, ofFraction 1 10, ofInt 1⟩ false).right =
      (Numeric._computeFrustumCorners arith (rightHalf wall)
        ⟨ofFraction 1 10, ofFraction 1 10, ofInt 1⟩ false).left ∧
    (Numeric._computeFrustumCorners arith (rightHalf wall)
        ⟨ofFraction 1 10, ofFraction 1 10, ofInt 1⟩ false).top =
      finite false 15099494 (-24) :=
  have h := computeFrustumCorners_viewport_rounded wall
    ⟨ofFraction 1 10, ofFraction 1 10, ofInt 1⟩ false _ rfl
  ⟨(h.2.1 (by decide) (by decide)).2.1,
   ((h.2.2 (by decide) (by decide)).2.2.2).trans (by decide)⟩

end Binary32

namespace Numeric

theorem pixelStage_of_decomposed {α : Type} (A : Arith α) (inp : CornerInput α)
    (F : FrustumOf α) (h : inp.pixelDecomposed = true) :
    pixelStage A inp F =
      ⟨if inp.pixel.w > 1 then
          A.add F.left
            (A.sub (A.mul (A.div (A.sub F.right F.left) (A.ofInt inp.destPVP.w))
                (A.ofInt inp.pixel.x))
              (A.mul (A.div (A.sub F.right F.left) (A.ofInt inp.destPVP.w)) A.half))
        else F.left,
       if inp.pixel.w > 1 then
          A.add F.right
            (A.sub (A.mul (A.div (A.sub F.right F.left) (A.ofInt inp.destPVP.w))
                (A.ofInt inp.pixel.x))
              (A.mul (A.div (A.sub F.right F.left) (A.ofInt inp.destPVP.w)) A.half))
        else F.right,
       if inp.pixel.h > 1 then
          A.sub F.bottom
            (A.add (A.mul (A.div (A.sub F.bottom F.top) (A.ofInt inp.destPVP.h))
                (A.ofInt inp.pixel.y))
              (A.mul (A.div (A.sub F.bottom F.top) (A.ofInt inp.destPVP.h)) A.half))
        else F.bottom,
       if inp.pixel.h > 1 then
          A.sub F.top
            (A.add (A.mul (A.div (A.sub F.bottom F.top) (A.ofInt inp.destPVP.h))
                (A.ofInt inp.pixel.y))
              (A.mul (A.div (A.sub F.bottom F.top) (A.ofInt inp.destPVP.h)) A.half))
        else F.top,
       F.near_plane, F.far_plane⟩ := by
  unfold pixelStage
  dsimp only
  rw [if_pos h]
  by_cases hw : inp.pixel.w > 1 <;> by_cases hh : inp.pixel.h > 1 <;> simp [hw, hh]

end Numeric

namespace Binary32

/-- C25 (as stated, refuted): in binary32 the jitter changes the width. For
the wall 4 wide and 2 high, the eye (0.07f, 0, 1), a destination 1280 pixels
wide and the pixel decomposition (1, 0, 2, 1), the frustum before the move
has the width right - left = 4, and the frustum `_computeFrustumCorners`
yields has the width 16777215 * 2^-22 (3.999999761581421). -/
theorem computeFrustumCorners_jitter_changes_width :
    sub (Numeric.cornerStage arith (secondColumn wall)
          ⟨ofFraction 7 100, ofInt 0, ofInt 1⟩ false).right
        (Numeric.cornerStage arith (secondColumn wall)
          ⟨ofFraction 7 100, ofInt 0, ofInt 1⟩ false).left = ofInt 4 ∧
    Numeric._computeFrustumCorners arith (secondColumn wall)
        ⟨ofFraction 7 100, ofInt 0, ofInt 1⟩ false =
      ⟨finite true 8675655 (-22), finite false 16203120 (-23),
       finite true 8388608 (-23), finite false 8388608 (-23), ofInt 1, ofInt 100⟩ ∧
    sub (Numeric._computeFrustumCorners arith (secondColumn wall)
          ⟨ofFraction 7 100, ofInt 0, ofInt 1⟩ false).right
        (Numeric._computeFrustumCorners arith (secondColumn wall)
          ⟨ofFraction 7 100, ofInt 0, ofInt 1⟩ false).left =
      finite false 16777215 (-22) ∧
    finite false 16777215 (-22) ≠ ofInt 4 := by
  refine ⟨by decide, by decide, by decide, by decide⟩

/-- C25 (amended): pixel decomposition jitter, every operation being one
rounded `float` operation. For an inherited pixel decomposition that passes
the test `pixel != Pixel::ALL && pixel.isValid()` and the frustum
(L, R, B, T) of the corner assignment: when pixel.w > 1, left and right
become L + jx and R + jx with jx = pw * pixel.x - pw * 0.5 and
pw = (R - L) / float(destPVP.w); when pixel.h > 1, bottom and top become
B - jy and T - jy with jy = ph * pixel.y + ph * 0.5 and
ph = (B - T) / float(destPVP.h); with pixel.w <= 1 left and right are not
moved and with pixel.h <= 1 bottom and top are not moved; near and far are
unchanged. The moved frustum is the input of the viewport adjustment and,
for a viewport that fails the viewport test, the result. Each edge is the
rounded sum of the edge and the jitter: nothing is stated of the width
right - left or the height top - bottom after the move. -/
theorem computeFrustumCorners_pixel_jitter_rounded {α : Type} (A : Numeric.Arith α)
    (inp : Numeric.CornerInput α) (eye : Numeric.Vector3Of α) (ortho : Bool)
    (F J : Numeric.FrustumOf α)
    (hF : F = Numeric.cornerStage A inp eye ortho)
    (hJ : J = Numeric.pixelStage A inp F)
    (hp : inp.pixelDecomposed = true) :
    (inp.pixel.w > 1 →
      J.left = A.add F.left
        (A.sub (A.mul (A.div (A.sub F.right F.left) (A.ofInt inp.destPVP.w))
            (A.ofInt inp.pixel.x))
          (A.mul (A.div (A.sub F.right F.left) (A.ofInt inp.destPVP.w)) A.half)) ∧
      J.right = A.add F.right
        (A.sub (A.mul (A.div (A.sub F.right F.left) (A.ofInt inp.destPVP.w))
            (A.ofInt inp.pixel.x))
          (A.mul (A.div (A.sub F.right F.left) (A.ofInt inp.destPVP.w)) A.half))) ∧
    (inp.pixel.h > 1 →
      J.bottom = A.sub F.bottom
        (A.add (A.mul (A.div (A.sub F.bottom F.top) (A.ofInt inp.destPVP.h))
            (A.ofInt inp.pixel.y))
          (A.mul (A.div (A.sub F.bottom F.top) (A.ofInt inp.destPVP.h)) A.half)) ∧
      J.top = A.sub F.top
        (A.add (A.mul (A.div (A.sub F.bottom F.top) (A.ofInt inp.destPVP.h))
            (A.ofInt inp.pixel.y))
          (A.mul (A.div (A.sub F.bottom F.top) (A.ofInt inp.destPVP.h)) A.half))) ∧
    (inp.pixel.w ≤ 1 → J.left = F.left ∧ J.right = F.right) ∧
    (inp.pixel.h ≤ 1 → J.bottom = F.bottom ∧ J.top = F.top) ∧
    J.near_plane = F.near_plane ∧ J.far_plane = F.far_plane ∧
    Numeric._computeFrustumCorners A inp eye ortho = Numeric.viewportStage A inp J ∧
    (inp.vpDecomposed = false → Numeric._computeFrustumCorners A inp eye ortho = J) := by
  have hJ2 := hJ
  rw [Numeric.pixelStage_of_decomposed A inp F hp] at hJ2
  have hres : Numeric._computeFrustumCorners A inp eye ortho = Numeric.viewportStage A inp J := by
    rw [Numeric.corners_stages, hJ, hF]
  refine ⟨?_, ?_, ?_, ?_, ?_, ?_, hres, ?_⟩
  · intro hw
    rw [hJ2]
    dsimp only
    exact ⟨if_pos hw, if_pos hw⟩
  · intro hh
    rw [hJ2]
    dsimp only
    exact ⟨if_pos hh, if_pos hh⟩
  · intro hw
    rw [hJ2]
    dsimp only
    exact ⟨if_neg (by omega), if_neg (by omega)⟩
  · intro hh
    rw [hJ2]
    dsimp only
    exact ⟨if_neg (by omega), if_neg (by omega)⟩
  · rw [hJ2]
  · rw [hJ2]
  · intro hv
    rw [hres, Numeric.viewportStage_of_full A inp J hv]

/-- Witness of C25 (amended): the binary32 wall 4 wide and 2 high seen from
(0.07f, 0, 1), destination 1280 pixels wide, pixel decomposition
(1, 0, 2, 1): the frustum returned has the edges of the corner assignment
moved by the rounded jitter. -/
theorem computeFrustumCorners_pixel_jitter_rounded_witness :
    (secondColumn wall).pixelDecomposed = true ∧
    (secondColumn wall).pixel.w > 1 ∧
    (Numeric._computeFrustumCorners arith (secondColumn wall)
        ⟨ofFraction 7 100, ofInt 0, ofInt 1⟩ false).left =
      finite true 8675655 (-22) ∧
    (Numeric._computeFrustumCorners arith (secondColumn wall)
        ⟨ofFraction 7 100, ofInt 0, ofInt 1⟩ false).right =
      finite false 16203120 (-23) :=
  have h := computeFrustumCorners_pixel_jitter_rounded arith (secondColumn wall)
    ⟨ofFraction 7 100, ofInt 0, ofInt 1⟩ false _ _ rfl rfl rfl
  ⟨rfl, by decide,
    (h.2.2.2.2.2.2.2 rfl).symm ▸ (h.1 (by decide)).1.trans (by decide),
    (h.2.2.2.2.2.2.2 rfl).symm ▸ (h.1 (by decide)).2.trans (by decide)⟩

end Binary32

namespace Numeric

/-- In exact arithmetic the right half of a frustum ends at its right edge and
keeps its top. -/
theorem viewportStage_half_exact (inp : CornerInput ℚ) (F : FrustumOf ℚ) :
    (viewportStage exact { inp with vp := ⟨1 / 2, 0, 1 / 2, 1⟩, vpDecomposed := true } F).right =
      F.right ∧
    (viewportStage exact { inp with vp := ⟨1 / 2, 0, 1 / 2, 1⟩, vpDecomposed := true } F).top =
      F.top := by
  rw [viewportStage_of_decomposed exact _ F rfl]
  dsimp only [exact]
  constructor <;> ring

/-- In exact arithmetic the move by the pixel decomposition keeps the width
and the height of the frustum. -/
theorem pixelStage_extent_exact (inp : CornerInput ℚ) (F : FrustumOf ℚ) :
    (pixelStage exact inp F).right - (pixelStage exact inp F).left = F.right - F.left ∧
    (pixelStage exact inp F).top - (pixelStage exact inp F).bottom = F.top - F.bottom := by
  by_cases hp : inp.pixelDecomposed = true
  · rw [pixelStage_of_decomposed exact inp F hp]
    dsimp only [exact]
    constructor
    · split_ifs <;> ring
    · split_ifs <;> ring
  · unfold pixelStage
    dsimp only
    rw [if_neg hp]
    exact ⟨rfl, rfl⟩

end Numeric

end Equalizer
